import Mathlib

/-!
# Local optimizations of the ARM LIR (`vm/compiler/codegen/arm/LocalOptimizations.cpp`)

A shallow embedding of the four intra-block passes
(`applyLoadStoreElimination`, `applyLoadHoisting`, `applyShiftArithmeticOpts`,
`applyMultiplyArithmeticOpts`) and of their driver
`dvmCompilerApplyLocalOptimizations`.

The doubly-linked instruction list between `headLIR` and `tailLIR` is a Lean
list; a cursor into it is a pair of lists (the nodes before the cursor,
nearest first, and the nodes after it).  Resource masks (`u8`, 64 bits) are
natural numbers with the bitwise operations of `Nat`.  What the file takes
from headers that are not part of the translation unit (the encoding table,
the mask constants, the opcode numbers, the LIR builders) is a field of
`Target`.
-/

namespace LocalOpt

/-! ## Data model -/

/-- The four `int` operands of an LIR node (`operands[0..3]`). -/
structure Operands where
  op0 : Int
  op1 : Int
  op2 : Int
  op3 : Int
deriving DecidableEq

/-- The fields of `ArmLIR` that `LocalOptimizations.cpp` reads or writes. -/
structure ArmLIR where
  opcode : Int
  operands : Operands
  isNop : Bool
  useMask : Nat
  defMask : Nat
  aliasInfo : Int
deriving DecidableEq

/-- What `dvmCompilerNew(sizeof(ArmLIR), true)` returns: a zeroed node. -/
def dvmCompilerNew : ArmLIR :=
  { opcode := 0, operands := ⟨0, 0, 0, 0⟩, isNop := false,
    useMask := 0, defMask := 0, aliasInfo := 0 }

/-- The declarations the translation unit takes from its headers
(`ArmLIR.h`, `CompilerIR.h`, `Codegen.h`): encoding table, mask constants,
alias decoding, register classes, LIR builders, opcode and flag numbers. -/
structure Target where
  /-- The macro `isPseudoOpcode(opcode)`. -/
  isPseudoOpcode : Int → Bool
  /-- The table lookup `EncodingMap[opcode].flags`. -/
  encodingFlags : Int → Nat
  IS_LOAD : Nat
  IS_STORE : Nat
  ENCODE_REG_PC : Nat
  ENCODE_MEM : Nat
  ENCODE_LITERAL : Nat
  ENCODE_DALVIK_REG : Nat
  ENCODE_HEAP_REF : Nat
  DECODE_ALIAS_INFO_REG : Int → Int
  DECODE_ALIAS_INFO_WIDE : Int → Int
  REGTYPE : Int → Int
  /-- The builder `dvmCompilerRegCopyNoInsert(cUnit, dest, src)`. -/
  dvmCompilerRegCopyNoInsert : Int → Int → ArmLIR
  /-- The `useMask` and `defMask` that `dvmCompilerSetupResourceMasks(lir)`
  stores into `lir`. -/
  resourceMasks : ArmLIR → Nat × Nat
  kThumb2LslRRI5 : Int
  kThumb2LsrRRI5 : Int
  kThumbLslRRI5 : Int
  kThumbLsrRRI5 : Int
  kThumb2AddRRR : Int
  kThumb2Vmuld : Int
  kThumb2Vaddd : Int
  kThumb2Vmlad : Int
  kArmLsl : Int
  kArmLsr : Int
  kLoadStoreElimination : Nat
  kLoadHoisting : Nat
  kShiftArithmetic : Nat
  kMultiplyArithmetic : Nat

/-- Modelled from the spec: `ENCODE_ALL` "saturates all bits" of the 64-bit
mask word (its definition lives in a header outside the translation unit). -/
def ENCODE_ALL : Nat := 2 ^ 64 - 1

/-- Bitwise complement of a 64-bit mask word (`~m` on `u8`). -/
def maskNot (m : Nat) : Nat := ENCODE_ALL ^^^ (m % 2 ^ 64)

def MAX_HOIST_DISTANCE : Nat := 20
def LDLD_DISTANCE : Nat := 4
def LD_LATENCY : Nat := 2

/-- The macro `CHECK_REG_DEP(use, def, check)`. -/
def CHECK_REG_DEP (use defn : Nat) (check : ArmLIR) : Bool :=
  (defn &&& check.useMask != 0) || ((use ||| defn) &&& check.defMask != 0)

/-- The source's `isDalvikRegisterClobbered(lir1, lir2)`. -/
def isDalvikRegisterClobbered (T : Target) (lir1 lir2 : ArmLIR) : Bool :=
  let reg1Lo := T.DECODE_ALIAS_INFO_REG lir1.aliasInfo
  let reg1Hi := reg1Lo + T.DECODE_ALIAS_INFO_WIDE lir1.aliasInfo
  let reg2Lo := T.DECODE_ALIAS_INFO_REG lir2.aliasInfo
  let reg2Hi := reg2Lo + T.DECODE_ALIAS_INFO_WIDE lir2.aliasInfo
  (reg1Lo == reg2Lo) || (reg1Lo == reg2Hi) || (reg1Hi == reg2Lo)

/-- The test `EncodingMap[lir->opcode].flags & IS_LOAD`. -/
def isLoad (T : Target) (lir : ArmLIR) : Bool :=
  T.encodingFlags lir.opcode &&& T.IS_LOAD != 0

/-- The test `EncodingMap[lir->opcode].flags & IS_STORE`. -/
def isStore (T : Target) (lir : ArmLIR) : Bool :=
  T.encodingFlags lir.opcode &&& T.IS_STORE != 0

/-- The assignment `lir->flags.isNop = true`. -/
def markNop (lir : ArmLIR) : ArmLIR := { lir with isNop := true }

/-! ## Load/store elimination -/

/-- The mask `stopUseRegMask` of `applyLoadStoreElimination`. -/
def lseStopUseRegMask (T : Target) (thisLIR : ArmLIR) : Nat :=
  (T.ENCODE_REG_PC ||| thisLIR.useMask) &&& maskNot T.ENCODE_MEM

/-- The masks `stopDefRegMask` of both scheduling passes. -/
def stopDefRegMask (T : Target) (thisLIR : ArmLIR) : Nat :=
  thisLIR.defMask &&& maskNot T.ENCODE_MEM

/-- The mask `thisMemMask` of `applyLoadStoreElimination`. -/
def memMask (T : Target) (lir : ArmLIR) : Nat :=
  (lir.useMask ||| lir.defMask) &&& T.ENCODE_MEM

/-- What one iteration of the inner loop of `applyLoadStoreElimination` does
with `checkLIR`. -/
inductive LseAction where
  /-- The node `checkLIR` is already dead: `continue` (line 138). -/
  | skip
  /-- The node `checkLIR` is marked nop, after the optional move was inserted
  behind it: `continue` (line 227). -/
  | forward (move : Option ArmLIR)
  /-- A memory dependence: `break` (line 224), `thisLIR` marked nop when
  `nuke` (the WAW case). -/
  | memStop (nuke : Bool)
  /-- A register dependence: `break` (line 259); when `sink`, a copy of
  `thisLIR` is inserted before `checkLIR` and `thisLIR` is marked nop. -/
  | regStop (sink : Bool)
  /-- No dependence: `sinkDistance++` (line 261). -/
  | pass
deriving DecidableEq

/-- The value-forwarding step shared by the literal and the Dalvik-register
branch: `convertMemOpIntoMove` when the destinations differ, then
`checkLIR->flags.isNop = true`. -/
def lseForward (T : Target) (thisLIR checkLIR : ArmLIR) : LseAction :=
  if checkLIR.operands.op0 != thisLIR.operands.op0 then
    .forward (some (T.dvmCompilerRegCopyNoInsert checkLIR.operands.op0 thisLIR.operands.op0))
  else .forward none

/-- The tail of the inner loop body of `applyLoadStoreElimination`
(lines 237-262), reached with `stopHere == false`. -/
def lseRegCheck (T : Target) (thisLIR : ArmLIR) (sinkDistance : Nat)
    (checkLIR : ArmLIR) : LseAction :=
  if CHECK_REG_DEP (lseStopUseRegMask T thisLIR) (stopDefRegMask T thisLIR) checkLIR then
    .regStop (sinkDistance != 0 && !isLoad T thisLIR)
  else .pass

/-- The body of the inner loop of `applyLoadStoreElimination`
(lines 134-262) for one `checkLIR`. -/
def lseCheck (T : Target) (thisLIR : ArmLIR) (sinkDistance : Nat)
    (checkLIR : ArmLIR) : LseAction :=
  if checkLIR.isNop then .skip
  else
    let thisMemMask := memMask T thisLIR
    let checkMemMask := memMask T checkLIR
    let aliasCondition := thisMemMask &&& checkMemMask
    if checkMemMask != T.ENCODE_MEM && aliasCondition != 0 then
      let isThisLIRLoad := isLoad T thisLIR
      let isCheckLIRLoad := isLoad T checkLIR
      if aliasCondition == T.ENCODE_LITERAL then
        if checkLIR.aliasInfo == thisLIR.aliasInfo &&
            T.REGTYPE checkLIR.operands.op0 == T.REGTYPE thisLIR.operands.op0 then
          lseForward T thisLIR checkLIR
        else lseRegCheck T thisLIR sinkDistance checkLIR
      else if aliasCondition == T.ENCODE_DALVIK_REG then
        if checkLIR.aliasInfo == thisLIR.aliasInfo then
          let regCompatible :=
            T.REGTYPE checkLIR.operands.op0 == T.REGTYPE thisLIR.operands.op0
          if (isThisLIRLoad && isCheckLIRLoad) || (!isThisLIRLoad && isCheckLIRLoad) then
            if regCompatible then lseForward T thisLIR checkLIR
            else .memStop false
          else if isThisLIRLoad && !isCheckLIRLoad then .memStop false
          else if !isThisLIRLoad && !isCheckLIRLoad then .memStop true
          else lseRegCheck T thisLIR sinkDistance checkLIR
        else if isDalvikRegisterClobbered T thisLIR checkLIR then .memStop false
        else lseRegCheck T thisLIR sinkDistance checkLIR
      else lseRegCheck T thisLIR sinkDistance checkLIR
    else lseRegCheck T thisLIR sinkDistance checkLIR

/-- The outcome of the inner loop of `applyLoadStoreElimination` for one
`thisLIR`: the nodes between `thisLIR` and `tailLIR` afterwards, whether
`thisLIR` was marked nop, and a record of what was done (for the store
clone, its index in `post`; for each node the loop marked nop, its index in
`post`). -/
structure LseScan where
  post : List ArmLIR
  thisNop : Bool
  sunkAt : Option Nat
  killed : List Nat
deriving DecidableEq

/-- The inner loop of `applyLoadStoreElimination` (lines 130-263).  `done`
holds the nodes already passed (nearest to `checkLIR` first) and `rest` the
nodes from `checkLIR` up to `tailLIR`.  An inserted move is the next
`checkLIR`, so the loop is driven by a step budget; `none` means the budget
ran out. -/
def lseScan (T : Target) (thisLIR : ArmLIR) :
    Nat → Nat → List Nat → List ArmLIR → List ArmLIR → Option LseScan
  | 0, _, _, _, _ => none
  | _ + 1, _, killed, done, [] =>
      some { post := done.reverse, thisNop := false, sunkAt := none, killed := killed }
  | fuel + 1, sinkDistance, killed, done, checkLIR :: rest =>
      match lseCheck T thisLIR sinkDistance checkLIR with
      | .skip => lseScan T thisLIR fuel sinkDistance killed (checkLIR :: done) rest
      | .forward none =>
          lseScan T thisLIR fuel sinkDistance (done.length :: killed)
            (markNop checkLIR :: done) rest
      | .forward (some moveLIR) =>
          lseScan T thisLIR fuel sinkDistance (done.length :: killed)
            (markNop checkLIR :: done) (moveLIR :: rest)
      | .memStop nuke =>
          some { post := done.reverse ++ checkLIR :: rest, thisNop := nuke,
                 sunkAt := none, killed := killed }
      | .regStop true =>
          some { post := done.reverse ++ thisLIR :: checkLIR :: rest, thisNop := true,
                 sunkAt := some done.length, killed := killed }
      | .regStop false =>
          some { post := done.reverse ++ checkLIR :: rest, thisNop := false,
                 sunkAt := none, killed := killed }
      | .pass => lseScan T thisLIR fuel (sinkDistance + 1) killed (checkLIR :: done) rest

/-- The step budget that suffices for `lseScan` on `rest`: every node is
visited once, and every node that is forwarded brings one move with it. -/
def lseFuel (rest : List ArmLIR) : Nat := 2 * rest.length + 1

/-- The test at lines 102-118 of `applyLoadStoreElimination`: `thisLIR` is a
live load or store that touches the literal pool or the Dalvik frame. -/
def lseInteresting (T : Target) (thisLIR : ArmLIR) : Bool :=
  !(thisLIR.isNop || T.isPseudoOpcode thisLIR.opcode ||
      !(T.encodingFlags thisLIR.opcode &&& (T.IS_LOAD ||| T.IS_STORE) != 0)) &&
    (memMask T thisLIR &&& (T.ENCODE_LITERAL ||| T.ENCODE_DALVIK_REG) != 0)

/-- The outer loop of `applyLoadStoreElimination` (lines 96-264): `before`
holds the nodes from `thisLIR` back to the node after `headLIR`, `post` the
nodes after `thisLIR` up to `tailLIR`. -/
def lseLoop (T : Target) : List ArmLIR → List ArmLIR → Option (List ArmLIR)
  | [], post => some post
  | thisLIR :: before, post =>
      if lseInteresting T thisLIR then
        match lseScan T thisLIR (lseFuel post) 0 [] [] post with
        | none => none
        | some r =>
            lseLoop T before ((if r.thisNop then markNop thisLIR else thisLIR) :: r.post)
      else lseLoop T before (thisLIR :: post)

/-- A superblock: the nodes from `headLIR` to `tailLIR`.  `single` is the
empty block, where both pointers name one node. -/
inductive Block where
  | single (node : ArmLIR)
  | span (head : ArmLIR) (body : List ArmLIR) (tail : ArmLIR)
deriving DecidableEq

/-- The nodes of a block in list order. -/
def Block.nodes : Block → List ArmLIR
  | .single n => [n]
  | .span h body t => h :: body ++ [t]

/-- The source's `applyLoadStoreElimination(cUnit, headLIR, tailLIR)`. -/
def applyLoadStoreElimination (T : Target) : Block → Option Block
  | .single n => some (.single n)
  | .span h body t => (lseLoop T body.reverse []).map (fun body' => .span h body' t)

/-! ## Load hoisting -/

/-- The mask `stopUseAllMask` of `applyLoadHoisting` (lines 297-307). -/
def hoistStopUseAllMask (T : Target) (thisLIR : ArmLIR) : Nat :=
  if thisLIR.useMask &&& T.ENCODE_HEAP_REF != 0 then thisLIR.useMask ||| T.ENCODE_REG_PC
  else thisLIR.useMask

/-- The mask `stopUseRegMask` of `applyLoadHoisting` (line 310). -/
def hoistStopUseRegMask (T : Target) (thisLIR : ArmLIR) : Nat :=
  hoistStopUseAllMask T thisLIR &&& maskNot T.ENCODE_MEM

/-- What one iteration of the backward walk of `applyLoadHoisting` does with
`checkLIR`. -/
inductive HoistAction where
  /-- The node `checkLIR` is dead: `continue` (line 325). -/
  | skip
  /-- A memory dependence: record `checkLIR` and `break` (lines 346-349). -/
  | memStop
  /-- Record `checkLIR` (lines 361-364); `stopHere` tells whether it bears a
  register dependence (`break` at line 370). -/
  | record (stopHere : Bool)
  /-- An independent pseudo instruction: neither recorded nor a stop. -/
  | ignore
deriving DecidableEq

/-- Lines 352-371 of `applyLoadHoisting`, reached with `stopHere == false`. -/
def hoistRegCheck (T : Target) (thisLIR checkLIR : ArmLIR) : HoistAction :=
  let stopHere :=
    CHECK_REG_DEP (hoistStopUseRegMask T thisLIR) (stopDefRegMask T thisLIR) checkLIR
  if stopHere || !T.isPseudoOpcode checkLIR.opcode then .record stopHere else .ignore

/-- The body of the backward walk of `applyLoadHoisting` (lines 321-371) for
one `checkLIR`. -/
def hoistCheck (T : Target) (thisLIR checkLIR : ArmLIR) : HoistAction :=
  if checkLIR.isNop then .skip
  else
    let checkMemMask := checkLIR.defMask &&& T.ENCODE_MEM
    let aliasCondition := hoistStopUseAllMask T thisLIR &&& checkMemMask
    if checkMemMask != T.ENCODE_MEM && aliasCondition != 0 then
      if aliasCondition == T.ENCODE_DALVIK_REG then
        if checkLIR.aliasInfo == thisLIR.aliasInfo ||
            isDalvikRegisterClobbered T thisLIR checkLIR then .memStop
        else hoistRegCheck T thisLIR checkLIR
      else .memStop
    else hoistRegCheck T thisLIR checkLIR

/-- An entry of `prevInstList`: a pointer to a node before `thisLIR`, kept as
the node's distance from `thisLIR` (0 for `PREV_LIR(thisLIR)`, the length of
the walked list for `headLIR`) together with the node it points to. -/
abbrev Slot := Nat × ArmLIR

/-- The backward walk of `applyLoadHoisting` (lines 317-372) over the nodes
before `thisLIR`, nearest first, `headLIR` excluded.  Returns `prevInstList`
(`nextSlot` is its length) and `stopHere`. -/
def hoistWalk (T : Target) (thisLIR : ArmLIR) :
    Nat → List Slot → List ArmLIR → List Slot × Bool
  | _, prevInstList, [] => (prevInstList, false)
  | idx, prevInstList, checkLIR :: more =>
      match hoistCheck T thisLIR checkLIR with
      | .skip => hoistWalk T thisLIR (idx + 1) prevInstList more
      | .memStop => (prevInstList ++ [(idx, checkLIR)], true)
      | .record stopHere =>
          if (prevInstList ++ [(idx, checkLIR)]).length == MAX_HOIST_DISTANCE then
            (prevInstList ++ [(idx, checkLIR)], stopHere)
          else if stopHere then (prevInstList ++ [(idx, checkLIR)], true)
          else hoistWalk T thisLIR (idx + 1) (prevInstList ++ [(idx, checkLIR)]) more
      | .ignore => hoistWalk T thisLIR (idx + 1) prevInstList more

/-- The walk followed by lines 374-380: `headLIR` is recorded as the
dependent marker when the walk reached the top. -/
def hoistCollect (T : Target) (headLIR : ArmLIR) (back : List ArmLIR)
    (thisLIR : ArmLIR) : List Slot :=
  let w := hoistWalk T thisLIR 0 [] back
  if !w.2 && w.1.length < MAX_HOIST_DISTANCE then w.1 ++ [(back.length, headLIR)] else w.1

/-- The body of the slot loop of `applyLoadHoisting` (lines 400-435):
`some true` is `break`, `some false` is falling through to `slot--`, `none`
is a read of `prevInstList` at an index that was not written. -/
def hoistSlotTest (T : Target) (prevInstList : List Slot) (slot : Nat) : Option Bool :=
  match prevInstList[slot]?, prevInstList[slot + 1]? with
  | some curLIR, some prevLIR =>
      if prevLIR.2.defMask == ENCODE_ALL then
        if isLoad T curLIR.2 then some false else some true
      else if ((curLIR.2.useMask &&& prevLIR.2.defMask != 0) && isLoad T prevLIR.2) ||
          decide (slot < LD_LATENCY) then some true
      else some false
  | _, _ => none

/-- The slot loop of `applyLoadHoisting` (lines 399-436) entered at `slot`;
`some none` is the exit with `slot == -1`. -/
def hoistSlotLoop (T : Target) (prevInstList : List Slot) : Nat → Option (Option Nat)
  | 0 =>
      match hoistSlotTest T prevInstList 0 with
      | none => none
      | some true => some (some 0)
      | some false => some none
  | slot + 1 =>
      match hoistSlotTest T prevInstList (slot + 1) with
      | none => none
      | some true => some (some (slot + 1))
      | some false => hoistSlotLoop T prevInstList slot

/-- Lines 386-436 of `applyLoadHoisting`: the value of `slot` after the
slot loop, `some none` when no slot was found. -/
def hoistSelect (T : Target) (prevInstList : List Slot) : Option (Option Nat) :=
  if 2 ≤ prevInstList.length then
    match prevInstList[prevInstList.length - 1]? with
    | none => none
    | some depLIR =>
        let firstSlot : Int :=
          (prevInstList.length : Int) - 2 -
            (if !T.isPseudoOpcode depLIR.2.opcode && isLoad T depLIR.2
              then (LDLD_DISTANCE : Int) else 0)
        if firstSlot < 0 then some none else hoistSlotLoop T prevInstList firstSlot.toNat
  else some none

/-- The outcome of `applyLoadHoisting` for one load: the nodes before it
afterwards (nearest first), the load itself, and, when it was hoisted, the
distance of the node `curLIR` before which the copy was inserted. -/
structure HoistVisit where
  back : List ArmLIR
  thisLIR : ArmLIR
  hoistedTo : Option Nat
deriving DecidableEq

/-- The body of the outer loop of `applyLoadHoisting` (lines 297-452) for a
live load `thisLIR`.  `none` stands for a read of `prevInstList` outside what
was written and for `dvmCompilerInsertLIRBefore` applied to `headLIR`. -/
def hoistVisit (T : Target) (headLIR : ArmLIR) (back : List ArmLIR)
    (thisLIR : ArmLIR) : Option HoistVisit :=
  let prevInstList := hoistCollect T headLIR back thisLIR
  match hoistSelect T prevInstList with
  | none => none
  | some none => some { back := back, thisLIR := thisLIR, hoistedTo := none }
  | some (some slot) =>
      match prevInstList[slot]? with
      | none => none
      | some curLIR =>
          if curLIR.1 < back.length then
            some { back := back.take (curLIR.1 + 1) ++ thisLIR :: back.drop (curLIR.1 + 1),
                   thisLIR := markNop thisLIR, hoistedTo := some curLIR.1 }
          else none

/-- The test at lines 291-295 of `applyLoadHoisting`: `thisLIR` is a live
load. -/
def hoistInteresting (T : Target) (thisLIR : ArmLIR) : Bool :=
  !(thisLIR.isNop || T.isPseudoOpcode thisLIR.opcode || !isLoad T thisLIR)

/-- The outer loop of `applyLoadHoisting` (lines 286-453): `back` holds the
nodes before `thisLIR` (nearest first, `headLIR` excluded), the last argument
the nodes from `thisLIR` up to `tailLIR`. -/
def hoistLoop (T : Target) (headLIR : ArmLIR) :
    List ArmLIR → List ArmLIR → Option (List ArmLIR)
  | back, [] => some back.reverse
  | back, thisLIR :: rest =>
      if hoistInteresting T thisLIR then
        match hoistVisit T headLIR back thisLIR with
        | none => none
        | some r => hoistLoop T headLIR (r.thisLIR :: r.back) rest
      else hoistLoop T headLIR (thisLIR :: back) rest

/-- The source's `applyLoadHoisting(cUnit, headLIR, tailLIR)`. -/
def applyLoadHoisting (T : Target) : Block → Option Block
  | .single n => some (.single n)
  | .span h body t => (hoistLoop T h [] body).map (fun body' => .span h body' t)

/-! ## Shift and multiply fusion -/

/-- The helper `dvmCompilerSetupResourceMasks(lir)`: it stores the two
resource masks of `lir`. -/
def dvmCompilerSetupResourceMasks (T : Target) (lir : ArmLIR) : ArmLIR :=
  { lir with useMask := (T.resourceMasks lir).1, defMask := (T.resourceMasks lir).2 }

/-- The search loop of both fusion passes (lines 478-484 and 578-584): the
nodes skipped, the first node that is neither nop nor pseudo, and the nodes
after it; `none` when the search arrives at `tailLIR`. -/
def findNext (T : Target) : List ArmLIR → Option (List ArmLIR × ArmLIR × List ArmLIR)
  | [] => none
  | nextLIR :: rest =>
      if !nextLIR.isNop && !T.isPseudoOpcode nextLIR.opcode then some ([], nextLIR, rest)
      else
        match findNext T rest with
        | none => none
        | some r => some (nextLIR :: r.1, r.2.1, r.2.2)

/-- The opcode test at lines 473-474. -/
def isShiftOpcode (T : Target) (opcode : Int) : Bool :=
  opcode == T.kThumb2LslRRI5 || opcode == T.kThumb2LsrRRI5 ||
    opcode == T.kThumbLslRRI5 || opcode == T.kThumbLsrRRI5

/-- The pattern test at lines 490-493. -/
def shiftMatches (T : Target) (thisLIR nextLIR : ArmLIR) : Bool :=
  nextLIR.opcode == T.kThumb2AddRRR && nextLIR.operands.op3 == 0 &&
    (nextLIR.operands.op1 == thisLIR.operands.op0 ||
      nextLIR.operands.op2 == thisLIR.operands.op0)

/-- The node built at lines 518-545 of `applyShiftArithmeticOpts`. -/
def shiftFused (T : Target) (thisLIR nextLIR : ArmLIR) : ArmLIR :=
  let type :=
    if thisLIR.opcode == T.kThumb2LsrRRI5 || thisLIR.opcode == T.kThumbLsrRRI5
    then T.kArmLsr else T.kArmLsl
  let rSrc1 :=
    if thisLIR.operands.op0 == nextLIR.operands.op1 then nextLIR.operands.op2
    else nextLIR.operands.op1
  let rSrc2 := thisLIR.operands.op1
  let shift := Int.lor ((Int.land thisLIR.operands.op2 0x1f) <<< (2 : Int)) type
  dvmCompilerSetupResourceMasks T
    { dvmCompilerNew with
      opcode := nextLIR.opcode,
      operands := ⟨nextLIR.operands.op0, rSrc1, rSrc2, shift⟩ }

/-- The loop of `applyShiftArithmeticOpts` (lines 465-559) from `thisLIR` up
to `tailLIR`.  After a fusion the cursor jumps behind `nextLIR`, so the loop
is driven by a step budget; `none` means the budget ran out. -/
def shiftLoop (T : Target) : Nat → List ArmLIR → Option (List ArmLIR)
  | 0, _ => none
  | _ + 1, [] => some []
  | fuel + 1, thisLIR :: rest =>
      if thisLIR.isNop then (shiftLoop T fuel rest).map (thisLIR :: ·)
      else if isShiftOpcode T thisLIR.opcode then
        match findNext T rest with
        | none => some (thisLIR :: rest)
        | some (skipped, nextLIR, after) =>
            if shiftMatches T thisLIR nextLIR then
              (shiftLoop T fuel after).map
                (fun l => markNop thisLIR :: skipped ++
                  shiftFused T thisLIR nextLIR :: markNop nextLIR :: l)
            else (shiftLoop T fuel rest).map (thisLIR :: ·)
      else (shiftLoop T fuel rest).map (thisLIR :: ·)

/-- Rebuild a block from the nodes `headLIR ... PREV_LIR(tailLIR)` that a
fusion pass walked and the untouched `tailLIR`. -/
def Block.ofWalk (tailLIR : ArmLIR) : List ArmLIR → Option Block
  | [] => none
  | h :: body => some (.span h body tailLIR)

/-- The source's `applyShiftArithmeticOpts(cUnit, headLIR, tailLIR)`. -/
def applyShiftArithmeticOpts (T : Target) : Block → Option Block
  | .single n => some (.single n)
  | .span h body t => (shiftLoop T (body.length + 2) (h :: body)).bind (Block.ofWalk t)

/-- The pattern test at lines 590-592. -/
def mulMatches (T : Target) (thisLIR nextLIR : ArmLIR) : Bool :=
  nextLIR.opcode == T.kThumb2Vaddd &&
    nextLIR.operands.op0 == nextLIR.operands.op1 &&
    nextLIR.operands.op2 == thisLIR.operands.op0

/-- The node built at lines 604-609 of `applyMultiplyArithmeticOpts`. -/
def mulFused (T : Target) (thisLIR nextLIR : ArmLIR) : ArmLIR :=
  dvmCompilerSetupResourceMasks T
    { dvmCompilerNew with
      opcode := T.kThumb2Vmlad,
      operands := ⟨nextLIR.operands.op0, thisLIR.operands.op1, thisLIR.operands.op2, 0⟩ }

/-- The loop of `applyMultiplyArithmeticOpts` (lines 570-623) from `thisLIR`
up to `tailLIR`, driven by a step budget like `shiftLoop`. -/
def mulLoop (T : Target) : Nat → List ArmLIR → Option (List ArmLIR)
  | 0, _ => none
  | _ + 1, [] => some []
  | fuel + 1, thisLIR :: rest =>
      if thisLIR.opcode == T.kThumb2Vmuld && !thisLIR.isNop then
        match findNext T rest with
        | none => some (thisLIR :: rest)
        | some (skipped, nextLIR, after) =>
            if mulMatches T thisLIR nextLIR then
              (mulLoop T fuel after).map
                (fun l => markNop thisLIR :: skipped ++
                  mulFused T thisLIR nextLIR :: markNop nextLIR :: l)
            else (mulLoop T fuel rest).map (thisLIR :: ·)
      else (mulLoop T fuel rest).map (thisLIR :: ·)

/-- The source's `applyMultiplyArithmeticOpts(cUnit, headLIR, tailLIR)`. -/
def applyMultiplyArithmeticOpts (T : Target) : Block → Option Block
  | .single n => some (.single n)
  | .span h body t => (mulLoop T (body.length + 2) (h :: body)).bind (Block.ofWalk t)

/-! ## The driver -/

/-- The test `gDvmJit.disableOpt & (1 << k)`. -/
def optDisabled (disableOpt k : Nat) : Bool := disableOpt &&& (1 <<< k) != 0

/-- Run `pass` unless its bit is set in `gDvmJit.disableOpt`. -/
def runUnlessDisabled (disableOpt k : Nat) (pass : Block → Option Block)
    (b : Block) : Option Block :=
  if optDisabled disableOpt k then some b else pass b

/-- The source's `dvmCompilerApplyLocalOptimizations(cUnit, headLIR, tailLIR)`
with `gDvmJit.disableOpt` as an argument. -/
def dvmCompilerApplyLocalOptimizations (T : Target) (disableOpt : Nat)
    (b : Block) : Option Block :=
  (runUnlessDisabled disableOpt T.kLoadStoreElimination (applyLoadStoreElimination T) b).bind
    fun b1 =>
  (runUnlessDisabled disableOpt T.kLoadHoisting (applyLoadHoisting T) b1).bind
    fun b2 =>
  (runUnlessDisabled disableOpt T.kShiftArithmetic (applyShiftArithmeticOpts T) b2).bind
    fun b3 =>
  runUnlessDisabled disableOpt T.kMultiplyArithmetic (applyMultiplyArithmeticOpts T) b3

/-! ## Properties the statements are phrased with -/

/-- What the passes rely on in the header declarations: the program counter
is a register resource of the 64-bit mask word, the memory regions are part
of the word and told apart, and a register copy touches no memory. -/
structure Target.WellFormed (T : Target) : Prop where
  pc_ne_zero : T.ENCODE_REG_PC ≠ 0
  pc_not_mem : T.ENCODE_REG_PC &&& T.ENCODE_MEM = 0
  pc_lt : T.ENCODE_REG_PC < 2 ^ 64
  mem_lt : T.ENCODE_MEM < 2 ^ 64
  dalvik_ne_zero : T.ENCODE_DALVIK_REG ≠ 0
  dalvik_ne_mem : T.ENCODE_DALVIK_REG ≠ T.ENCODE_MEM
  literal_ne_dalvik : T.ENCODE_LITERAL ≠ T.ENCODE_DALVIK_REG
  regCopy_no_mem : ∀ dest src, memMask T (T.dvmCompilerRegCopyNoInsert dest src) = 0

/-- Register dependence of an earlier instruction with masks `aUse`, `aDef`
and a later one with masks `bUse`, `bDef`: read-after-write, or
write-after-read / write-after-write. -/
def regDependence (aUse aDef bUse bDef : Nat) : Bool :=
  (aDef &&& bUse != 0) || ((aUse ||| aDef) &&& bDef != 0)

/-- A mask with the `ENCODE_MEM` bits removed. -/
def regBits (T : Target) (mask : Nat) : Nat := mask &&& maskNot T.ENCODE_MEM

/-- The node `x` is a store into the Dalvik frame whose slot equals or
overlaps the slot that `thisLIR` accesses there. -/
def storesToSlotOf (T : Target) (thisLIR x : ArmLIR) : Prop :=
  isStore T x = true ∧ memMask T x = T.ENCODE_DALVIK_REG ∧
    memMask T thisLIR &&& T.ENCODE_DALVIK_REG = T.ENCODE_DALVIK_REG ∧
    (x.aliasInfo = thisLIR.aliasInfo ∨ isDalvikRegisterClobbered T thisLIR x = true)

/-- The number of nodes of `l` that are neither nop nor pseudo. -/
def liveCount (T : Target) (l : List ArmLIR) : Nat :=
  (l.filter fun x => !x.isNop && !T.isPseudoOpcode x.opcode).length

/-- How a pass may change a node list: a node stays as it is, or gets its
`isNop` flag set, or a new node is inserted; nothing is removed, reordered
or revived. -/
inductive Evolves : List ArmLIR → List ArmLIR → Prop where
  | nil : Evolves [] []
  | keep (x : ArmLIR) {l l' : List ArmLIR} : Evolves l l' → Evolves (x :: l) (x :: l')
  | mark (x : ArmLIR) {l l' : List ArmLIR} : Evolves l l' → Evolves (x :: l) (markNop x :: l')
  | insert (y : ArmLIR) {l l' : List ArmLIR} : Evolves l l' → Evolves l (y :: l')

/-! ## A concrete target -/

/-- Resource bit of register `r` in the sample target (48 register bits). -/
def sampleRegBit (r : Int) : Nat := 1 <<< (r.toNat % 48)

/-- A concrete target to evaluate the passes on: pseudo opcodes are the
negative ones, opcode 10 is a load and 11 a store, the program counter is
resource bit 15 and the memory regions are bits 49 (Dalvik frame),
50 (literal pool), 51 (heap) and 52. -/
def sampleTarget : Target where
  isPseudoOpcode := fun op => decide (op < 0)
  encodingFlags := fun op => if op = 10 then 1 else if op = 11 then 2 else 0
  IS_LOAD := 1
  IS_STORE := 2
  ENCODE_REG_PC := 1 <<< 15
  ENCODE_MEM := 15 <<< 49
  ENCODE_LITERAL := 1 <<< 50
  ENCODE_DALVIK_REG := 1 <<< 49
  ENCODE_HEAP_REF := 1 <<< 51
  DECODE_ALIAS_INFO_REG := fun x => Int.land x 0xffff
  DECODE_ALIAS_INFO_WIDE := fun x => if Int.land x 0x80000000 = 0 then 0 else 1
  REGTYPE := fun x => Int.land x 96
  dvmCompilerRegCopyNoInsert := fun dest src =>
    { opcode := 30, operands := ⟨dest, src, 0, 0⟩, isNop := false,
      useMask := sampleRegBit src, defMask := sampleRegBit dest, aliasInfo := 0 }
  resourceMasks := fun lir =>
    (sampleRegBit lir.operands.op1 ||| sampleRegBit lir.operands.op2,
      sampleRegBit lir.operands.op0)
  kThumbLslRRI5 := 40
  kThumbLsrRRI5 := 41
  kThumb2LslRRI5 := 42
  kThumb2LsrRRI5 := 43
  kThumb2AddRRR := 44
  kThumb2Vmuld := 45
  kThumb2Vaddd := 46
  kThumb2Vmlad := 47
  kArmLsl := 0
  kArmLsr := 1
  kLoadStoreElimination := 0
  kLoadHoisting := 1
  kShiftArithmetic := 2
  kMultiplyArithmetic := 3

/-- Build a live node of the sample target. -/
def mkLIR (opcode : Int) (op0 op1 op2 op3 : Int) (useMask defMask : Nat)
    (aliasInfo : Int) : ArmLIR :=
  { opcode := opcode, operands := ⟨op0, op1, op2, op3⟩, isNop := false,
    useMask := useMask, defMask := defMask, aliasInfo := aliasInfo }

/-- What load/store elimination has established about a live node it walked
past on behalf of `thisLIR`: no register dependence with the stop masks, and
no store into the slot of `thisLIR`. -/
def LsePassed (T : Target) (thisLIR x : ArmLIR) : Prop :=
  CHECK_REG_DEP (lseStopUseRegMask T thisLIR) (stopDefRegMask T thisLIR) x = false ∧
    ¬ storesToSlotOf T thisLIR x

/-- Every live node of `p` was walked past in the sense of `LsePassed`. -/
def LseAllPassed (T : Target) (thisLIR : ArmLIR) (p : List ArmLIR) : Prop :=
  ∀ x ∈ p, x.isNop = false → LsePassed T thisLIR x

/-- The node `y` is a must-alias of `thisLIR` that was marked nop: both touch
the literal pool or both the Dalvik frame, with equal `aliasInfo`. -/
def LseKilled (T : Target) (thisLIR y : ArmLIR) : Prop :=
  y.isNop = true ∧ y.aliasInfo = thisLIR.aliasInfo ∧
    (memMask T thisLIR &&& memMask T y = T.ENCODE_LITERAL ∨
      memMask T thisLIR &&& memMask T y = T.ENCODE_DALVIK_REG)

/-- Every index of `killed` names a node of `p` that is `LseKilled`. -/
def LseKillsOk (T : Target) (thisLIR : ArmLIR) (p : List ArmLIR) (killed : List Nat) : Prop :=
  ∀ j ∈ killed, ∃ y, p[j]? = some y ∧ LseKilled T thisLIR y

/-- The number of loop iterations a node can cause in `lseScan`: two when it
touches memory (it may bring a move with it), one otherwise. -/
def lseWeight (T : Target) : List ArmLIR → Nat
  | [] => 0
  | x :: rest => (if memMask T x = 0 then 1 else 2) + lseWeight T rest

/-- The backward walk of load hoisting went past `x` without a stop. -/
def HoistFree (T : Target) (thisLIR x : ArmLIR) : Prop :=
  hoistCheck T thisLIR x = .record false ∨ hoistCheck T thisLIR x = .ignore

/-- The backward walk of load hoisting stops at `x`. -/
def HoistStops (T : Target) (thisLIR x : ArmLIR) : Prop :=
  hoistCheck T thisLIR x = .memStop ∨ hoistCheck T thisLIR x = .record true

/-- The entry `e` at index `s` of `prevInstList` points into the walked
nodes `seen`, at most `s + 1` live non-pseudo nodes up to it. -/
def SlotOk (T : Target) (seen : List ArmLIR) (s : Nat) (e : Slot) : Prop :=
  e.1 < seen.length ∧ seen[e.1]? = some e.2 ∧ liveCount T (seen.take (e.1 + 1)) ≤ s + 1

/-- The result `w` of the backward walk over `back` is sound: the walk went
past a front part `seen` of `back` without a stop, the list it returns is
within the array bound, and every entry that is not the stop itself points
into `seen`. -/
def WalkOk (T : Target) (thisLIR : ArmLIR) (back : List ArmLIR)
    (w : List Slot × Bool) : Prop :=
  ∃ seen tl, back = seen ++ tl ∧
    (∀ x ∈ seen, x.isNop = false → HoistFree T thisLIR x) ∧
    w.1.length ≤ MAX_HOIST_DISTANCE ∧
    (∀ s e, w.1[s]? = some e →
      (s + 1 < w.1.length ∨ (w.2 = false ∧ w.1.length < MAX_HOIST_DISTANCE)) →
      SlotOk T seen s e) ∧
    ((w.2 = false ∧ w.1.length < MAX_HOIST_DISTANCE) → tl = [])

/-- What a pass may do to `headLIR`: leave it, or mark it nop when it is a
live shift or double multiply (the fusion passes start their walk at
`headLIR`). -/
def HeadStep (T : Target) (h h' : ArmLIR) : Prop :=
  h' = h ∨ (h' = markNop h ∧ h.isNop = false ∧
    (isShiftOpcode T h.opcode = true ∨ h.opcode = T.kThumb2Vmuld))

/-- How a pass may change a block: `tailLIR` stays, `headLIR` makes a
`HeadStep`, and the nodes between them evolve. -/
inductive BlockEvolves (T : Target) : Block → Block → Prop where
  | single (n : ArmLIR) : BlockEvolves T (.single n) (.single n)
  | span {h h' : ArmLIR} {body body' : List ArmLIR} (t : ArmLIR) :
      HeadStep T h h' → Evolves body body' → BlockEvolves T (.span h body t) (.span h' body' t)

/-! ## Sample instructions of the concrete target -/

/-- Resource bit of the Dalvik frame in the sample target. -/
def exDalvik : Nat := 1 <<< 49

/-- Resource bit of the heap in the sample target. -/
def exHeap : Nat := 1 <<< 51

/-- The label at the head of a block: a pseudo opcode and a barrier. -/
def exHead : ArmLIR := mkLIR (-1) 0 0 0 0 0 ENCODE_ALL 0

/-- The node at the tail of a block. -/
def exTail : ArmLIR := mkLIR (-2) 0 0 0 0 0 ENCODE_ALL 0

/-- The store `str r1, [r5, #v5]` into Dalvik register 5. -/
def exStore : ArmLIR := mkLIR 11 1 5 0 0 (sampleRegBit 1 ||| sampleRegBit 5) exDalvik 5

/-- The addition `add r2, r3, r4`. -/
def exAdd : ArmLIR :=
  mkLIR 44 2 3 4 0 (sampleRegBit 3 ||| sampleRegBit 4) (sampleRegBit 2) 0

/-- The move `mov r1, r6`, which clobbers `r1`. -/
def exClobber : ArmLIR := mkLIR 30 1 6 0 0 (sampleRegBit 6) (sampleRegBit 1) 0

/-- The load `ldr r7, [r5, #v5]` from Dalvik register 5. -/
def exLoad7 : ArmLIR := mkLIR 10 7 5 0 0 (sampleRegBit 5 ||| exDalvik) (sampleRegBit 7) 5

/-- The load `ldr r8, [r5, #v5]` from Dalvik register 5. -/
def exLoad8 : ArmLIR := mkLIR 10 8 5 0 0 (sampleRegBit 5 ||| exDalvik) (sampleRegBit 8) 5

/-- The load `ldr r10, [r5, #v1]` from Dalvik register 1. -/
def exLoad10 : ArmLIR := mkLIR 10 10 5 0 0 (sampleRegBit 5 ||| exDalvik) (sampleRegBit 10) 1

/-- The heap load `ldr r10, [r6]`. -/
def exHeapLoad : ArmLIR := mkLIR 10 10 6 0 0 (sampleRegBit 6 ||| exHeap) (sampleRegBit 10) 0

/-- The literal-pool load `ldr r0, [pc, #8]`: it reads the program counter
and the literal pool and writes `r0`. -/
def exPcLoad : ArmLIR :=
  mkLIR 10 0 15 8 0 (sampleRegBit 15 ||| sampleTarget.ENCODE_LITERAL) (sampleRegBit 0) 8

/-- The branch `b label`: it reads and writes the program counter. -/
def exBranch : ArmLIR := mkLIR 51 0 0 0 0 (sampleRegBit 15) (sampleRegBit 15) 0

/-- The shift `lsl r9, r1, #3`. -/
def exLsl : ArmLIR := mkLIR 42 9 1 3 0 (sampleRegBit 1) (sampleRegBit 9) 0

/-- The addition `add r0, r2, r9`. -/
def exAddShifted : ArmLIR :=
  mkLIR 44 0 2 9 0 (sampleRegBit 2 ||| sampleRegBit 9) (sampleRegBit 0) 0

/-- A block with a store to sink, a load to hoist and a shift to fuse. -/
def exBlock : Block :=
  .span exHead [exStore, exAdd, exClobber, exLoad10, exLsl, exAddShifted] exTail

/-- The node list `l'` keeps every node of `l`, in order, either as it is or
with `isNop` set; a node that was nop is still nop. -/
def NopMonotonic (l l' : List ArmLIR) : Prop :=
  ∃ f : Nat → Nat, StrictMono f ∧
    ∀ (i : Nat) (x : ArmLIR), l[i]? = some x →
      ∃ y, l'[f i]? = some y ∧ (y = x ∨ y = markNop x) ∧ (x.isNop = true → y.isNop = true)

/-- The addition `add r0, r9, r9`, both of whose sources are `r9`. -/
def exAddTwice : ArmLIR :=
  mkLIR 44 0 9 9 0 (sampleRegBit 9) (sampleRegBit 0) 0

/-- The wide load `ldrd r10, [r5, #v4]` from Dalvik registers 4 and 5. -/
def exWideLoad : ArmLIR :=
  mkLIR 10 10 5 0 0 (sampleRegBit 5 ||| exDalvik) (sampleRegBit 10 ||| sampleRegBit 11)
    (Int.lor 4 0x80000000)

/-- The store `str r2, [r5, #v5]` into Dalvik register 5. -/
def exStore2 : ArmLIR := mkLIR 11 2 5 0 0 (sampleRegBit 2 ||| sampleRegBit 5) exDalvik 5

/-- The forward scan of load/store elimination for `thisLIR` finds nothing
in the live node `x`: no register dependence with the stop masks, and either
no memory region in common, or another, non-overlapping slot of the Dalvik
frame. -/
def LseIndependent (T : Target) (thisLIR x : ArmLIR) : Prop :=
  x.isNop = false ∧
    CHECK_REG_DEP (lseStopUseRegMask T thisLIR) (stopDefRegMask T thisLIR) x = false ∧
    (memMask T thisLIR &&& memMask T x = 0 ∨
      (memMask T thisLIR &&& memMask T x = T.ENCODE_DALVIK_REG ∧
        x.aliasInfo ≠ thisLIR.aliasInfo ∧ isDalvikRegisterClobbered T thisLIR x = false))

/-- The number of live nodes of `l`. -/
def liveLength (l : List ArmLIR) : Nat := (l.filter fun x => !x.isNop).length

/-- What the fusion passes rely on in the opcode numbering of the headers:
the opcodes they name are real (non-pseudo) opcodes and told apart. -/
structure Target.OpcodesDistinct (T : Target) : Prop where
  shift_not_pseudo : ∀ op, isShiftOpcode T op = true → T.isPseudoOpcode op = false
  shift_ne_add : isShiftOpcode T T.kThumb2AddRRR = false
  vmul_not_pseudo : T.isPseudoOpcode T.kThumb2Vmuld = false
  vmul_ne_vadd : T.kThumb2Vmuld ≠ T.kThumb2Vaddd
  vmla_not_pseudo : T.isPseudoOpcode T.kThumb2Vmlad = false
  vmla_ne_vmul : T.kThumb2Vmlad ≠ T.kThumb2Vmuld
  vmla_ne_vadd : T.kThumb2Vmlad ≠ T.kThumb2Vaddd

/-- The node is skipped by the search loop of the fusion passes: it is nop
or pseudo. -/
def Skipped (T : Target) (x : ArmLIR) : Prop :=
  x.isNop = true ∨ T.isPseudoOpcode x.opcode = true

/-- The multiply `vmul.f64 d1, d2, d3`. -/
def exVmulOther : ArmLIR :=
  mkLIR 45 1 2 3 0 (sampleRegBit 34 ||| sampleRegBit 35) (sampleRegBit 33) 0

/-- The multiply `vmul.f64 d9, d9, d10`. -/
def exVmul : ArmLIR :=
  mkLIR 45 9 9 10 0 (sampleRegBit 41 ||| sampleRegBit 42) (sampleRegBit 41) 0

/-- The addition `vadd.f64 d8, d8, d9`. -/
def exVadd : ArmLIR :=
  mkLIR 46 8 8 9 0 (sampleRegBit 40 ||| sampleRegBit 41) (sampleRegBit 40) 0

/-- The sequence of live (non-nop) instructions of a node list. -/
def liveNodes (l : List ArmLIR) : List ArmLIR := l.filter fun x => !x.isNop

/-- The move `mov r5, r6`, which writes the base register of the sample
loads. -/
def exMovBase : ArmLIR := mkLIR 30 5 6 0 0 (sampleRegBit 6) (sampleRegBit 5) 0

/-- A block whose last instruction is a load with three independent
instructions and then a write to its base register in front of it. -/
def exHoistBlock : Block :=
  .span exHead [exMovBase, exAdd, exClobber, exAddTwice, exLoad10] exTail

/-- Modelled from the claim: writing the value `v` into register `d` of a
register file `R` (registers are named by their operand numbers). -/
def setReg {α : Type} (R : Int → α) (d : Int) (v : α) : Int → α :=
  fun r => if r = d then v else R r

/-- Modelled from the claim: `vmul d, a, b` is `d := a * b`. -/
def execVmul {α : Type} [Mul α] (R : Int → α) (x : ArmLIR) : Int → α :=
  setReg R x.operands.op0 (R x.operands.op1 * R x.operands.op2)

/-- Modelled from the claim: `vadd d, a, b` is `d := a + b`. -/
def execVadd {α : Type} [Add α] (R : Int → α) (x : ArmLIR) : Int → α :=
  setReg R x.operands.op0 (R x.operands.op1 + R x.operands.op2)

/-- Modelled from the claim: `vmla d, a, b` is `d := d + a * b`. -/
def execVmla {α : Type} [Add α] [Mul α] (R : Int → α) (x : ArmLIR) : Int → α :=
  setReg R x.operands.op0 (R x.operands.op0 + R x.operands.op1 * R x.operands.op2)

/-- The multiply `vmul.f64 d8, d9, d10`, which writes the register that the
add behind it accumulates into. -/
def exVmulAcc : ArmLIR :=
  mkLIR 45 8 9 10 0 (sampleRegBit 41 ||| sampleRegBit 42) (sampleRegBit 40) 0

/-- The addition `vadd.f64 d8, d8, d8`. -/
def exVaddSelf : ArmLIR := mkLIR 46 8 8 8 0 (sampleRegBit 40) (sampleRegBit 40) 0

/-- A register file with `d8 = 5`, `d9 = 2`, `d10 = 3` and 0 elsewhere. -/
def exRegs : Int → Int :=
  fun r => if r = 8 then 5 else if r = 9 then 2 else if r = 10 then 3 else 0

/-- The value of `firstSlot` (lines 387-393 of `applyLoadHoisting`) for the
walk result `prevInstList` and its last entry `depLIR`. -/
def hoistFirstSlot (T : Target) (prevInstList : List Slot) (depLIR : Slot) : Int :=
  (prevInstList.length : Int) - 2 -
    (if !T.isPseudoOpcode depLIR.2.opcode && isLoad T depLIR.2 then (LDLD_DISTANCE : Int) else 0)

/-- The values of `slot` at which the body of the slot loop of
`applyLoadHoisting` (lines 400-435) runs, in the order of the run, when the
loop is entered at `slot`: the body reads `prevInstList[slot]` and
`prevInstList[slot + 1]`. -/
def hoistSlotTrace (T : Target) (prevInstList : List Slot) : Nat → List Nat
  | 0 => [0]
  | slot + 1 =>
      match hoistSlotTest T prevInstList (slot + 1) with
      | some false => (slot + 1) :: hoistSlotTrace T prevInstList slot
      | _ => [slot + 1]

/-- The values of `slot` at which the body of the slot loop runs for the
walk result `prevInstList` (lines 386-436): none when fewer than two entries
were recorded or `firstSlot` is negative. -/
def hoistSelectTrace (T : Target) (prevInstList : List Slot) : List Nat :=
  if 2 ≤ prevInstList.length then
    match prevInstList[prevInstList.length - 1]? with
    | none => []
    | some depLIR =>
        if hoistFirstSlot T prevInstList depLIR < 0 then []
        else hoistSlotTrace T prevInstList (hoistFirstSlot T prevInstList depLIR).toNat
  else []

theorem testBit_maskNot (m i : Nat) :
    (maskNot m).testBit i = (decide (i < 64) && !m.testBit i) := by
  unfold maskNot ENCODE_ALL
  rw [Nat.testBit_xor, Nat.testBit_two_pow_sub_one, Nat.testBit_mod_two_pow]
  by_cases h : i < 64 <;> simp [h]

theorem and_eq_zero_iff_testBit (a b : Nat) :
    a &&& b = 0 ↔ ∀ i, ¬ (a.testBit i = true ∧ b.testBit i = true) := by
  constructor
  · intro h i hi
    have := congrArg (fun n => n.testBit i) h
    simp [hi.1, hi.2] at this
  · intro h
    apply Nat.eq_of_testBit_eq
    intro i
    have := h i
    rw [Nat.testBit_and, Nat.zero_testBit]
    cases ha : a.testBit i <;> cases hb : b.testBit i <;> simp_all

theorem ne_zero_of_testBit {a : Nat} {i : Nat} (h : a.testBit i = true) : a ≠ 0 := by
  intro h0
  rw [h0, Nat.zero_testBit] at h
  exact Bool.noConfusion h

theorem exists_testBit_of_ne_zero {a : Nat} (h : a ≠ 0) : ∃ i, a.testBit i = true := by
  by_contra hc
  apply h
  apply Nat.eq_of_testBit_eq
  intro i
  rw [Nat.zero_testBit]
  cases hb : a.testBit i
  · rfl
  · exact absurd ⟨i, hb⟩ hc

theorem testBit_lt_of_lt {a n i : Nat} (ha : a < 2 ^ n) (h : a.testBit i = true) : i < n := by
  by_contra hc
  have hle : n ≤ i := Nat.le_of_not_lt hc
  have : a < 2 ^ i := Nat.lt_of_lt_of_le ha (Nat.pow_le_pow_right (by decide) hle)
  rw [Nat.testBit_lt_two_pow this] at h
  exact Bool.noConfusion h

theorem checkRegDep_false_iff (use defn : Nat) (x : ArmLIR) :
    CHECK_REG_DEP use defn x = false ↔
      defn &&& x.useMask = 0 ∧ (use ||| defn) &&& x.defMask = 0 := by
  simp [CHECK_REG_DEP]

theorem regDependence_false_iff (aUse aDef bUse bDef : Nat) :
    regDependence aUse aDef bUse bDef = false ↔
      aDef &&& bUse = 0 ∧ (aUse ||| aDef) &&& bDef = 0 := by
  simp [regDependence]

/-- Subset monotonicity of an empty intersection. -/
theorem and_eq_zero_mono {a a' b b' : Nat}
    (ha : ∀ i, a.testBit i = true → a'.testBit i = true)
    (hb : ∀ i, b.testBit i = true → b'.testBit i = true)
    (h : a' &&& b' = 0) : a &&& b = 0 := by
  rw [and_eq_zero_iff_testBit] at h ⊢
  intro i hi
  exact h i ⟨ha i hi.1, hb i hi.2⟩

theorem lse_regDep_of_check {T : Target} {thisLIR x : ArmLIR}
    (h : CHECK_REG_DEP (lseStopUseRegMask T thisLIR) (stopDefRegMask T thisLIR) x = false) :
    regDependence (regBits T thisLIR.useMask) (regBits T thisLIR.defMask)
      x.useMask x.defMask = false := by
  rw [checkRegDep_false_iff] at h
  rw [regDependence_false_iff]
  refine ⟨h.1, and_eq_zero_mono ?_ (fun _ hi => hi) h.2⟩
  intro i
  simp only [regBits, lseStopUseRegMask, stopDefRegMask, Nat.testBit_or, Nat.testBit_and]
  cases thisLIR.useMask.testBit i <;> cases thisLIR.defMask.testBit i <;>
    cases (maskNot T.ENCODE_MEM).testBit i <;> simp

theorem lse_noClobber_of_check {T : Target} {thisLIR x : ArmLIR}
    (h : CHECK_REG_DEP (lseStopUseRegMask T thisLIR) (stopDefRegMask T thisLIR) x = false) :
    regBits T (thisLIR.useMask ||| thisLIR.defMask) &&& x.defMask = 0 := by
  rw [checkRegDep_false_iff] at h
  refine and_eq_zero_mono ?_ (fun _ hi => hi) h.2
  intro i
  simp only [regBits, lseStopUseRegMask, stopDefRegMask, Nat.testBit_or, Nat.testBit_and]
  cases thisLIR.useMask.testBit i <;> cases thisLIR.defMask.testBit i <;>
    cases (maskNot T.ENCODE_MEM).testBit i <;> simp

theorem hoistStopUseAll_testBit {T : Target} {thisLIR : ArmLIR} {i : Nat}
    (h : thisLIR.useMask.testBit i = true) :
    (hoistStopUseAllMask T thisLIR).testBit i = true := by
  unfold hoistStopUseAllMask
  split
  · simp [h]
  · exact h

theorem hoist_regDep_of_check {T : Target} {thisLIR x : ArmLIR}
    (h : CHECK_REG_DEP (hoistStopUseRegMask T thisLIR) (stopDefRegMask T thisLIR) x = false) :
    regDependence x.useMask x.defMask (regBits T thisLIR.useMask)
      (regBits T thisLIR.defMask) = false := by
  rw [checkRegDep_false_iff] at h
  rw [regDependence_false_iff]
  constructor
  · rw [Nat.and_comm]
    refine and_eq_zero_mono ?_ (fun _ hi => hi) h.2
    intro i hi
    simp only [regBits, hoistStopUseRegMask, Nat.testBit_or, Nat.testBit_and,
      Bool.and_eq_true, Bool.or_eq_true] at hi ⊢
    exact Or.inl ⟨hoistStopUseAll_testBit hi.1, hi.2⟩
  · rw [and_eq_zero_iff_testBit]
    intro i hi
    have h1 := (and_eq_zero_iff_testBit _ _).1 h.1 i
    have h2 := (and_eq_zero_iff_testBit _ _).1 h.2 i
    simp only [regBits, stopDefRegMask, Nat.testBit_or, Nat.testBit_and,
      Bool.and_eq_true, Bool.or_eq_true] at hi h1 h2
    rcases hi.1 with hu | hd
    · exact h1 ⟨hi.2, hu⟩
    · exact h2 ⟨Or.inr hi.2, hd⟩

/-- The program counter is one of the bits of `lseStopUseRegMask`. -/
theorem pc_testBit_regBits {T : Target} (hT : T.WellFormed) {i : Nat}
    (h : T.ENCODE_REG_PC.testBit i = true) : (maskNot T.ENCODE_MEM).testBit i = true := by
  rw [testBit_maskNot]
  have hlt : i < 64 := testBit_lt_of_lt hT.pc_lt h
  have hm := (and_eq_zero_iff_testBit _ _).1 hT.pc_not_mem i
  cases hb : T.ENCODE_MEM.testBit i
  · simp [hlt]
  · exact absurd ⟨h, hb⟩ hm

theorem encodeAll_testBit (i : Nat) : ENCODE_ALL.testBit i = decide (i < 64) := by
  unfold ENCODE_ALL
  exact Nat.testBit_two_pow_sub_one 64 i

theorem encodeAll_and_mem {T : Target} (hT : T.WellFormed) :
    ENCODE_ALL &&& T.ENCODE_MEM = T.ENCODE_MEM := by
  apply Nat.eq_of_testBit_eq
  intro i
  rw [Nat.testBit_and, encodeAll_testBit]
  cases hb : T.ENCODE_MEM.testBit i
  · simp
  · simp [testBit_lt_of_lt hT.mem_lt hb]

/-- A barrier (`defMask == ENCODE_ALL`) has all memory bits set. -/
theorem memMask_of_barrier {T : Target} (hT : T.WellFormed) {x : ArmLIR}
    (h : x.defMask = ENCODE_ALL) : memMask T x = T.ENCODE_MEM := by
  unfold memMask
  apply Nat.eq_of_testBit_eq
  intro i
  rw [Nat.testBit_and, Nat.testBit_or, h, encodeAll_testBit]
  cases hb : T.ENCODE_MEM.testBit i
  · simp
  · simp [testBit_lt_of_lt hT.mem_lt hb]

/-- A node that writes the program counter depends on every `thisLIR` of
load/store elimination. -/
theorem lse_checkRegDep_of_pc {T : Target} (hT : T.WellFormed) (thisLIR : ArmLIR)
    {x : ArmLIR} (h : x.defMask &&& T.ENCODE_REG_PC ≠ 0) :
    CHECK_REG_DEP (lseStopUseRegMask T thisLIR) (stopDefRegMask T thisLIR) x = true := by
  obtain ⟨i, hi⟩ := exists_testBit_of_ne_zero h
  rw [Nat.testBit_and, Bool.and_eq_true] at hi
  have hn := pc_testBit_regBits hT hi.2
  have : ((lseStopUseRegMask T thisLIR ||| stopDefRegMask T thisLIR) &&& x.defMask).testBit i
      = true := by
    simp [lseStopUseRegMask, hi.1, hi.2, hn]
  have hne := ne_zero_of_testBit this
  simp [CHECK_REG_DEP, hne]

theorem encodeAll_and_pc {T : Target} (hT : T.WellFormed) :
    ENCODE_ALL &&& T.ENCODE_REG_PC ≠ 0 := by
  obtain ⟨i, hi⟩ := exists_testBit_of_ne_zero hT.pc_ne_zero
  apply ne_zero_of_testBit (i := i)
  rw [Nat.testBit_and, encodeAll_testBit, hi]
  simp [testBit_lt_of_lt hT.pc_lt hi]

/-! ## Lemmas on `Evolves` -/

theorem Evolves.refl : ∀ l : List ArmLIR, Evolves l l
  | [] => .nil
  | x :: l => .keep x (Evolves.refl l)

theorem markNop_markNop (x : ArmLIR) : markNop (markNop x) = markNop x := rfl

theorem Evolves.trans {a b c : List ArmLIR} (h1 : Evolves a b) (h2 : Evolves b c) :
    Evolves a c := by
  induction h2 generalizing a with
  | nil => exact h1
  | keep x _ ih =>
      cases h1 with
      | keep _ h => exact .keep x (ih h)
      | mark y h => exact .mark y (ih h)
      | insert _ h => exact .insert x (ih h)
  | mark x _ ih =>
      cases h1 with
      | keep _ h => exact .mark x (ih h)
      | mark y h =>
          have := Evolves.mark y (ih h)
          rwa [← markNop_markNop y] at this
      | insert _ h => exact .insert (markNop x) (ih h)
  | insert y _ ih => exact .insert y (ih h1)

theorem Evolves.append {a a' b b' : List ArmLIR} (h1 : Evolves a a') (h2 : Evolves b b') :
    Evolves (a ++ b) (a' ++ b') := by
  induction h1 with
  | nil => simpa using h2
  | keep x _ ih => exact .keep x ih
  | mark x _ ih => exact .mark x ih
  | insert y _ ih => exact .insert y ih

theorem Evolves.length_le {a b : List ArmLIR} (h : Evolves a b) : a.length ≤ b.length := by
  induction h with
  | nil => exact Nat.le_refl _
  | keep _ _ ih => simpa using ih
  | mark _ _ ih => simpa using ih
  | insert _ _ ih => simp; omega

/-! ## Lemmas on load/store elimination -/

theorem memMask_markNop (T : Target) (x : ArmLIR) : memMask T (markNop x) = memMask T x := rfl

theorem lseRegCheck_cases (T : Target) (thisLIR : ArmLIR) (sink : Nat) (x : ArmLIR) :
    (lseRegCheck T thisLIR sink x = .pass ∧
      CHECK_REG_DEP (lseStopUseRegMask T thisLIR) (stopDefRegMask T thisLIR) x = false) ∨
    (lseRegCheck T thisLIR sink x = .regStop (sink != 0 && !isLoad T thisLIR) ∧
      CHECK_REG_DEP (lseStopUseRegMask T thisLIR) (stopDefRegMask T thisLIR) x = true) := by
  unfold lseRegCheck
  cases h : CHECK_REG_DEP (lseStopUseRegMask T thisLIR) (stopDefRegMask T thisLIR) x
  · left; simp
  · right; simp

theorem lseForward_cases (T : Target) (thisLIR x : ArmLIR) :
    lseForward T thisLIR x = .forward none ∨
      lseForward T thisLIR x = .forward
        (some (T.dvmCompilerRegCopyNoInsert x.operands.op0 thisLIR.operands.op0)) := by
  unfold lseForward
  split
  · right; rfl
  · left; rfl

theorem lseRegCheck_ne_forward {T : Target} {thisLIR x : ArmLIR} {sink : Nat}
    {m : Option ArmLIR} : lseRegCheck T thisLIR sink x ≠ .forward m := by
  rcases lseRegCheck_cases T thisLIR sink x with h | h <;> rw [h.1] <;>
    exact LseAction.noConfusion

theorem lseCheck_live {T : Target} {thisLIR x : ArmLIR} {sink : Nat}
    (h : lseCheck T thisLIR sink x ≠ .skip) : x.isNop = false := by
  cases hx : x.isNop
  · rfl
  · exact absurd (by simp [lseCheck, hx]) h

theorem lseCheck_forward {T : Target} {thisLIR x : ArmLIR} {sink : Nat} {m : Option ArmLIR}
    (h : lseCheck T thisLIR sink x = .forward m) :
    x.isNop = false ∧ memMask T x ≠ 0 ∧ LseKilled T thisLIR (markNop x) := by
  have hl : x.isNop = false := lseCheck_live (by rw [h]; exact LseAction.noConfusion)
  simp only [lseCheck, hl, Bool.false_eq_true, if_false] at h
  have hmem : (memMask T x != T.ENCODE_MEM && memMask T thisLIR &&& memMask T x != 0) = true →
      memMask T x ≠ 0 := by
    intro h1 h0
    rw [h0] at h1
    simp at h1
  split_ifs at h with h1 h2 h3 h4 h5 h6 h7 h8 h9
  all_goals first | exact absurd h lseRegCheck_ne_forward | skip
  · simp only [Bool.and_eq_true, beq_iff_eq] at h2 h3
    exact ⟨hl, hmem h1, rfl, h3.1, Or.inl h2⟩
  · simp only [beq_iff_eq] at h4 h5
    exact ⟨hl, hmem h1, rfl, h5, Or.inr h4⟩

theorem lseCheck_pass {T : Target} (hT : T.WellFormed) {thisLIR x : ArmLIR} {sink : Nat}
    (h : lseCheck T thisLIR sink x = .pass) :
    x.isNop = false ∧ LsePassed T thisLIR x := by
  have hl : x.isNop = false := lseCheck_live (by rw [h]; exact LseAction.noConfusion)
  have hdep : CHECK_REG_DEP (lseStopUseRegMask T thisLIR) (stopDefRegMask T thisLIR) x
      = false := by
    rcases lseRegCheck_cases T thisLIR sink x with hc | hc
    · exact hc.2
    · exfalso
      simp only [lseCheck, hl, Bool.false_eq_true, if_false] at h
      rcases lseForward_cases T thisLIR x with hf | hf <;>
        split_ifs at h <;> simp_all
  refine ⟨hl, hdep, ?_⟩
  rintro ⟨-, hm, hthis, hal⟩
  have h1 := hT.dalvik_ne_mem
  have h2 := hT.dalvik_ne_zero
  have h3 := hT.literal_ne_dalvik.symm
  simp only [lseCheck, hl, Bool.false_eq_true, if_false, hm, hthis, bne_iff_ne, ne_eq,
    h1, h2, h3, not_false_eq_true, beq_iff_eq, Bool.and_self, decide_True, if_true,
    beq_self_eq_true] at h
  rcases lseForward_cases T thisLIR x with hf | hf <;>
    rcases lseRegCheck_cases T thisLIR sink x with hc | hc <;>
    split_ifs at h <;> simp_all

theorem lseCheck_barrier {T : Target} (hT : T.WellFormed) (thisLIR : ArmLIR) (sink : Nat)
    {x : ArmLIR} (hl : x.isNop = false) (hx : x.defMask = ENCODE_ALL) :
    lseCheck T thisLIR sink x = .regStop (sink != 0 && !isLoad T thisLIR) := by
  have hm := memMask_of_barrier hT hx
  have hpc : x.defMask &&& T.ENCODE_REG_PC ≠ 0 := by rw [hx]; exact encodeAll_and_pc hT
  have hdep := lse_checkRegDep_of_pc hT thisLIR hpc
  simp [lseCheck, hl, hm, lseRegCheck, hdep]

theorem lseCheck_skip {T : Target} {thisLIR x : ArmLIR} {sink : Nat}
    (h : lseCheck T thisLIR sink x = .skip) : x.isNop = true := by
  cases hx : x.isNop
  · simp only [lseCheck, hx, Bool.false_eq_true, if_false] at h
    rcases lseForward_cases T thisLIR x with hf | hf <;>
      rcases lseRegCheck_cases T thisLIR sink x with hc | hc <;>
      split_ifs at h <;> simp_all
  · rfl

theorem LseKillsOk.extend {T : Target} {thisLIR : ArmLIR} {p : List ArmLIR} {killed : List Nat}
    (h : LseKillsOk T thisLIR p killed) (z : ArmLIR) :
    LseKillsOk T thisLIR (p ++ [z]) killed := by
  intro j hj
  obtain ⟨y, hy, hk⟩ := h j hj
  refine ⟨y, ?_, hk⟩
  have hlt : j < p.length := by
    by_contra hc
    rw [List.getElem?_eq_none (Nat.le_of_not_lt hc)] at hy
    exact Option.noConfusion hy
  rw [List.getElem?_append_left hlt]
  exact hy

theorem LseKillsOk.push {T : Target} {thisLIR : ArmLIR} {p : List ArmLIR} {killed : List Nat}
    (h : LseKillsOk T thisLIR p killed) {z : ArmLIR} (hz : LseKilled T thisLIR z) :
    LseKillsOk T thisLIR (p ++ [z]) (p.length :: killed) := by
  intro j hj
  rcases List.mem_cons.1 hj with rfl | hj
  · exact ⟨z, by simp, hz⟩
  · exact h.extend z j hj

theorem LseAllPassed.cons {T : Target} {thisLIR : ArmLIR} {p : List ArmLIR}
    (h : LseAllPassed T thisLIR p) {z : ArmLIR}
    (hz : z.isNop = false → LsePassed T thisLIR z) :
    LseAllPassed T thisLIR (z :: p) := by
  intro x hx hl
  rcases List.mem_cons.1 hx with rfl | hx
  · exact hz hl
  · exact h x hx hl

/-- What the inner loop of load/store elimination guarantees: the result is
a passed part `p` followed by the rest `tl`; the live nodes of `p` were all
walked past, the killed nodes lie in `p`, and a sunk store sits right after
`p`. -/
theorem lseScan_spec {T : Target} (hT : T.WellFormed) (thisLIR : ArmLIR) :
    ∀ (fuel sink : Nat) (killed : List Nat) (done rest : List ArmLIR) (r : LseScan),
      LseAllPassed T thisLIR done → LseKillsOk T thisLIR done.reverse killed →
      lseScan T thisLIR fuel sink killed done rest = some r →
      ∃ p tl, r.post = p ++ tl ∧ LseAllPassed T thisLIR p ∧ LseKillsOk T thisLIR p r.killed ∧
        (r.sunkAt = none ∨ (r.sunkAt = some p.length ∧ ∃ tl', tl = thisLIR :: tl')) := by
  intro fuel
  induction fuel with
  | zero => intro sink killed done rest r _ _ h; simp [lseScan] at h
  | succ fuel ih =>
      intro sink killed done rest r hp hk h
      have hprev : LseAllPassed T thisLIR done.reverse := fun x hx => hp x (List.mem_reverse.1 hx)
      cases rest with
      | nil =>
          simp only [lseScan, Option.some.injEq] at h
          subst h
          exact ⟨done.reverse, [], by simp, hprev, hk, Or.inl rfl⟩
      | cons c rest =>
          simp only [lseScan] at h
          cases hact : lseCheck T thisLIR sink c with
          | skip =>
              rw [hact] at h
              have hn := lseCheck_skip hact
              refine ih _ _ _ _ _ (hp.cons ?_) ?_ h
              · intro hl; rw [hn] at hl; exact Bool.noConfusion hl
              · simpa using hk.extend c
          | forward m =>
              rw [hact] at h
              obtain ⟨_, _, hkill⟩ := lseCheck_forward hact
              have hp' : LseAllPassed T thisLIR (markNop c :: done) :=
                hp.cons (fun hl => by simp [markNop] at hl)
              have hk' : LseKillsOk T thisLIR (markNop c :: done).reverse
                  (done.length :: killed) := by
                have := hk.push hkill
                simpa using this
              cases m with
              | none => exact ih _ _ _ _ _ hp' hk' h
              | some mv => exact ih _ _ _ _ _ hp' hk' h
          | memStop nuke =>
              rw [hact] at h
              simp only [Option.some.injEq] at h
              subst h
              exact ⟨done.reverse, c :: rest, rfl, hprev, hk, Or.inl rfl⟩
          | regStop sk =>
              rw [hact] at h
              cases sk with
              | true =>
                  simp only [Option.some.injEq] at h
                  subst h
                  exact ⟨done.reverse, thisLIR :: c :: rest, rfl, hprev, hk,
                    Or.inr ⟨by simp, _, rfl⟩⟩
              | false =>
                  simp only [Option.some.injEq] at h
                  subst h
                  exact ⟨done.reverse, c :: rest, rfl, hprev, hk, Or.inl rfl⟩
          | pass =>
              rw [hact] at h
              obtain ⟨_, hpass⟩ := lseCheck_pass hT hact
              refine ih _ _ _ _ _ (hp.cons fun _ => hpass) ?_ h
              simpa using hk.extend c

theorem lseCheck_forward_move {T : Target} {thisLIR x : ArmLIR} {sink : Nat} {mv : ArmLIR}
    (h : lseCheck T thisLIR sink x = .forward (some mv)) :
    mv = T.dvmCompilerRegCopyNoInsert x.operands.op0 thisLIR.operands.op0 := by
  have hl : x.isNop = false := lseCheck_live (by rw [h]; exact LseAction.noConfusion)
  simp only [lseCheck, hl, Bool.false_eq_true, if_false] at h
  have key : lseForward T thisLIR x = .forward (some mv) →
      mv = T.dvmCompilerRegCopyNoInsert x.operands.op0 thisLIR.operands.op0 := by
    intro hf
    rcases lseForward_cases T thisLIR x with hc | hc <;> rw [hc] at hf
    · simp at hf
    · simp only [LseAction.forward.injEq, Option.some.injEq] at hf
      exact hf.symm
  split_ifs at h
  all_goals first | exact absurd h lseRegCheck_ne_forward | exact key h

theorem lseWeight_le (T : Target) : ∀ l : List ArmLIR, lseWeight T l ≤ 2 * l.length
  | [] => by simp [lseWeight]
  | x :: l => by
      have := lseWeight_le T l
      simp only [lseWeight, List.length_cons]
      split <;> omega

theorem lseWeight_lt_fuel (T : Target) (l : List ArmLIR) : lseWeight T l < lseFuel l := by
  have := lseWeight_le T l
  unfold lseFuel
  omega

theorem lseWeight_tail_lt (T : Target) (x : ArmLIR) (l : List ArmLIR) :
    lseWeight T l < lseWeight T (x :: l) := by
  simp only [lseWeight]
  split <;> omega

/-- The inner loop of load/store elimination returns within its budget. -/
theorem lseScan_total {T : Target} (hT : T.WellFormed) (thisLIR : ArmLIR) :
    ∀ (fuel sink : Nat) (killed : List Nat) (done rest : List ArmLIR),
      lseWeight T rest < fuel → ∃ r, lseScan T thisLIR fuel sink killed done rest = some r := by
  intro fuel
  induction fuel with
  | zero => intro _ _ _ _ h; exact absurd h (Nat.not_lt_zero _)
  | succ fuel ih =>
      intro sink killed done rest hw
      cases rest with
      | nil => exact ⟨_, rfl⟩
      | cons c rest =>
          have htl := lseWeight_tail_lt T c rest
          simp only [lseScan]
          cases hact : lseCheck T thisLIR sink c with
          | skip => exact ih _ _ _ _ (by omega)
          | forward m =>
              cases m with
              | none => exact ih _ _ _ _ (by omega)
              | some mv =>
                  apply ih
                  have hmv := lseCheck_forward_move hact
                  have h0 : memMask T mv = 0 := by rw [hmv]; exact hT.regCopy_no_mem _ _
                  have hc := (lseCheck_forward hact).2.1
                  simp only [lseWeight, h0, hc, if_true, if_false] at hw ⊢
                  omega
          | memStop nuke => exact ⟨_, rfl⟩
          | regStop sk => cases sk <;> exact ⟨_, rfl⟩
          | pass => exact ih _ _ _ _ (by omega)

/-- The inner loop of load/store elimination only marks and inserts. -/
theorem lseScan_evolves {T : Target} (thisLIR : ArmLIR) :
    ∀ (fuel sink : Nat) (killed : List Nat) (done rest : List ArmLIR) (r : LseScan),
      lseScan T thisLIR fuel sink killed done rest = some r →
      Evolves (done.reverse ++ rest) r.post := by
  intro fuel
  induction fuel with
  | zero => intro _ _ _ _ r h; simp [lseScan] at h
  | succ fuel ih =>
      intro sink killed done rest r h
      cases rest with
      | nil =>
          simp only [lseScan, Option.some.injEq] at h
          subst h
          simpa using Evolves.refl _
      | cons c rest =>
          simp only [lseScan] at h
          cases hact : lseCheck T thisLIR sink c with
          | skip =>
              rw [hact] at h
              simpa using ih _ _ _ _ _ h
          | forward m =>
              rw [hact] at h
              cases m with
              | none =>
                  have := ih _ _ _ _ _ h
                  simp only [List.reverse_cons, List.append_assoc, List.singleton_append]
                    at this
                  exact ((Evolves.refl done.reverse).append
                    (.mark c (Evolves.refl rest))).trans this
              | some mv =>
                  have := ih _ _ _ _ _ h
                  simp only [List.reverse_cons, List.append_assoc, List.singleton_append]
                    at this
                  exact ((Evolves.refl done.reverse).append
                    (.mark c (.insert mv (Evolves.refl rest)))).trans this
          | memStop nuke =>
              rw [hact] at h
              simp only [Option.some.injEq] at h
              subst h
              exact Evolves.refl _
          | regStop sk =>
              rw [hact] at h
              cases sk with
              | true =>
                  simp only [Option.some.injEq] at h
                  subst h
                  exact (Evolves.refl done.reverse).append (.insert thisLIR (Evolves.refl _))
              | false =>
                  simp only [Option.some.injEq] at h
                  subst h
                  exact Evolves.refl _
          | pass =>
              rw [hact] at h
              simpa using ih _ _ _ _ _ h

/-- The outer loop of load/store elimination returns, and only marks and
inserts. -/
theorem lseLoop_spec {T : Target} (hT : T.WellFormed) :
    ∀ (before post : List ArmLIR),
      ∃ out, lseLoop T before post = some out ∧ Evolves (before.reverse ++ post) out := by
  intro before
  induction before with
  | nil => intro post; exact ⟨post, rfl, by simpa using Evolves.refl post⟩
  | cons t before ih =>
      intro post
      simp only [lseLoop]
      split
      · obtain ⟨r, hr⟩ := lseScan_total hT t (lseFuel post) 0 [] [] post
          (lseWeight_lt_fuel T post)
        have hev := lseScan_evolves t _ _ _ _ _ _ hr
        simp only [List.reverse_nil, List.nil_append] at hev
        rw [hr]
        obtain ⟨out, ho, he⟩ := ih ((if r.thisNop then markNop t else t) :: r.post)
        refine ⟨out, ho, Evolves.trans ?_ he⟩
        simp only [List.reverse_cons, List.append_assoc, List.singleton_append]
        apply (Evolves.refl before.reverse).append
        split
        · exact .mark t hev
        · exact .keep t hev
      · obtain ⟨out, ho, he⟩ := ih (t :: post)
        exact ⟨out, ho, by simpa using he⟩

/-- The inner loop of load/store elimination does not get past a live
barrier `B`: everything it changes lies before `B`. -/
theorem lseScan_barrier {T : Target} (hT : T.WellFormed) (thisLIR : ArmLIR)
    {B : ArmLIR} (hl : B.isNop = false) (hB : B.defMask = ENCODE_ALL) (l2 : List ArmLIR) :
    ∀ (fuel sink : Nat) (killed : List Nat) (done l1 : List ArmLIR) (r : LseScan),
      (∀ j ∈ killed, j < done.length) →
      lseScan T thisLIR fuel sink killed done (l1 ++ B :: l2) = some r →
      ∃ l1', r.post = l1' ++ B :: l2 ∧ (∀ k, r.sunkAt = some k → k < l1'.length) ∧
        (∀ j ∈ r.killed, j < l1'.length) ∧ done.length ≤ l1'.length := by
  intro fuel
  induction fuel with
  | zero => intro _ _ _ _ r _ h; simp [lseScan] at h
  | succ fuel ih =>
      intro sink killed done l1 r hk h
      cases l1 with
      | nil =>
          simp only [List.nil_append, lseScan, lseCheck_barrier hT thisLIR sink hl hB] at h
          cases hs : (sink != 0 && !isLoad T thisLIR) with
          | true =>
              rw [hs] at h
              simp only [Option.some.injEq] at h
              subst h
              refine ⟨done.reverse ++ [thisLIR], by simp, ?_, ?_, by simp⟩
              · intro k hk'
                simp only [Option.some.injEq] at hk'
                subst hk'
                simp
              · intro j hj
                have := hk j hj
                simp
                omega
          | false =>
              rw [hs] at h
              simp only [Option.some.injEq] at h
              subst h
              refine ⟨done.reverse, rfl, ?_, ?_, by simp⟩
              · intro k hk'; simp at hk'
              · intro j hj
                simpa using hk j hj
      | cons c l1 =>
          simp only [List.cons_append, lseScan] at h
          have hk1 : ∀ j ∈ killed, j < (c :: done).length := fun j hj => by
            have := hk j hj
            simp only [List.length_cons]
            omega
          have hk2 : ∀ j ∈ done.length :: killed, j < (markNop c :: done).length := by
            intro j hj
            simp only [List.length_cons]
            rcases List.mem_cons.1 hj with rfl | hj
            · omega
            · have := hk j hj
              omega
          have weaken : ∀ {d : List ArmLIR} {l1' : List ArmLIR}, d.length = done.length + 1 →
              d.length ≤ l1'.length → done.length ≤ l1'.length := by
            intro d l1' h1 h2; omega
          cases hact : lseCheck T thisLIR sink c with
          | skip =>
              rw [hact] at h
              obtain ⟨l1', h1, h2, h3, h4⟩ := ih _ _ _ _ _ hk1 h
              exact ⟨l1', h1, h2, h3, weaken (by simp) h4⟩
          | forward m =>
              rw [hact] at h
              cases m with
              | none =>
                  obtain ⟨l1', h1, h2, h3, h4⟩ := ih _ _ _ _ _ hk2 h
                  exact ⟨l1', h1, h2, h3, weaken (by simp) h4⟩
              | some mv =>
                  have h' : lseScan T thisLIR fuel sink (done.length :: killed)
                      (markNop c :: done) ((mv :: l1) ++ B :: l2) = some r := h
                  obtain ⟨l1', h1, h2, h3, h4⟩ := ih _ _ _ _ _ hk2 h'
                  exact ⟨l1', h1, h2, h3, weaken (by simp) h4⟩
          | memStop nuke =>
              rw [hact] at h
              simp only [Option.some.injEq] at h
              subst h
              refine ⟨done.reverse ++ c :: l1, by simp, ?_, ?_, by simp⟩
              · intro k hk'; simp at hk'
              · intro j hj
                have := hk j hj
                simp
                omega
          | regStop sk =>
              rw [hact] at h
              cases sk with
              | true =>
                  simp only [Option.some.injEq] at h
                  subst h
                  refine ⟨done.reverse ++ thisLIR :: c :: l1, by simp, ?_, ?_, by simp⟩
                  · intro k hk'
                    simp only [Option.some.injEq] at hk'
                    subst hk'
                    simp
                  · intro j hj
                    have := hk j hj
                    simp
                    omega
              | false =>
                  simp only [Option.some.injEq] at h
                  subst h
                  refine ⟨done.reverse ++ c :: l1, by simp, ?_, ?_, by simp⟩
                  · intro k hk'; simp at hk'
                  · intro j hj
                    have := hk j hj
                    simp
                    omega
          | pass =>
              rw [hact] at h
              obtain ⟨l1', h1, h2, h3, h4⟩ := ih _ _ _ _ _ hk1 h
              exact ⟨l1', h1, h2, h3, weaken (by simp) h4⟩

/-! ## Lemmas on load hoisting -/

theorem hoistRegCheck_cases (T : Target) (thisLIR x : ArmLIR) :
    (CHECK_REG_DEP (hoistStopUseRegMask T thisLIR) (stopDefRegMask T thisLIR) x = true ∧
      hoistRegCheck T thisLIR x = .record true) ∨
    (CHECK_REG_DEP (hoistStopUseRegMask T thisLIR) (stopDefRegMask T thisLIR) x = false ∧
      ((T.isPseudoOpcode x.opcode = false ∧ hoistRegCheck T thisLIR x = .record false) ∨
       (T.isPseudoOpcode x.opcode = true ∧ hoistRegCheck T thisLIR x = .ignore))) := by
  unfold hoistRegCheck
  cases h : CHECK_REG_DEP (hoistStopUseRegMask T thisLIR) (stopDefRegMask T thisLIR) x
  · right
    cases hp : T.isPseudoOpcode x.opcode <;> simp
  · left; simp

/-- The possible outcomes of one iteration of the backward walk. -/
theorem hoistCheck_cases (T : Target) (thisLIR x : ArmLIR) :
    (x.isNop = true ∧ hoistCheck T thisLIR x = .skip) ∨
    (x.isNop = false ∧
      (hoistCheck T thisLIR x = .memStop ∨
       hoistCheck T thisLIR x = hoistRegCheck T thisLIR x)) := by
  cases hx : x.isNop
  · right
    refine ⟨rfl, ?_⟩
    simp only [hoistCheck, hx, Bool.false_eq_true, if_false]
    split_ifs <;> simp
  · left
    exact ⟨rfl, by simp [hoistCheck, hx]⟩

theorem hoistFree_dep {T : Target} {thisLIR x : ArmLIR} (hl : x.isNop = false)
    (h : HoistFree T thisLIR x) :
    CHECK_REG_DEP (hoistStopUseRegMask T thisLIR) (stopDefRegMask T thisLIR) x = false := by
  unfold HoistFree at h
  rcases hoistCheck_cases T thisLIR x with hc | ⟨_, hc | hc⟩
  · rw [hc.1] at hl; exact Bool.noConfusion hl
  · rcases h with h | h <;> rw [hc] at h <;> exact HoistAction.noConfusion h
  · rcases hoistRegCheck_cases T thisLIR x with hr | hr
    · rw [hc, hr.2] at h
      rcases h with h | h
      · simp at h
      · exact HoistAction.noConfusion h
    · exact hr.1

/-- A live node that is not pseudo is never ignored by the walk. -/
theorem hoistCheck_live_recorded {T : Target} {thisLIR x : ArmLIR} (hl : x.isNop = false)
    (hp : T.isPseudoOpcode x.opcode = false) :
    hoistCheck T thisLIR x = .memStop ∨ ∃ b, hoistCheck T thisLIR x = .record b := by
  rcases hoistCheck_cases T thisLIR x with hc | ⟨_, hc | hc⟩
  · rw [hc.1] at hl; exact Bool.noConfusion hl
  · exact Or.inl hc
  · right
    rcases hoistRegCheck_cases T thisLIR x with hr | ⟨_, hr | hr⟩
    · exact ⟨true, by rw [hc, hr.2]⟩
    · exact ⟨false, by rw [hc, hr.2]⟩
    · rw [hr.1] at hp; exact Bool.noConfusion hp

theorem hoistStops_of_dep {T : Target} {thisLIR x : ArmLIR} (hl : x.isNop = false)
    (h : CHECK_REG_DEP (hoistStopUseRegMask T thisLIR) (stopDefRegMask T thisLIR) x = true) :
    HoistStops T thisLIR x := by
  rcases hoistCheck_cases T thisLIR x with hc | ⟨_, hc | hc⟩
  · rw [hc.1] at hl; exact Bool.noConfusion hl
  · exact Or.inl hc
  · rcases hoistRegCheck_cases T thisLIR x with hr | hr
    · exact Or.inr (by rw [hc, hr.2])
    · rw [hr.1] at h; exact Bool.noConfusion h

theorem hoistStops_not_free {T : Target} {thisLIR x : ArmLIR}
    (h : HoistStops T thisLIR x) : ¬ HoistFree T thisLIR x := by
  rintro (hf | hf) <;> rcases h with h | h <;> rw [h] at hf <;> simp at hf

/-- A live barrier stops the walk of a load that defines a register. -/
theorem hoistStops_barrier {T : Target} {thisLIR x : ArmLIR}
    (hl : x.isNop = false) (hx : x.defMask = ENCODE_ALL)
    (hd : stopDefRegMask T thisLIR ≠ 0) : HoistStops T thisLIR x := by
  apply hoistStops_of_dep hl
  obtain ⟨i, hi⟩ := exists_testBit_of_ne_zero hd
  have h64 : i < 64 := by
    simp only [stopDefRegMask, Nat.testBit_and, testBit_maskNot, Bool.and_eq_true,
      decide_eq_true_eq] at hi
    exact hi.2.1
  have : ((hoistStopUseRegMask T thisLIR ||| stopDefRegMask T thisLIR) &&& x.defMask).testBit i
      = true := by
    rw [Nat.testBit_and, Nat.testBit_or, hi, hx, encodeAll_testBit]
    simp [h64]
  simp [CHECK_REG_DEP, ne_zero_of_testBit this]

/-- A live node that writes the program counter stops the walk of a load
from the heap. -/
theorem hoistStops_pc {T : Target} (hT : T.WellFormed) {thisLIR x : ArmLIR}
    (hl : x.isNop = false) (hx : x.defMask &&& T.ENCODE_REG_PC ≠ 0)
    (hh : thisLIR.useMask &&& T.ENCODE_HEAP_REF ≠ 0) : HoistStops T thisLIR x := by
  apply hoistStops_of_dep hl
  obtain ⟨i, hi⟩ := exists_testBit_of_ne_zero hx
  rw [Nat.testBit_and, Bool.and_eq_true] at hi
  have hn := pc_testBit_regBits hT hi.2
  have hall : (hoistStopUseAllMask T thisLIR).testBit i = true := by
    simp [hoistStopUseAllMask, hh, hi.2]
  have : ((hoistStopUseRegMask T thisLIR ||| stopDefRegMask T thisLIR) &&& x.defMask).testBit i
      = true := by
    simp [hoistStopUseRegMask, hall, hn, hi.1]
  simp [CHECK_REG_DEP, ne_zero_of_testBit this]

theorem hoistCheck_ignore_pseudo {T : Target} {thisLIR x : ArmLIR}
    (h : hoistCheck T thisLIR x = .ignore) : T.isPseudoOpcode x.opcode = true := by
  cases hp : T.isPseudoOpcode x.opcode
  · rcases hoistCheck_cases T thisLIR x with hc | ⟨hl, _⟩
    · rw [hc.2] at h; exact HoistAction.noConfusion h
    · rcases @hoistCheck_live_recorded T thisLIR x hl hp with hm | ⟨b, hb⟩
      · rw [hm] at h; exact HoistAction.noConfusion h
      · rw [hb] at h; exact HoistAction.noConfusion h
  · rfl

theorem hoistCheck_skip_nop {T : Target} {thisLIR x : ArmLIR}
    (h : hoistCheck T thisLIR x = .skip) : x.isNop = true := by
  rcases hoistCheck_cases T thisLIR x with hc | ⟨_, hc | hc⟩
  · exact hc.1
  · rw [hc] at h; exact HoistAction.noConfusion h
  · rcases hoistRegCheck_cases T thisLIR x with hr | ⟨_, hr | hr⟩ <;>
      rw [hc, hr.2] at h <;> exact HoistAction.noConfusion h

theorem liveCount_snoc (T : Target) (l : List ArmLIR) (c : ArmLIR) :
    liveCount T (l ++ [c]) =
      liveCount T l + (if (!c.isNop && !T.isPseudoOpcode c.opcode) = true then 1 else 0) := by
  simp only [liveCount, List.filter_append, List.length_append]
  congr 1
  by_cases h : (!c.isNop && !T.isPseudoOpcode c.opcode) = true
  · simp [List.filter, h]
  · simp [List.filter, h]

theorem SlotOk.grow {T : Target} {seen : List ArmLIR} {s : Nat} {e : Slot}
    (h : SlotOk T seen s e) (c : ArmLIR) : SlotOk T (seen ++ [c]) s e := by
  obtain ⟨h1, h2, h3⟩ := h
  refine ⟨by simp; omega, ?_, ?_⟩
  · rw [List.getElem?_append_left h1]; exact h2
  · rw [List.take_append_of_le_length (by omega)]; exact h3

theorem getElem?_snoc_cases {α : Type} (l : List α) (a : α) (s : Nat) (e : α)
    (h : (l ++ [a])[s]? = some e) : l[s]? = some e ∨ (s = l.length ∧ e = a) := by
  by_cases hs : s < l.length
  · left
    rwa [List.getElem?_append_left hs] at h
  · right
    have hle : l.length ≤ s := Nat.le_of_not_lt hs
    rw [List.getElem?_append_right hle] at h
    by_cases h0 : s - l.length = 0
    · rw [h0] at h
      simp only [List.getElem?_cons_zero, Option.some.injEq] at h
      exact ⟨by omega, h.symm⟩
    · obtain ⟨k, hk⟩ := Nat.exists_eq_succ_of_ne_zero h0
      rw [hk] at h
      simp at h

theorem getElem?_lt_length {α : Type} {l : List α} {s : Nat} {e : α}
    (h : l[s]? = some e) : s < l.length := by
  by_contra hc
  rw [List.getElem?_eq_none (Nat.le_of_not_lt hc)] at h
  exact Option.noConfusion h

/-- What the backward walk of load hoisting guarantees for the list it
returns: all entries but the last point at nodes it went past. -/
theorem hoistWalk_spec (T : Target) (thisLIR : ArmLIR) :
    ∀ (more seen : List ArmLIR) (prev : List Slot),
      (∀ x ∈ seen, x.isNop = false → HoistFree T thisLIR x) →
      (∀ s e, prev[s]? = some e → SlotOk T seen s e) →
      liveCount T seen ≤ prev.length →
      prev.length < MAX_HOIST_DISTANCE →
      WalkOk T thisLIR (seen ++ more) (hoistWalk T thisLIR seen.length prev more) := by
  intro more
  induction more with
  | nil =>
      intro seen prev hf hs hc hlen
      refine ⟨seen, [], rfl, hf, ?_, ?_, fun _ => rfl⟩
      · simp only [hoistWalk]; omega
      · intro s e he _
        exact hs s e he
  | cons c more ih =>
      intro seen prev hf hs hc hlen
      have stopCase : ∀ b : Bool,
          (b = true ∨ (prev ++ [(seen.length, c)]).length = MAX_HOIST_DISTANCE) →
          WalkOk T thisLIR (seen ++ c :: more) (prev ++ [(seen.length, c)], b) := by
        intro b hstop
        refine ⟨seen, c :: more, rfl, hf, by simp; omega, ?_, ?_⟩
        · intro s e he hcond
          rcases getElem?_snoc_cases _ _ _ _ he with h1 | ⟨h1, _⟩
          · exact hs s e h1
          · exfalso
            simp only [List.length_append, List.length_singleton] at hcond hstop
            rcases hcond with h | ⟨h2, h3⟩
            · omega
            · rcases hstop with h | h
              · rw [h] at h2; exact Bool.noConfusion h2
              · omega
        · rintro ⟨h2, h3⟩
          exfalso
          simp only [List.length_append, List.length_singleton] at h3 hstop
          rcases hstop with h | h
          · rw [h] at h2; exact Bool.noConfusion h2
          · omega
      have goOn : ∀ prev', (∀ s e, prev'[s]? = some e → SlotOk T (seen ++ [c]) s e) →
          liveCount T (seen ++ [c]) ≤ prev'.length → prev'.length < MAX_HOIST_DISTANCE →
          (c.isNop = false → HoistFree T thisLIR c) →
          WalkOk T thisLIR (seen ++ c :: more)
            (hoistWalk T thisLIR (seen.length + 1) prev' more) := by
        intro prev' h1 h2 h3 h4
        have hf' : ∀ x ∈ seen ++ [c], x.isNop = false → HoistFree T thisLIR x := by
          intro x hx hl
          rcases List.mem_append.1 hx with hx | hx
          · exact hf x hx hl
          · rw [List.mem_singleton.1 hx] at hl ⊢; exact h4 hl
        have := ih (seen ++ [c]) prev' hf' h1 h2 h3
        simpa only [List.length_append, List.length_singleton, List.append_assoc,
          List.singleton_append] using this
      cases hact : hoistCheck T thisLIR c with
      | skip =>
          have hn := hoistCheck_skip_nop hact
          have := goOn prev (fun s e he => (hs s e he).grow c)
            (by rw [liveCount_snoc]; simp [hn]; exact hc) hlen
            (fun hl => by rw [hn] at hl; exact Bool.noConfusion hl)
          simpa only [hoistWalk, hact] using this
      | ignore =>
          have hp := hoistCheck_ignore_pseudo hact
          have := goOn prev (fun s e he => (hs s e he).grow c)
            (by rw [liveCount_snoc]; simp [hp]; exact hc) hlen (fun _ => Or.inr hact)
          simpa only [hoistWalk, hact] using this
      | memStop =>
          simpa only [hoistWalk, hact] using stopCase true (Or.inl rfl)
      | record b =>
          simp only [hoistWalk, hact]
          split
          · rename_i hmax
            exact stopCase b (Or.inr (by simpa using hmax))
          · rename_i hmax
            cases b with
            | true => exact stopCase true (Or.inl rfl)
            | false =>
                simp only [Bool.false_eq_true, if_false]
                have hmax' : prev.length + 1 ≠ MAX_HOIST_DISTANCE := by simpa using hmax
                refine goOn (prev ++ [(seen.length, c)]) ?_ ?_ (by simp; omega)
                  (fun _ => Or.inl hact)
                · intro s e he
                  rcases getElem?_snoc_cases _ _ _ _ he with h1 | ⟨h1, h2⟩
                  · exact (hs s e h1).grow c
                  · subst h1 h2
                    refine ⟨by simp, by simp, ?_⟩
                    rw [List.take_of_length_le (by simp), liveCount_snoc]
                    split <;> omega
                · rw [liveCount_snoc]
                  simp only [List.length_append, List.length_singleton]
                  split <;> omega

/-- What lines 313-380 of load hoisting guarantee for `prevInstList`. -/
theorem hoistCollect_spec (T : Target) (headLIR : ArmLIR) (back : List ArmLIR)
    (thisLIR : ArmLIR) :
    ∃ seen tl, back = seen ++ tl ∧
      (∀ x ∈ seen, x.isNop = false → HoistFree T thisLIR x) ∧
      (hoistCollect T headLIR back thisLIR).length ≤ MAX_HOIST_DISTANCE ∧
      ∀ s e, (hoistCollect T headLIR back thisLIR)[s]? = some e →
        s + 1 < (hoistCollect T headLIR back thisLIR).length → SlotOk T seen s e := by
  have hw := hoistWalk_spec T thisLIR back [] []
    (fun x hx => absurd hx (List.not_mem_nil x))
    (fun s e he => by simp at he) (by simp [liveCount]) (by decide)
  simp only [List.nil_append, List.length_nil] at hw
  obtain ⟨seen, tl, h1, h2, h3, h4, h5⟩ := hw
  refine ⟨seen, tl, h1, h2, ?_⟩
  unfold hoistCollect
  simp only
  split
  · rename_i hcond
    simp only [Bool.and_eq_true, Bool.not_eq_true', decide_eq_true_eq] at hcond
    refine ⟨by simp; omega, ?_⟩
    intro s e he hlt
    rcases getElem?_snoc_cases _ _ _ _ he with h | ⟨h, _⟩
    · exact h4 s e h (Or.inr hcond)
    · simp only [List.length_append, List.length_singleton] at hlt
      omega
  · exact ⟨h3, fun s e he hlt => h4 s e he (Or.inl hlt)⟩

theorem hoistSlotTest_defined (T : Target) (P : List Slot) {slot : Nat}
    (h : slot + 1 < P.length) : ∃ b, hoistSlotTest T P slot = some b := by
  unfold hoistSlotTest
  rw [List.getElem?_eq_getElem (by omega : slot < P.length), List.getElem?_eq_getElem h]
  simp only
  split_ifs <;> exact ⟨_, rfl⟩

/-- The slot loop reads only written entries and returns a slot at or below
its start. -/
theorem hoistSlotLoop_spec (T : Target) (P : List Slot) :
    ∀ n, n + 1 < P.length →
      ∃ o, hoistSlotLoop T P n = some o ∧ ∀ slot, o = some slot → slot ≤ n := by
  intro n
  induction n with
  | zero =>
      intro h
      obtain ⟨b, hb⟩ := hoistSlotTest_defined T P h
      simp only [hoistSlotLoop, hb]
      cases b
      · exact ⟨none, rfl, fun _ h => Option.noConfusion h⟩
      · exact ⟨some 0, rfl, fun slot h => by simp at h; omega⟩
  | succ n ih =>
      intro h
      obtain ⟨b, hb⟩ := hoistSlotTest_defined T P h
      simp only [hoistSlotLoop, hb]
      cases b
      · obtain ⟨o, ho, hle⟩ := ih (by omega)
        exact ⟨o, ho, fun slot hs => Nat.le_succ_of_le (hle slot hs)⟩
      · exact ⟨some (n + 1), rfl, fun slot h => by simp at h; omega⟩

/-- Slot selection reads only written entries and never selects the last
entry of `prevInstList`. -/
theorem hoistSelect_spec (T : Target) (P : List Slot) :
    ∃ o, hoistSelect T P = some o ∧ ∀ slot, o = some slot → slot + 1 < P.length := by
  unfold hoistSelect
  split
  · rename_i h2
    rw [List.getElem?_eq_getElem (by omega : P.length - 1 < P.length)]
    simp only [LDLD_DISTANCE]
    have key : ∀ d : Int, 0 ≤ d →
        ∃ o, (if (P.length : Int) - 2 - d < 0 then some none
          else hoistSlotLoop T P ((P.length : Int) - 2 - d).toNat) = some o ∧
          ∀ slot, o = some slot → slot + 1 < P.length := by
      intro d hd
      split
      · exact ⟨none, rfl, fun _ h => Option.noConfusion h⟩
      · rename_i hneg
        obtain ⟨o, ho, hs⟩ := hoistSlotLoop_spec T P ((P.length : Int) - 2 - d).toNat
          (by omega)
        exact ⟨o, ho, fun slot h => by have := hs slot h; omega⟩
    split
    · exact key _ (by decide)
    · exact key _ (by decide)
  · exact ⟨none, rfl, fun _ h => Option.noConfusion h⟩

/-- What one visit of load hoisting does: it returns, and when it hoists,
the copy lands inside the block, behind nodes the walk went past, fewer than
`MAX_HOIST_DISTANCE` of them live and not pseudo. -/
theorem hoistVisit_spec (T : Target) (headLIR : ArmLIR) (back : List ArmLIR)
    (thisLIR : ArmLIR) :
    ∃ r, hoistVisit T headLIR back thisLIR = some r ∧
      (r.hoistedTo = none → r.back = back ∧ r.thisLIR = thisLIR) ∧
      ∀ i, r.hoistedTo = some i →
        i < back.length ∧
        r.back = back.take (i + 1) ++ thisLIR :: back.drop (i + 1) ∧
        r.thisLIR = markNop thisLIR ∧
        liveCount T (back.take (i + 1)) < MAX_HOIST_DISTANCE ∧
        ∀ j x, j ≤ i → back[j]? = some x → x.isNop = false → HoistFree T thisLIR x := by
  obtain ⟨seen, tl, hb, hfree, hlen, hslots⟩ := hoistCollect_spec T headLIR back thisLIR
  have hlenb : back.length = seen.length + tl.length := by rw [hb, List.length_append]
  have htake : ∀ n, n ≤ seen.length → back.take n = seen.take n := by
    intro n hn; rw [hb]; exact List.take_append_of_le_length hn
  have hgetb : ∀ j, j < seen.length → back[j]? = seen[j]? := by
    intro j hj; rw [hb]; exact List.getElem?_append_left hj
  obtain ⟨o, ho, hsel⟩ := hoistSelect_spec T (hoistCollect T headLIR back thisLIR)
  unfold hoistVisit
  simp only [ho]
  cases o with
  | none =>
      exact ⟨_, rfl, fun _ => ⟨rfl, rfl⟩, fun i h => by simp at h⟩
  | some slot =>
      have hlt := hsel slot rfl
      have hget := List.getElem?_eq_getElem (by omega : slot <
        (hoistCollect T headLIR back thisLIR).length)
      obtain ⟨h1, h2, h3⟩ := hslots slot _ hget hlt
      have hback : ((hoistCollect T headLIR back thisLIR)[slot]).1 < back.length := by
        omega
      simp only [hget, hback, if_true]
      refine ⟨_, rfl, fun h => by simp at h, ?_⟩
      intro i hi
      simp only [Option.some.injEq] at hi
      subst hi
      refine ⟨hback, rfl, rfl, ?_, ?_⟩
      · rw [htake _ (by omega)]
        omega
      · intro j x hj hx hl
        rw [hgetb j (by omega)] at hx
        exact hfree x (List.getElem?_mem hx) hl

/-- The outer loop of load hoisting returns, and only marks and inserts. -/
theorem hoistLoop_spec (T : Target) (headLIR : ArmLIR) :
    ∀ (rest back : List ArmLIR),
      ∃ out, hoistLoop T headLIR back rest = some out ∧ Evolves (back.reverse ++ rest) out := by
  intro rest
  induction rest with
  | nil => intro back; exact ⟨_, rfl, by simpa using Evolves.refl _⟩
  | cons t rest ih =>
      intro back
      simp only [hoistLoop]
      split
      · obtain ⟨r, hr, hnone, hsome⟩ := hoistVisit_spec T headLIR back t
        rw [hr]
        obtain ⟨out, ho, he⟩ := ih (r.thisLIR :: r.back)
        refine ⟨out, ho, Evolves.trans ?_ he⟩
        cases hh : r.hoistedTo with
        | none =>
            obtain ⟨h1, h2⟩ := hnone hh
            rw [h1, h2]
            simpa using Evolves.refl _
        | some i =>
            obtain ⟨_, h1, h2, _, _⟩ := hsome i hh
            rw [h1, h2]
            have hb : back.reverse = (back.drop (i + 1)).reverse ++ (back.take (i + 1)).reverse := by
              rw [← List.reverse_append, List.take_append_drop]
            rw [hb]
            simp only [List.reverse_cons, List.reverse_append, List.append_assoc,
              List.singleton_append]
            exact (Evolves.refl _).append
              (.insert t ((Evolves.refl _).append (.mark t (Evolves.refl _))))
      · obtain ⟨out, ho, he⟩ := ih (t :: back)
        exact ⟨out, ho, by simpa using he⟩

theorem HeadStep.stay (T : Target) (h : ArmLIR) : HeadStep T h h := Or.inl rfl

theorem HeadStep.followedBy {T : Target} {a b c : ArmLIR} (h1 : HeadStep T a b)
    (h2 : HeadStep T b c) : HeadStep T a c := by
  rcases h1 with rfl | ⟨rfl, h1⟩
  · exact h2
  · rcases h2 with rfl | ⟨_, h2, _⟩
    · exact Or.inr ⟨rfl, h1⟩
    · simp [markNop] at h2

theorem BlockEvolves.unchanged (T : Target) : ∀ b : Block, BlockEvolves T b b
  | .single n => .single n
  | .span h body t => .span t (HeadStep.stay T h) (Evolves.refl body)

theorem BlockEvolves.compose {T : Target} {a b c : Block} (h1 : BlockEvolves T a b)
    (h2 : BlockEvolves T b c) : BlockEvolves T a c := by
  cases h1 with
  | single n => exact h2
  | span t hh he =>
      cases h2 with
      | span _ hh' he' => exact .span t (hh.followedBy hh') (he.trans he')

theorem BlockEvolves.nodes {T : Target} {a b : Block} (h : BlockEvolves T a b) :
    Evolves a.nodes b.nodes := by
  cases h with
  | single n => exact Evolves.refl _
  | span t hh he =>
      simp only [Block.nodes]
      have htail := he.append (Evolves.refl [t])
      rcases hh with rfl | ⟨rfl, _⟩
      · exact .keep _ htail
      · exact .mark _ htail

/-- Load/store elimination returns a block that evolved from its input. -/
theorem applyLoadStoreElimination_spec {T : Target} (hT : T.WellFormed) (b : Block) :
    ∃ b', applyLoadStoreElimination T b = some b' ∧ BlockEvolves T b b' := by
  cases b with
  | single n => exact ⟨_, rfl, .single n⟩
  | span h body t =>
      obtain ⟨out, ho, he⟩ := lseLoop_spec hT body.reverse []
      refine ⟨.span h out t, by simp [applyLoadStoreElimination, ho], ?_⟩
      exact .span t (HeadStep.stay T h) (by simpa using he)

/-- Load hoisting returns a block that evolved from its input. -/
theorem applyLoadHoisting_spec (T : Target) (b : Block) :
    ∃ b', applyLoadHoisting T b = some b' ∧ BlockEvolves T b b' := by
  cases b with
  | single n => exact ⟨_, rfl, .single n⟩
  | span h body t =>
      obtain ⟨out, ho, he⟩ := hoistLoop_spec T h body []
      refine ⟨.span h out t, by simp [applyLoadHoisting, ho], ?_⟩
      exact .span t (HeadStep.stay T h) (by simpa using he)

/-! ## Lemmas on the fusion passes -/

theorem findNext_eq (T : Target) :
    ∀ (rest : List ArmLIR) (r : List ArmLIR × ArmLIR × List ArmLIR),
      findNext T rest = some r → rest = r.1 ++ r.2.1 :: r.2.2 := by
  intro rest
  induction rest with
  | nil => intro r h; simp [findNext] at h
  | cons n rest ih =>
      intro r h
      simp only [findNext] at h
      split at h
      · simp only [Option.some.injEq] at h
        subst h
        rfl
      · cases hf : findNext T rest with
        | none => rw [hf] at h; simp at h
        | some q =>
            rw [hf] at h
            simp only [Option.some.injEq] at h
            subst h
            simp only [List.cons_append]
            rw [← ih q hf]

/-- The loop of the shift fusion returns within its budget; the first node
makes a `HeadStep` and the others evolve. -/
theorem shiftLoop_spec (T : Target) :
    ∀ (fuel : Nat) (l : List ArmLIR), l.length < fuel →
      ∃ out, shiftLoop T fuel l = some out ∧ Evolves l out ∧
        ∀ h body, l = h :: body →
          ∃ h' body', out = h' :: body' ∧ HeadStep T h h' ∧ Evolves body body' := by
  intro fuel
  induction fuel with
  | zero => intro l h; exact absurd h (Nat.not_lt_zero _)
  | succ fuel ih =>
      intro l hlen
      cases l with
      | nil => exact ⟨[], rfl, .nil, fun _ _ h => by simp at h⟩
      | cons t rest =>
          simp only [List.length_cons] at hlen
          have keepCase : ∃ out, (shiftLoop T fuel rest).map (t :: ·) = some out ∧
              Evolves (t :: rest) out ∧
              ∀ h body, t :: rest = h :: body →
                ∃ h' body', out = h' :: body' ∧ HeadStep T h h' ∧ Evolves body body' := by
            obtain ⟨out, ho, he, _⟩ := ih rest (by omega)
            refine ⟨t :: out, by simp [ho], .keep t he, ?_⟩
            intro h body heq
            simp only [List.cons.injEq] at heq
            obtain ⟨rfl, rfl⟩ := heq
            exact ⟨t, out, rfl, HeadStep.stay T t, he⟩
          simp only [shiftLoop]
          split
          · exact keepCase
          · rename_i hnop
            split
            · rename_i hshift
              cases hf : findNext T rest with
              | none =>
                  refine ⟨t :: rest, rfl, Evolves.refl _, ?_⟩
                  intro h body heq
                  simp only [List.cons.injEq] at heq
                  obtain ⟨rfl, rfl⟩ := heq
                  exact ⟨t, rest, rfl, HeadStep.stay T t, Evolves.refl _⟩
              | some q =>
                  obtain ⟨sk, n, af⟩ := q
                  have hrest := findNext_eq T rest _ hf
                  simp only at hrest
                  simp only
                  split
                  · have hlaf : af.length < fuel := by
                      have := congrArg List.length hrest
                      simp only [List.length_append, List.length_cons] at this
                      omega
                    obtain ⟨out, ho, he, _⟩ := ih af hlaf
                    have hbody : Evolves rest
                        (sk ++ shiftFused T t n :: markNop n :: out) := by
                      rw [hrest]
                      exact (Evolves.refl sk).append (.insert _ (.mark n he))
                    refine ⟨_, by simp [ho], .mark t hbody, ?_⟩
                    intro h body heq
                    simp only [List.cons.injEq] at heq
                    obtain ⟨rfl, rfl⟩ := heq
                    refine ⟨_, _, rfl, Or.inr ⟨rfl, ?_, Or.inl hshift⟩, hbody⟩
                    simpa using hnop
                  · exact keepCase
            · exact keepCase

/-- The loop of the multiply fusion returns within its budget; the first
node makes a `HeadStep` and the others evolve. -/
theorem mulLoop_spec (T : Target) :
    ∀ (fuel : Nat) (l : List ArmLIR), l.length < fuel →
      ∃ out, mulLoop T fuel l = some out ∧ Evolves l out ∧
        ∀ h body, l = h :: body →
          ∃ h' body', out = h' :: body' ∧ HeadStep T h h' ∧ Evolves body body' := by
  intro fuel
  induction fuel with
  | zero => intro l h; exact absurd h (Nat.not_lt_zero _)
  | succ fuel ih =>
      intro l hlen
      cases l with
      | nil => exact ⟨[], rfl, .nil, fun _ _ h => by simp at h⟩
      | cons t rest =>
          simp only [List.length_cons] at hlen
          have keepCase : ∃ out, (mulLoop T fuel rest).map (t :: ·) = some out ∧
              Evolves (t :: rest) out ∧
              ∀ h body, t :: rest = h :: body →
                ∃ h' body', out = h' :: body' ∧ HeadStep T h h' ∧ Evolves body body' := by
            obtain ⟨out, ho, he, _⟩ := ih rest (by omega)
            refine ⟨t :: out, by simp [ho], .keep t he, ?_⟩
            intro h body heq
            simp only [List.cons.injEq] at heq
            obtain ⟨rfl, rfl⟩ := heq
            exact ⟨t, out, rfl, HeadStep.stay T t, he⟩
          simp only [mulLoop]
          split
          · rename_i hmul
            simp only [Bool.and_eq_true, beq_iff_eq, Bool.not_eq_true'] at hmul
            cases hf : findNext T rest with
            | none =>
                refine ⟨t :: rest, rfl, Evolves.refl _, ?_⟩
                intro h body heq
                simp only [List.cons.injEq] at heq
                obtain ⟨rfl, rfl⟩ := heq
                exact ⟨t, rest, rfl, HeadStep.stay T t, Evolves.refl _⟩
            | some q =>
                obtain ⟨sk, n, af⟩ := q
                have hrest := findNext_eq T rest _ hf
                simp only at hrest
                simp only
                split
                · have hlaf : af.length < fuel := by
                    have := congrArg List.length hrest
                    simp only [List.length_append, List.length_cons] at this
                    omega
                  obtain ⟨out, ho, he, _⟩ := ih af hlaf
                  have hbody : Evolves rest
                      (sk ++ mulFused T t n :: markNop n :: out) := by
                    rw [hrest]
                    exact (Evolves.refl sk).append (.insert _ (.mark n he))
                  refine ⟨_, by simp [ho], .mark t hbody, ?_⟩
                  intro h body heq
                  simp only [List.cons.injEq] at heq
                  obtain ⟨rfl, rfl⟩ := heq
                  exact ⟨_, _, rfl, Or.inr ⟨rfl, hmul.2, Or.inr hmul.1⟩, hbody⟩
                · exact keepCase
          · exact keepCase

/-- The shift fusion returns a block that evolved from its input. -/
theorem applyShiftArithmeticOpts_spec (T : Target) (b : Block) :
    ∃ b', applyShiftArithmeticOpts T b = some b' ∧ BlockEvolves T b b' := by
  cases b with
  | single n => exact ⟨_, rfl, .single n⟩
  | span h body t =>
      obtain ⟨out, ho, _, hh⟩ := shiftLoop_spec T (body.length + 2) (h :: body) (by simp)
      obtain ⟨h', body', rfl, hs, he⟩ := hh h body rfl
      exact ⟨.span h' body' t, by simp [applyShiftArithmeticOpts, ho, Block.ofWalk],
        .span t hs he⟩

/-- The multiply fusion returns a block that evolved from its input. -/
theorem applyMultiplyArithmeticOpts_spec (T : Target) (b : Block) :
    ∃ b', applyMultiplyArithmeticOpts T b = some b' ∧ BlockEvolves T b b' := by
  cases b with
  | single n => exact ⟨_, rfl, .single n⟩
  | span h body t =>
      obtain ⟨out, ho, _, hh⟩ := mulLoop_spec T (body.length + 2) (h :: body) (by simp)
      obtain ⟨h', body', rfl, hs, he⟩ := hh h body rfl
      exact ⟨.span h' body' t, by simp [applyMultiplyArithmeticOpts, ho, Block.ofWalk],
        .span t hs he⟩

theorem runUnlessDisabled_spec {T : Target} (disableOpt k : Nat)
    {pass : Block → Option Block}
    (hp : ∀ b, ∃ b', pass b = some b' ∧ BlockEvolves T b b') (b : Block) :
    ∃ b', runUnlessDisabled disableOpt k pass b = some b' ∧ BlockEvolves T b b' := by
  unfold runUnlessDisabled
  split
  · exact ⟨b, rfl, BlockEvolves.unchanged T b⟩
  · exact hp b

/-- The driver returns a block that evolved from its input, whatever passes
are disabled. -/
theorem dvmCompilerApplyLocalOptimizations_spec {T : Target} (hT : T.WellFormed)
    (disableOpt : Nat) (b : Block) :
    ∃ b', dvmCompilerApplyLocalOptimizations T disableOpt b = some b' ∧
      BlockEvolves T b b' := by
  obtain ⟨b1, h1, e1⟩ := runUnlessDisabled_spec disableOpt T.kLoadStoreElimination
    (applyLoadStoreElimination_spec hT) b
  obtain ⟨b2, h2, e2⟩ := runUnlessDisabled_spec disableOpt T.kLoadHoisting
    (applyLoadHoisting_spec T) b1
  obtain ⟨b3, h3, e3⟩ := runUnlessDisabled_spec disableOpt T.kShiftArithmetic
    (applyShiftArithmeticOpts_spec T) b2
  obtain ⟨b4, h4, e4⟩ := runUnlessDisabled_spec disableOpt T.kMultiplyArithmetic
    (applyMultiplyArithmeticOpts_spec T) b3
  refine ⟨b4, ?_, ((e1.compose e2).compose e3).compose e4⟩
  simp [dvmCompilerApplyLocalOptimizations, h1, h2, h3, h4]

/-! ## The sample target is well formed -/

theorem sampleRegBit_testBit {r : Int} {i : Nat} (h : (sampleRegBit r).testBit i = true) :
    i < 48 := by
  unfold sampleRegBit at h
  rw [Nat.one_shiftLeft, Nat.testBit_two_pow] at h
  have : r.toNat % 48 < 48 := Nat.mod_lt _ (by decide)
  simp only [decide_eq_true_eq] at h
  omega

theorem sampleTarget_wf : sampleTarget.WellFormed where
  pc_ne_zero := by decide
  pc_not_mem := by decide
  pc_lt := by decide
  mem_lt := by decide
  dalvik_ne_zero := by decide
  dalvik_ne_mem := by decide
  literal_ne_dalvik := by decide
  regCopy_no_mem := by
    intro dest src
    show (sampleRegBit src ||| sampleRegBit dest) &&& (15 <<< 49) = 0
    rw [and_eq_zero_iff_testBit]
    rintro i ⟨h1, h2⟩
    have hi : i < 48 := by
      rw [Nat.testBit_or, Bool.or_eq_true] at h1
      rcases h1 with h | h <;> exact sampleRegBit_testBit h
    rw [Nat.testBit_shiftLeft] at h2
    simp only [Bool.and_eq_true, decide_eq_true_eq] at h2
    omega

/-! ## The claims -/

/-- C1: whenever load/store elimination sinks a store (its copy lands at
index `k` of the nodes behind it) or load hoisting hoists a load (its copy
lands before the node at distance `i`), every live node between the original
and the copy has no register dependence with the moved instruction, whose
masks are taken without the `ENCODE_MEM` bits: for the earlier and the later
instruction of the pair neither RAW nor WAR/WAW holds. -/
theorem C1_moved_instruction_crosses_no_register_dependence
    (T : Target) (hT : T.WellFormed) (thisLIR : ArmLIR) :
    (∀ (rest : List ArmLIR) (r : LseScan) (k : Nat),
      lseScan T thisLIR (lseFuel rest) 0 [] [] rest = some r → r.sunkAt = some k →
      r.post[k]? = some thisLIR ∧
      ∀ (j : Nat) (x : ArmLIR), j < k → r.post[j]? = some x → x.isNop = false →
        regDependence (regBits T thisLIR.useMask) (regBits T thisLIR.defMask)
          x.useMask x.defMask = false) ∧
    (∀ (headLIR : ArmLIR) (back : List ArmLIR) (r : HoistVisit) (i : Nat),
      hoistVisit T headLIR back thisLIR = some r → r.hoistedTo = some i →
      r.back = back.take (i + 1) ++ thisLIR :: back.drop (i + 1) ∧
      ∀ (j : Nat) (x : ArmLIR), j ≤ i → back[j]? = some x → x.isNop = false →
        regDependence x.useMask x.defMask (regBits T thisLIR.useMask)
          (regBits T thisLIR.defMask) = false) := by
  constructor
  · intro rest r k hr hk
    obtain ⟨p, tl, hpost, hpass, -, hsunk⟩ := lseScan_spec hT thisLIR _ _ _ _ _ r
      (fun x hx => absurd hx (List.not_mem_nil x)) (fun j hj => absurd hj (List.not_mem_nil j)) hr
    rcases hsunk with hs | ⟨hs, tl', rfl⟩
    · rw [hs] at hk; exact Option.noConfusion hk
    · rw [hs, Option.some.injEq] at hk
      subst hk
      refine ⟨by rw [hpost, List.getElem?_append_right (Nat.le_refl _)]; simp, ?_⟩
      intro j x hj hx hl
      rw [hpost, List.getElem?_append_left hj] at hx
      exact lse_regDep_of_check (hpass x (List.getElem?_mem hx) hl).1
  · intro headLIR back r i hr hi
    obtain ⟨r', hr', -, hsome⟩ := hoistVisit_spec T headLIR back thisLIR
    rw [hr, Option.some.injEq] at hr'
    subst hr'
    obtain ⟨-, hback, -, -, hfree⟩ := hsome i hi
    exact ⟨hback, fun j x hj hx hl => hoist_regDep_of_check (hoistFree_dep hl (hfree j x hj hx hl))⟩

/-- Witness of C1: the store `exStore` sinks behind `exAdd`, the load
`exLoad10` is hoisted above `exAdd`; neither depends on `exAdd`. -/
theorem C1_witness :
    regDependence (regBits sampleTarget exStore.useMask) (regBits sampleTarget exStore.defMask)
        exAdd.useMask exAdd.defMask = false ∧
      regDependence exAdd.useMask exAdd.defMask (regBits sampleTarget exLoad10.useMask)
        (regBits sampleTarget exLoad10.defMask) = false :=
  ⟨((C1_moved_instruction_crosses_no_register_dependence sampleTarget sampleTarget_wf
      exStore).1 [exAdd, exClobber] ⟨[exAdd, exStore, exClobber], true, some 1, []⟩ 1
      (by decide) (by decide)).2 0 exAdd (by decide) (by decide) (by decide),
   ((C1_moved_instruction_crosses_no_register_dependence sampleTarget sampleTarget_wf
      exLoad10).2 exHead [exAdd] ⟨[exAdd, exLoad10], markNop exLoad10, some 0⟩ 0
      (by decide) (by decide)).2 0 exAdd (by decide) (by decide) (by decide)⟩

/-- C2: whenever load/store elimination marks a later node nop on account
of `thisLIR` (index `j` of `killed`), then (1) the two are must-aliases: their
memory masks meet in exactly the literal or exactly the Dalvik region and
their `aliasInfo` is equal; (2) no live node between them has a `defMask`
that meets the register bits of `thisLIR`'s `useMask` or `defMask`; (3) no
live node between them is a store to an equal or overlapping Dalvik-register
slot. -/
theorem C2_forwarded_load_is_must_alias_and_unclobbered
    (T : Target) (hT : T.WellFormed) (thisLIR : ArmLIR) (rest : List ArmLIR)
    (r : LseScan) (j : Nat)
    (hr : lseScan T thisLIR (lseFuel rest) 0 [] [] rest = some r) (hj : j ∈ r.killed) :
    ∃ y, r.post[j]? = some y ∧ y.isNop = true ∧
      (y.aliasInfo = thisLIR.aliasInfo ∧
        (memMask T thisLIR &&& memMask T y = T.ENCODE_LITERAL ∨
          memMask T thisLIR &&& memMask T y = T.ENCODE_DALVIK_REG)) ∧
      (∀ (i : Nat) (x : ArmLIR), i < j → r.post[i]? = some x → x.isNop = false →
        regBits T (thisLIR.useMask ||| thisLIR.defMask) &&& x.defMask = 0) ∧
      (∀ (i : Nat) (x : ArmLIR), i < j → r.post[i]? = some x → x.isNop = false →
        ¬ storesToSlotOf T thisLIR x) := by
  obtain ⟨p, tl, hpost, hpass, hkill, -⟩ := lseScan_spec hT thisLIR _ _ _ _ _ r
    (fun x hx => absurd hx (List.not_mem_nil x)) (fun j hj => absurd hj (List.not_mem_nil j)) hr
  obtain ⟨y, hy, hnop, halias, hreg⟩ := hkill j hj
  have hjp : j < p.length := getElem?_lt_length hy
  have hmem : ∀ (i : Nat) (x : ArmLIR), i < j → r.post[i]? = some x → x ∈ p := by
    intro i x hi hx
    rw [hpost, List.getElem?_append_left (by omega)] at hx
    exact List.getElem?_mem hx
  refine ⟨y, by rw [hpost, List.getElem?_append_left hjp]; exact hy, hnop, ⟨halias, hreg⟩, ?_, ?_⟩
  · intro i x hi hx hl
    exact lse_noClobber_of_check (hpass x (hmem i x hi hx) hl).1
  · intro i x hi hx hl
    exact (hpass x (hmem i x hi hx) hl).2

/-- Witness of C2: on account of `exLoad7` the later `exLoad8` is marked nop
behind `exAdd`. -/
theorem C2_witness :
    ∃ y, ([exAdd, markNop exLoad8,
        sampleTarget.dvmCompilerRegCopyNoInsert 8 7] : List ArmLIR)[1]? = some y ∧
      y.isNop = true ∧
      (y.aliasInfo = exLoad7.aliasInfo ∧
        (memMask sampleTarget exLoad7 &&& memMask sampleTarget y = sampleTarget.ENCODE_LITERAL ∨
          memMask sampleTarget exLoad7 &&& memMask sampleTarget y
            = sampleTarget.ENCODE_DALVIK_REG)) ∧
      (∀ (i : Nat) (x : ArmLIR), i < 1 →
        ([exAdd, markNop exLoad8,
          sampleTarget.dvmCompilerRegCopyNoInsert 8 7] : List ArmLIR)[i]? = some x →
        x.isNop = false →
        regBits sampleTarget (exLoad7.useMask ||| exLoad7.defMask) &&& x.defMask = 0) ∧
      (∀ (i : Nat) (x : ArmLIR), i < 1 →
        ([exAdd, markNop exLoad8,
          sampleTarget.dvmCompilerRegCopyNoInsert 8 7] : List ArmLIR)[i]? = some x →
        x.isNop = false → ¬ storesToSlotOf sampleTarget exLoad7 x) :=
  C2_forwarded_load_is_must_alias_and_unclobbered sampleTarget sampleTarget_wf exLoad7
    [exAdd, exLoad8]
    ⟨[exAdd, markNop exLoad8, sampleTarget.dvmCompilerRegCopyNoInsert 8 7], false, none, [1]⟩
    1 (by decide) (by decide)

/-- C3: the forward scan of load/store elimination from `thisLIR` does not
get past a live node `B` with `defMask == ENCODE_ALL`: `B` and the nodes
behind it are left as they are, a sunk store's copy lies before `B`, and
every node marked nop on account of `thisLIR` lies before `B`. -/
theorem C3_scan_stops_at_barrier
    (T : Target) (hT : T.WellFormed) (thisLIR B : ArmLIR) (l1 l2 : List ArmLIR)
    (r : LseScan) (hl : B.isNop = false) (hB : B.defMask = ENCODE_ALL)
    (hr : lseScan T thisLIR (lseFuel (l1 ++ B :: l2)) 0 [] [] (l1 ++ B :: l2) = some r) :
    ∃ l1', r.post = l1' ++ B :: l2 ∧
      (∀ k, r.sunkAt = some k → k < l1'.length) ∧
      (∀ j ∈ r.killed, j < l1'.length) := by
  obtain ⟨l1', h1, h2, h3, -⟩ := lseScan_barrier hT thisLIR hl hB l2 _ _ _ _ _ r
    (fun j hj => absurd hj (List.not_mem_nil j)) hr
  exact ⟨l1', h1, h2, h3⟩

/-- Witness of C3: the scan for `exStore` over `exAdd`, the barrier `exTail`
and `exClobber` sinks the store in front of the barrier. -/
theorem C3_witness :
    ∃ l1', ([exAdd, exStore, exTail, exClobber] : List ArmLIR) = l1' ++ exTail :: [exClobber] ∧
      (∀ k, (some 1 : Option Nat) = some k → k < l1'.length) ∧
      (∀ j ∈ ([] : List Nat), j < l1'.length) :=
  C3_scan_stops_at_barrier sampleTarget sampleTarget_wf exStore exTail [exAdd] [exClobber]
    ⟨[exAdd, exStore, exTail, exClobber], true, some 1, []⟩ (by decide) (by decide) (by decide)

/-- C4: for a load whose `defMask` has a register bit (a bit outside
`ENCODE_MEM`, as the bit of its destination register is), load hoisting never
inserts the copy above a live node `B` between `headLIR` and the load with
`defMask == ENCODE_ALL`: the copy lands before a node strictly nearer to the
load than `B`. -/
theorem C4_load_not_hoisted_above_barrier
    (T : Target) (headLIR thisLIR B : ArmLIR) (back : List ArmLIR) (r : HoistVisit)
    (i j : Nat) (hd : thisLIR.defMask &&& maskNot T.ENCODE_MEM ≠ 0)
    (hr : hoistVisit T headLIR back thisLIR = some r) (hi : r.hoistedTo = some i)
    (hj : back[j]? = some B) (hl : B.isNop = false) (hB : B.defMask = ENCODE_ALL) :
    i < j := by
  obtain ⟨r', hr', -, hsome⟩ := hoistVisit_spec T headLIR back thisLIR
  rw [hr, Option.some.injEq] at hr'
  subst hr'
  obtain ⟨-, -, -, -, hfree⟩ := hsome i hi
  by_contra hc
  exact hoistStops_not_free (hoistStops_barrier hl hB hd) (hfree j B (by omega) hj hl)

/-- Witness of C4: `exLoad10` is hoisted above `exAdd` but stays below the
barrier `exTail` placed before it. -/
theorem C4_witness :
    hoistVisit sampleTarget exHead [exAdd, exTail, exClobber] exLoad10
        = some ⟨[exAdd, exLoad10, exTail, exClobber], markNop exLoad10, some 0⟩ ∧
      ([exAdd, exTail, exClobber] : List ArmLIR)[1]? = some exTail ∧ 0 < 1 :=
  ⟨by decide, by decide,
    C4_load_not_hoisted_above_barrier sampleTarget exHead exLoad10 exTail
      [exAdd, exTail, exClobber]
      ⟨[exAdd, exLoad10, exTail, exClobber], markNop exLoad10, some 0⟩ 0 1
      (by decide) (by decide) (by decide) (by decide) (by decide) (by decide)⟩

/-- Counterexample to C5: in the block `exAddShifted; exPcLoad; exAdd;
exHeapLoad` the literal load `exPcLoad` stays where it is (it writes `r0`
like `exAddShifted` in front of it); the outer loop then arrives at the heap
load with `exAdd`, `exPcLoad`, `exAddShifted` before it, and the heap load `exHeapLoad` is
hoisted to the front of `exAddShifted`, above `exPcLoad`, a live node whose
`useMask` contains `REG_PC`. -/
theorem C5_counterexample :
    applyLoadHoisting sampleTarget
        (.span exHead [exAddShifted, exPcLoad, exAdd, exHeapLoad] exTail)
      = some (.span exHead [exHeapLoad, exAddShifted, exPcLoad, exAdd, markNop exHeapLoad]
          exTail) ∧
    hoistVisit sampleTarget exHead [exAddShifted] exPcLoad
      = some ⟨[exAddShifted], exPcLoad, none⟩ ∧
    hoistVisit sampleTarget exHead [exAdd, exPcLoad, exAddShifted] exHeapLoad
      = some ⟨[exAdd, exPcLoad, exAddShifted, exHeapLoad], markNop exHeapLoad, some 2⟩ ∧
    ([exAdd, exPcLoad, exAddShifted] : List ArmLIR)[1]? = some exPcLoad ∧
    exHeapLoad.useMask &&& sampleTarget.ENCODE_HEAP_REF = sampleTarget.ENCODE_HEAP_REF ∧
    exPcLoad.isNop = false ∧
    exPcLoad.useMask &&& sampleTarget.ENCODE_REG_PC = sampleTarget.ENCODE_REG_PC ∧
    ¬ (2 < 1) := by
  decide

/-- C5 (amended): for a load whose `useMask` contains `ENCODE_HEAP_REF`, load
hoisting never inserts the copy above a live node between `headLIR` and the
load whose `useMask` and `defMask` both contain `REG_PC` (a branch). -/
theorem C5_heap_load_not_hoisted_above_branch
    (T : Target) (hT : T.WellFormed) (headLIR thisLIR x : ArmLIR) (back : List ArmLIR)
    (r : HoistVisit) (i j : Nat) (hh : thisLIR.useMask &&& T.ENCODE_HEAP_REF ≠ 0)
    (hr : hoistVisit T headLIR back thisLIR = some r) (hi : r.hoistedTo = some i)
    (hj : back[j]? = some x) (hl : x.isNop = false)
    (_hu : x.useMask &&& T.ENCODE_REG_PC = T.ENCODE_REG_PC)
    (hx : x.defMask &&& T.ENCODE_REG_PC = T.ENCODE_REG_PC) : i < j := by
  obtain ⟨r', hr', -, hsome⟩ := hoistVisit_spec T headLIR back thisLIR
  rw [hr, Option.some.injEq] at hr'
  subst hr'
  obtain ⟨-, -, -, -, hfree⟩ := hsome i hi
  by_contra hc
  have hpc : x.defMask &&& T.ENCODE_REG_PC ≠ 0 := by rw [hx]; exact hT.pc_ne_zero
  exact hoistStops_not_free (hoistStops_pc hT hl hpc hh) (hfree j x (by omega) hj hl)

/-- Witness of C5 (amended): `exHeapLoad` is hoisted above `exAdd` but stays
below the branch `exBranch` placed before it. -/
theorem C5_witness :
    hoistVisit sampleTarget exHead [exAdd, exBranch, exClobber] exHeapLoad
        = some ⟨[exAdd, exHeapLoad, exBranch, exClobber], markNop exHeapLoad, some 0⟩ ∧
      ([exAdd, exBranch, exClobber] : List ArmLIR)[1]? = some exBranch ∧ 0 < 1 :=
  ⟨by decide, by decide,
    C5_heap_load_not_hoisted_above_branch sampleTarget sampleTarget_wf exHead exHeapLoad
      exBranch [exAdd, exBranch, exClobber]
      ⟨[exAdd, exHeapLoad, exBranch, exClobber], markNop exHeapLoad, some 0⟩ 0 1
      (by decide) (by decide) (by decide) (by decide) (by decide) (by decide) (by decide)⟩

/-- C6: for a load whose `useMask` contains `ENCODE_HEAP_REF`, load hoisting
never inserts the copy above a live node between `headLIR` and the load whose
`defMask` contains `REG_PC`. -/
theorem C6_heap_load_not_hoisted_above_pc_write
    (T : Target) (hT : T.WellFormed) (headLIR thisLIR x : ArmLIR) (back : List ArmLIR)
    (r : HoistVisit) (i j : Nat) (hh : thisLIR.useMask &&& T.ENCODE_HEAP_REF ≠ 0)
    (hr : hoistVisit T headLIR back thisLIR = some r) (hi : r.hoistedTo = some i)
    (hj : back[j]? = some x) (hl : x.isNop = false)
    (hx : x.defMask &&& T.ENCODE_REG_PC ≠ 0) : i < j := by
  obtain ⟨r', hr', -, hsome⟩ := hoistVisit_spec T headLIR back thisLIR
  rw [hr, Option.some.injEq] at hr'
  subst hr'
  obtain ⟨-, -, -, -, hfree⟩ := hsome i hi
  by_contra hc
  exact hoistStops_not_free (hoistStops_pc hT hl hx hh) (hfree j x (by omega) hj hl)

/-- Witness of C6: `exHeapLoad` is hoisted above `exClobber` but stays below
`exBranch`, which writes the program counter. -/
theorem C6_witness :
    hoistVisit sampleTarget exHead [exClobber, exBranch, exAdd] exHeapLoad
        = some ⟨[exClobber, exHeapLoad, exBranch, exAdd], markNop exHeapLoad, some 0⟩ ∧
      ([exClobber, exBranch, exAdd] : List ArmLIR)[1]? = some exBranch ∧ 0 < 1 :=
  ⟨by decide, by decide,
    C6_heap_load_not_hoisted_above_pc_write sampleTarget sampleTarget_wf exHead exHeapLoad
      exBranch [exClobber, exBranch, exAdd]
      ⟨[exClobber, exHeapLoad, exBranch, exAdd], markNop exHeapLoad, some 0⟩ 0 1
      (by decide) (by decide) (by decide) (by decide) (by decide) (by decide)⟩

/-- C7: for every load that load hoisting hoists, the nodes between the
inserted copy and the original load are `back.take (i + 1)`, and at most
`MAX_HOIST_DISTANCE` (20) of them are neither nop nor pseudo. -/
theorem C7_hoist_distance_bounded
    (T : Target) (headLIR thisLIR : ArmLIR) (back : List ArmLIR) (r : HoistVisit) (i : Nat)
    (hr : hoistVisit T headLIR back thisLIR = some r) (hi : r.hoistedTo = some i) :
    r.back = back.take (i + 1) ++ thisLIR :: back.drop (i + 1) ∧
      liveCount T (back.take (i + 1)) ≤ MAX_HOIST_DISTANCE := by
  obtain ⟨r', hr', -, hsome⟩ := hoistVisit_spec T headLIR back thisLIR
  rw [hr, Option.some.injEq] at hr'
  subst hr'
  obtain ⟨-, hback, -, hcount, -⟩ := hsome i hi
  exact ⟨hback, Nat.le_of_lt hcount⟩

/-- Witness of C7: `exLoad10` is hoisted over the single node `exAdd`. -/
theorem C7_witness :
    (⟨[exAdd, exLoad10], markNop exLoad10, some 0⟩ : HoistVisit).back
        = [exAdd].take (0 + 1) ++ exLoad10 :: [exAdd].drop (0 + 1) ∧
      liveCount sampleTarget ([exAdd].take (0 + 1)) ≤ MAX_HOIST_DISTANCE :=
  C7_hoist_distance_bounded sampleTarget exHead exLoad10 [exAdd]
    ⟨[exAdd, exLoad10], markNop exLoad10, some 0⟩ 0 (by decide) (by decide)

theorem strictMono_shift {f : Nat → Nat} (hf : StrictMono f) :
    StrictMono (fun i => f i + 1) := fun _ _ h => Nat.succ_lt_succ (hf h)

theorem strictMono_cons {f : Nat → Nat} (hf : StrictMono f) :
    StrictMono (fun i => match i with | 0 => 0 | k + 1 => f k + 1) := by
  intro a b h
  cases a with
  | zero =>
      cases b with
      | zero => exact absurd h (Nat.lt_irrefl 0)
      | succ b => exact Nat.succ_pos _
  | succ a =>
      cases b with
      | zero => exact absurd h (Nat.not_lt_zero _)
      | succ b => exact Nat.succ_lt_succ (hf (Nat.lt_of_succ_lt_succ h))

/-- A list that evolved keeps its nodes in order, nop nodes still nop. -/
theorem Evolves.nopMonotonic {l l' : List ArmLIR} (h : Evolves l l') : NopMonotonic l l' := by
  induction h with
  | nil => exact ⟨id, strictMono_id, fun i x hx => by simp at hx⟩
  | keep a _ ih =>
      obtain ⟨f, hf, hmap⟩ := ih
      refine ⟨_, strictMono_cons hf, ?_⟩
      intro i x hx
      cases i with
      | zero =>
          simp only [List.getElem?_cons_zero, Option.some.injEq] at hx
          subst hx
          exact ⟨a, by simp, Or.inl rfl, id⟩
      | succ i =>
          simp only [List.getElem?_cons_succ] at hx ⊢
          exact hmap i x hx
  | mark a _ ih =>
      obtain ⟨f, hf, hmap⟩ := ih
      refine ⟨_, strictMono_cons hf, ?_⟩
      intro i x hx
      cases i with
      | zero =>
          simp only [List.getElem?_cons_zero, Option.some.injEq] at hx
          subst hx
          exact ⟨markNop a, by simp, Or.inr rfl, fun _ => rfl⟩
      | succ i =>
          simp only [List.getElem?_cons_succ] at hx ⊢
          exact hmap i x hx
  | insert y _ ih =>
      obtain ⟨f, hf, hmap⟩ := ih
      refine ⟨_, strictMono_shift hf, ?_⟩
      intro i x hx
      simp only [List.getElem?_cons_succ]
      exact hmap i x hx

/-- C8: `isNop` is monotonic.  For every block and every setting of the
disable flags the driver returns, and so does each of the four passes; every
node of the input is still in the output list, in the same order, as it was
or with `isNop` set, and a node that had `isNop == true` still has it. -/
theorem C8_isNop_is_monotonic (T : Target) (hT : T.WellFormed) (disableOpt : Nat)
    (b : Block) :
    (∃ b', dvmCompilerApplyLocalOptimizations T disableOpt b = some b' ∧
      NopMonotonic b.nodes b'.nodes) ∧
    (∃ b', applyLoadStoreElimination T b = some b' ∧ NopMonotonic b.nodes b'.nodes) ∧
    (∃ b', applyLoadHoisting T b = some b' ∧ NopMonotonic b.nodes b'.nodes) ∧
    (∃ b', applyShiftArithmeticOpts T b = some b' ∧ NopMonotonic b.nodes b'.nodes) ∧
    (∃ b', applyMultiplyArithmeticOpts T b = some b' ∧ NopMonotonic b.nodes b'.nodes) := by
  refine ⟨?_, ?_, ?_, ?_, ?_⟩
  · obtain ⟨b', h, e⟩ := dvmCompilerApplyLocalOptimizations_spec hT disableOpt b
    exact ⟨b', h, e.nodes.nopMonotonic⟩
  · obtain ⟨b', h, e⟩ := applyLoadStoreElimination_spec hT b
    exact ⟨b', h, e.nodes.nopMonotonic⟩
  · obtain ⟨b', h, e⟩ := applyLoadHoisting_spec T b
    exact ⟨b', h, e.nodes.nopMonotonic⟩
  · obtain ⟨b', h, e⟩ := applyShiftArithmeticOpts_spec T b
    exact ⟨b', h, e.nodes.nopMonotonic⟩
  · obtain ⟨b', h, e⟩ := applyMultiplyArithmeticOpts_spec T b
    exact ⟨b', h, e.nodes.nopMonotonic⟩

/-- Witness of C8: the driver with all passes enabled on `exBlock`. -/
theorem C8_witness :
    ∃ b', dvmCompilerApplyLocalOptimizations sampleTarget 0 exBlock = some b' ∧
      NopMonotonic exBlock.nodes b'.nodes :=
  (C8_isNop_is_monotonic sampleTarget sampleTarget_wf 0 exBlock).1

/-- C10: for every non-empty block the driver returns a block with the same
tail, a head that is the old head (possibly marked nop) and, between them,
the old nodes in order with the inserted nodes among them: every inserted
node lies strictly after head and strictly before tail.  In particular load
hoisting always returns, and when it hoists, the node before which it inserts
is one of the nodes after `headLIR`, never `headLIR` itself. -/
theorem C10_insertions_lie_between_sentinels (T : Target) (hT : T.WellFormed)
    (disableOpt : Nat) (h t : ArmLIR) (body : List ArmLIR) :
    (∃ h' body', dvmCompilerApplyLocalOptimizations T disableOpt (.span h body t)
        = some (.span h' body' t) ∧ (h' = h ∨ h' = markNop h) ∧ Evolves body body') ∧
    (∀ (back : List ArmLIR) (thisLIR : ArmLIR),
      ∃ r, hoistVisit T h back thisLIR = some r ∧
        ∀ i, r.hoistedTo = some i → i < back.length) := by
  constructor
  · obtain ⟨b', hb, e⟩ := dvmCompilerApplyLocalOptimizations_spec hT disableOpt (.span h body t)
    cases e with
    | span _ hh he =>
        refine ⟨_, _, hb, ?_, he⟩
        rcases hh with hh | hh
        · exact Or.inl hh
        · exact Or.inr hh.1
  · intro back thisLIR
    obtain ⟨r, hr, -, hsome⟩ := hoistVisit_spec T h back thisLIR
    exact ⟨r, hr, fun i hi => (hsome i hi).1⟩

/-- Witness of C10: the driver on `exBlock`. -/
theorem C10_witness :
    (∃ h' body', dvmCompilerApplyLocalOptimizations sampleTarget 0
        (.span exHead [exStore, exAdd, exClobber, exLoad10, exLsl, exAddShifted] exTail)
        = some (.span h' body' exTail) ∧ (h' = exHead ∨ h' = markNop exHead) ∧
      Evolves [exStore, exAdd, exClobber, exLoad10, exLsl, exAddShifted] body') ∧
    (∀ (back : List ArmLIR) (thisLIR : ArmLIR),
      ∃ r, hoistVisit sampleTarget exHead back thisLIR = some r ∧
        ∀ i, r.hoistedTo = some i → i < back.length) :=
  C10_insertions_lie_between_sentinels sampleTarget sampleTarget_wf 0 exHead exTail
    [exStore, exAdd, exClobber, exLoad10, exLsl, exAddShifted]

/-- C12: when the disable-flags word has all four bits set, the driver
returns the block as it is: no node is inserted and no field is changed. -/
theorem C12_all_passes_disabled_is_identity (T : Target) (disableOpt : Nat) (b : Block)
    (h1 : disableOpt &&& (1 <<< T.kLoadStoreElimination) ≠ 0)
    (h2 : disableOpt &&& (1 <<< T.kLoadHoisting) ≠ 0)
    (h3 : disableOpt &&& (1 <<< T.kShiftArithmetic) ≠ 0)
    (h4 : disableOpt &&& (1 <<< T.kMultiplyArithmetic) ≠ 0) :
    dvmCompilerApplyLocalOptimizations T disableOpt b = some b := by
  simp [dvmCompilerApplyLocalOptimizations, runUnlessDisabled, optDisabled, h1, h2, h3, h4]

/-- Witness of C12: the flags word 15 on `exBlock`. -/
theorem C12_witness : dvmCompilerApplyLocalOptimizations sampleTarget 15 exBlock = some exBlock :=
  C12_all_passes_disabled_is_identity sampleTarget 15 exBlock (by decide) (by decide)
    (by decide) (by decide)

/-- C19 (the code at the failing input `lsl r9, r1, #3; add r0, r9, r9`): the
pattern matches, and the fused add keeps `r9`, the destination of the shift
that is marked nop, as its first source operand. -/
theorem C19_fused_first_source_is_shift_result :
    shiftMatches sampleTarget exLsl exAddTwice = true ∧
      (shiftFused sampleTarget exLsl exAddTwice).operands.op1 = exLsl.operands.op0 ∧
      applyShiftArithmeticOpts sampleTarget (.span exHead [exLsl, exAddTwice] exTail)
        = some (.span exHead
            [markNop exLsl, shiftFused sampleTarget exLsl exAddTwice, markNop exAddTwice]
            exTail) := by
  decide

theorem lseCheck_regStop_arg {T : Target} {thisLIR x : ArmLIR} {sink : Nat} {b : Bool}
    (h : lseCheck T thisLIR sink x = .regStop b) :
    b = (sink != 0 && !isLoad T thisLIR) ∧
      CHECK_REG_DEP (lseStopUseRegMask T thisLIR) (stopDefRegMask T thisLIR) x = true := by
  have hl : x.isNop = false := lseCheck_live (by rw [h]; exact LseAction.noConfusion)
  simp only [lseCheck, hl, Bool.false_eq_true, if_false] at h
  have key : lseRegCheck T thisLIR sink x = .regStop b →
      b = (sink != 0 && !isLoad T thisLIR) ∧
        CHECK_REG_DEP (lseStopUseRegMask T thisLIR) (stopDefRegMask T thisLIR) x = true := by
    intro hr
    rcases lseRegCheck_cases T thisLIR sink x with hc | hc
    · rw [hc.1] at hr; exact LseAction.noConfusion hr
    · rw [hc.1] at hr
      simp only [LseAction.regStop.injEq] at hr
      exact ⟨hr.symm, hc.2⟩
  have nofw : lseForward T thisLIR x ≠ .regStop b := by
    rcases lseForward_cases T thisLIR x with hf | hf <;> rw [hf] <;> exact LseAction.noConfusion
  split_ifs at h
  all_goals first | exact key h | exact absurd h nofw

/-- Counterexample to C18: in `exStore; exAdd; exWideLoad` the scan for the
store `exStore` passes `exAdd` (`sinkDistance == 1`) and stops at `exWideLoad`
for a memory reason (the wide load overlaps Dalvik register 5); no copy of
the store is inserted and the store is not marked nop. -/
theorem C18_counterexample :
    ¬ (∀ (T : Target) (thisLIR c : ArmLIR) (fuel sink : Nat) (killed : List Nat)
        (done rest : List ArmLIR) (r : LseScan),
        T.WellFormed → isLoad T thisLIR = false → sink ≠ 0 →
        ((∃ b, lseCheck T thisLIR sink c = .regStop b) ∨
          (∃ nuke, lseCheck T thisLIR sink c = .memStop nuke)) →
        lseScan T thisLIR (fuel + 1) sink killed done (c :: rest) = some r →
        r.post = done.reverse ++ thisLIR :: c :: rest ∧ r.thisNop = true) := by
  intro h
  have := h sampleTarget exStore exWideLoad 3 1 [] [exAdd] [] ⟨[exAdd, exWideLoad], false, none, []⟩
    sampleTarget_wf (by decide) (by decide) (Or.inr ⟨false, by decide⟩) (by decide)
  exact absurd this.2 (by decide)

/-! ## Walking past independent nodes -/

theorem lseCheck_of_nop {T : Target} {thisLIR x : ArmLIR} (sink : Nat) (h : x.isNop = true) :
    lseCheck T thisLIR sink x = .skip := by
  simp [lseCheck, h]

theorem lseCheck_of_independent {T : Target} (hT : T.WellFormed) {thisLIR x : ArmLIR}
    (sink : Nat) (h : LseIndependent T thisLIR x) : lseCheck T thisLIR sink x = .pass := by
  obtain ⟨hl, hdep, hmem⟩ := h
  have hreg : lseRegCheck T thisLIR sink x = .pass := by
    rcases lseRegCheck_cases T thisLIR sink x with hc | hc
    · exact hc.1
    · rw [hc.2] at hdep; exact Bool.noConfusion hdep
  simp only [lseCheck, hl, Bool.false_eq_true, if_false]
  rcases hmem with h0 | ⟨hd, hal, hcl⟩
  · simp [h0, hreg]
  · have h3 := hT.literal_ne_dalvik.symm
    rw [hd]
    simp only [beq_iff_eq, h3, if_false, beq_self_eq_true, if_true, hal, hcl,
      Bool.false_eq_true, hreg]
    split <;> rfl

theorem liveLength_cons (x : ArmLIR) (l : List ArmLIR) :
    liveLength (x :: l) = (if x.isNop = true then 0 else 1) + liveLength l := by
  cases h : x.isNop <;> simp [liveLength, List.filter, h]
  omega

/-- The forward scan walks past a run of nodes that are nop or independent
of `thisLIR`, counting the live ones in `sinkDistance`. -/
theorem lseScan_walk {T : Target} (hT : T.WellFormed) (thisLIR : ArmLIR) :
    ∀ (xs : List ArmLIR) (fuel sink : Nat) (killed : List Nat) (done more : List ArmLIR),
      (∀ x ∈ xs, x.isNop = true ∨ LseIndependent T thisLIR x) →
      lseScan T thisLIR (fuel + xs.length) sink killed done (xs ++ more)
        = lseScan T thisLIR fuel (sink + liveLength xs) killed (xs.reverse ++ done) more := by
  intro xs
  induction xs with
  | nil => intro fuel sink killed done more _; simp [liveLength]
  | cons x xs ih =>
      intro fuel sink killed done more hx
      have hx' : ∀ y ∈ xs, y.isNop = true ∨ LseIndependent T thisLIR y :=
        fun y hy => hx y (List.mem_cons_of_mem _ hy)
      have hlen : fuel + (x :: xs).length = (fuel + xs.length) + 1 := by simp; omega
      rw [hlen, List.cons_append, liveLength_cons]
      rcases hx x (List.mem_cons_self _ _) with hn | hi
      · simp only [lseScan, lseCheck_of_nop sink hn]
        rw [ih _ _ _ _ _ hx']
        simp [hn]
      · simp only [lseScan, lseCheck_of_independent hT sink hi]
        rw [ih _ _ _ _ _ hx']
        simp [hi.1]
        congr 1
        omega
theorem lseLoop_append (T : Target) :
    ∀ (a b post : List ArmLIR),
      lseLoop T (a ++ b) post = (lseLoop T a post).bind (fun p => lseLoop T b p) := by
  intro a
  induction a with
  | nil => intro b post; simp [lseLoop]
  | cons x a ih =>
      intro b post
      rw [List.cons_append]
      by_cases hx : lseInteresting T x = true
      · cases hs : lseScan T x (lseFuel post) 0 [] [] post with
        | none => simp [lseLoop, hx, hs]
        | some r =>
            have := ih b ((if r.thisNop then markNop x else x) :: r.post)
            simp [lseLoop, hx, hs, this]
      · have := ih b (x :: post)
        simp [lseLoop, hx, this]

theorem lseLoop_skip_run (T : Target) :
    ∀ (ys before post : List ArmLIR), (∀ y ∈ ys, lseInteresting T y = false) →
      lseLoop T (ys ++ before) post = lseLoop T before (ys.reverse ++ post) := by
  intro ys
  induction ys with
  | nil => intro before post _; rfl
  | cons y ys ih =>
      intro before post h
      have hy := h y (List.mem_cons_self _ _)
      have hstep : lseLoop T (y :: (ys ++ before)) post
          = lseLoop T (ys ++ before) (y :: post) := by
        simp [lseLoop, hy]
      rw [List.cons_append, hstep, ih _ _ (fun z hz => h z (List.mem_cons_of_mem _ hz))]
      simp

theorem and_or_eq_zero {a b c : Nat} (hb : a &&& b = 0) (hc : a &&& c = 0) :
    a &&& (b ||| c) = 0 := by
  rw [Nat.and_or_distrib_left, hb, hc]
  rfl

theorem and_or_ne_zero_right {a b c : Nat} (hc : a &&& c ≠ 0) : a &&& (b ||| c) ≠ 0 := by
  obtain ⟨i, hi⟩ := exists_testBit_of_ne_zero hc
  apply ne_zero_of_testBit (i := i)
  rw [Nat.testBit_and, Bool.and_eq_true] at hi
  simp [hi.1, hi.2]

/-- A node that is neither load nor store is not visited by the outer loop
of load/store elimination. -/
theorem lseInteresting_of_plain {T : Target} {x : ArmLIR} (hl : isLoad T x = false)
    (hs : isStore T x = false) : lseInteresting T x = false := by
  have h1 : T.encodingFlags x.opcode &&& T.IS_LOAD = 0 := by simpa [isLoad] using hl
  have h2 : T.encodingFlags x.opcode &&& T.IS_STORE = 0 := by simpa [isStore] using hs
  simp [lseInteresting, and_or_eq_zero h1 h2]

/-- A live store into the Dalvik frame is visited by the outer loop of
load/store elimination. -/
theorem lseInteresting_of_dalvik_store {T : Target} (hT : T.WellFormed) {x : ArmLIR}
    (hl : x.isNop = false) (hp : T.isPseudoOpcode x.opcode = false)
    (hs : isStore T x = true) (hm : memMask T x = T.ENCODE_DALVIK_REG) :
    lseInteresting T x = true := by
  have h2 : T.encodingFlags x.opcode &&& T.IS_STORE ≠ 0 := by simpa [isStore] using hs
  have h3 : T.ENCODE_DALVIK_REG &&& (T.ENCODE_LITERAL ||| T.ENCODE_DALVIK_REG) ≠ 0 :=
    and_or_ne_zero_right (by rw [Nat.and_self]; exact hT.dalvik_ne_zero)
  simp [lseInteresting, hl, hp, hm, and_or_ne_zero_right h2, h3]

/-- No register dependence with the store and no write of the program
counter means no dependence with the stop masks of load/store elimination. -/
theorem lse_check_of_regDep {T : Target} {thisLIR x : ArmLIR}
    (h : regDependence (regBits T thisLIR.useMask) (regBits T thisLIR.defMask)
      x.useMask x.defMask = false)
    (hpc : x.defMask &&& T.ENCODE_REG_PC = 0) :
    CHECK_REG_DEP (lseStopUseRegMask T thisLIR) (stopDefRegMask T thisLIR) x = false := by
  rw [regDependence_false_iff] at h
  rw [checkRegDep_false_iff]
  refine ⟨h.1, ?_⟩
  rw [and_eq_zero_iff_testBit]
  intro i hi
  have h2 := (and_eq_zero_iff_testBit _ _).1 h.2 i
  have h3 := (and_eq_zero_iff_testBit _ _).1 hpc i
  simp only [regBits, lseStopUseRegMask, stopDefRegMask, Nat.testBit_or, Nat.testBit_and,
    Bool.and_eq_true, Bool.or_eq_true] at hi h2
  rcases hi.1 with ⟨hp | hu, hn⟩ | hd
  · exact h3 ⟨hi.2, hp⟩
  · exact h2 ⟨Or.inl ⟨hu, hn⟩, hi.2⟩
  · exact h2 ⟨Or.inr hd, hi.2⟩

/-- A node that writes a register the store reads depends on the stop masks
of load/store elimination. -/
theorem lse_check_of_clobber {T : Target} {thisLIR x : ArmLIR}
    (h : regBits T thisLIR.useMask &&& x.defMask ≠ 0) :
    CHECK_REG_DEP (lseStopUseRegMask T thisLIR) (stopDefRegMask T thisLIR) x = true := by
  obtain ⟨i, hi⟩ := exists_testBit_of_ne_zero h
  simp only [regBits, Nat.testBit_and, Bool.and_eq_true] at hi
  have : ((lseStopUseRegMask T thisLIR ||| stopDefRegMask T thisLIR) &&& x.defMask).testBit i
      = true := by
    simp [lseStopUseRegMask, hi.1.1, hi.1.2, hi.2]
  simp [CHECK_REG_DEP, ne_zero_of_testBit this]

/-- A live node without a memory relation to `thisLIR` that depends on the
stop masks ends the scan with a register stop. -/
theorem lseCheck_regStop_of_dep {T : Target} {thisLIR c : ArmLIR} (sink : Nat)
    (hl : c.isNop = false)
    (hm : memMask T thisLIR &&& memMask T c = 0 ∨ memMask T c = T.ENCODE_MEM)
    (hdep : CHECK_REG_DEP (lseStopUseRegMask T thisLIR) (stopDefRegMask T thisLIR) c = true) :
    lseCheck T thisLIR sink c = .regStop (sink != 0 && !isLoad T thisLIR) := by
  have hreg : lseRegCheck T thisLIR sink c = .regStop (sink != 0 && !isLoad T thisLIR) := by
    simp [lseRegCheck, hdep]
  simp only [lseCheck, hl, Bool.false_eq_true, if_false]
  rcases hm with h0 | hM
  · simp [h0, hreg]
  · simp [hM, hreg]

/-- Counterexample to C14: in the block `exStore; exClobber; exStore2` the
store `exStore` into Dalvik register 5 is followed by `exClobber`, which
does not touch memory, and by the store `exStore2` into the same register;
load/store elimination leaves the block as it is, `exStore` stays live
(the scan stops at `exClobber`, which writes `r1`). -/
theorem C14_counterexample :
    ¬ (∀ (T : Target) (h t S1 S2 : ArmLIR) (pre xs suf : List ArmLIR) (b' : Block),
        T.WellFormed →
        S1.isNop = false → T.isPseudoOpcode S1.opcode = false → isStore T S1 = true →
        isLoad T S1 = false → memMask T S1 = T.ENCODE_DALVIK_REG →
        (∀ x ∈ xs, memMask T x &&& T.ENCODE_DALVIK_REG = 0 ∨
          (x.aliasInfo ≠ S1.aliasInfo ∧ isDalvikRegisterClobbered T S1 x = false)) →
        S2.isNop = false → isStore T S2 = true → isLoad T S2 = false →
        memMask T S2 = T.ENCODE_DALVIK_REG → S2.aliasInfo = S1.aliasInfo →
        applyLoadStoreElimination T (.span h (pre ++ S1 :: xs ++ S2 :: suf) t) = some b' →
        ∃ body', b' = .span h body' t ∧ markNop S1 ∈ body') := by
  intro hall
  obtain ⟨body', hb, hmem⟩ := hall sampleTarget exHead exTail exStore exStore2 [] [exClobber] []
    (.span exHead [exStore, exClobber, exStore2] exTail) sampleTarget_wf
    (by decide) (by decide) (by decide) (by decide) (by decide) (by decide)
    (by decide) (by decide) (by decide) (by decide) (by decide) (by decide)
  simp only [Block.span.injEq, true_and] at hb
  rw [← hb.1] at hmem
  exact absurd hmem (by decide)

/-- C14 (amended): WAW store elimination.  Whenever the outer loop of
load/store elimination arrives at a live store `S1` into a Dalvik-register
slot that is followed by nodes each of which is nop or independent of `S1`
(no register dependence with the stop masks of `S1`, which include
`REG_PC`, and no access to that slot or an overlapping one), and then by a
live store `S2` with equal `aliasInfo`, the scan for `S1` marks `S1` nop,
changes no other node and inserts nothing. -/
theorem C14_earlier_store_is_killed
    (T : Target) (hT : T.WellFormed) (S1 S2 : ArmLIR) (before xs rest : List ArmLIR)
    (hl1 : S1.isNop = false) (hp1 : T.isPseudoOpcode S1.opcode = false)
    (hs1 : isStore T S1 = true) (hn1 : isLoad T S1 = false)
    (hm1 : memMask T S1 = T.ENCODE_DALVIK_REG)
    (hxs : ∀ x ∈ xs, x.isNop = true ∨ LseIndependent T S1 x)
    (hl2 : S2.isNop = false) (hn2 : isLoad T S2 = false)
    (hm2 : memMask T S2 = T.ENCODE_DALVIK_REG) (hal : S2.aliasInfo = S1.aliasInfo) :
    lseScan T S1 (lseFuel (xs ++ S2 :: rest)) 0 [] [] (xs ++ S2 :: rest)
        = some ⟨xs ++ S2 :: rest, true, none, []⟩ ∧
      lseLoop T (S1 :: before) (xs ++ S2 :: rest)
        = lseLoop T before (markNop S1 :: xs ++ S2 :: rest) := by
  have hfuel : lseFuel (xs ++ S2 :: rest) = (xs.length + 2 * rest.length + 2 + 1) + xs.length := by
    simp [lseFuel]; omega
  have hcheck : ∀ s, lseCheck T S1 s S2 = .memStop true := by
    intro s
    have h1 := hT.dalvik_ne_mem
    have h2 := hT.dalvik_ne_zero
    have h3 := hT.literal_ne_dalvik.symm
    simp [lseCheck, hl2, hm1, hm2, h1, h2, h3, hal, hn1, hn2]
  have hscan : lseScan T S1 (lseFuel (xs ++ S2 :: rest)) 0 [] [] (xs ++ S2 :: rest)
      = some ⟨xs ++ S2 :: rest, true, none, []⟩ := by
    rw [hfuel, lseScan_walk hT S1 xs _ _ _ _ _ hxs]
    simp [lseScan, hcheck]
  refine ⟨hscan, ?_⟩
  simp [lseLoop, lseInteresting_of_dalvik_store hT hl1 hp1 hs1 hm1, hscan]

/-- Witness of C14 (amended): `exStore` is followed by the independent
`exAdd` and by `exStore2` into the same Dalvik register. -/
theorem C14_witness :
    lseScan sampleTarget exStore (lseFuel ([exAdd] ++ exStore2 :: [exClobber])) 0 [] []
        ([exAdd] ++ exStore2 :: [exClobber])
        = some ⟨[exAdd] ++ exStore2 :: [exClobber], true, none, []⟩ ∧
      lseLoop sampleTarget (exStore :: [exHeapLoad]) ([exAdd] ++ exStore2 :: [exClobber])
        = lseLoop sampleTarget [exHeapLoad] (markNop exStore :: [exAdd] ++ exStore2 :: [exClobber]) :=
  C14_earlier_store_is_killed sampleTarget sampleTarget_wf exStore exStore2 [exHeapLoad] [exAdd]
    [exClobber] (by decide) (by decide) (by decide) (by decide) (by decide)
    (by
      intro x hx
      rw [List.mem_singleton.1 hx]
      exact Or.inr ⟨by decide, by decide, Or.inl (by decide)⟩)
    (by decide) (by decide) (by decide) (by decide)

/-- Counterexample to C15: in the block `exStore; exBranch; exClobber` the
store `exStore` (which reads `r1` and `r5`) is followed by one live node,
the branch `exBranch`, that is neither load nor store, touches no memory and
has no register dependence with the store, and then by `exClobber`, which
writes `r1`; load/store elimination leaves the block as it is (the scan stops
at the branch with `sinkDistance == 0`). -/
theorem C15_counterexample :
    ¬ (∀ (T : Target) (h t S C : ArmLIR) (pre xs suf : List ArmLIR) (b' : Block),
        T.WellFormed →
        S.isNop = false → T.isPseudoOpcode S.opcode = false → isStore T S = true →
        isLoad T S = false → memMask T S = T.ENCODE_DALVIK_REG →
        xs ≠ [] →
        (∀ x ∈ xs, x.isNop = false ∧ isLoad T x = false ∧ isStore T x = false ∧
          memMask T x = 0 ∧
          regDependence (regBits T S.useMask) (regBits T S.defMask) x.useMask x.defMask
            = false) →
        C.isNop = false → isLoad T C = false → isStore T C = false → memMask T C = 0 →
        regBits T S.useMask &&& C.defMask ≠ 0 →
        applyLoadStoreElimination T (.span h (pre ++ S :: xs ++ C :: suf) t) = some b' →
        ∃ pre' suf', b' = .span h (pre' ++ markNop S :: xs ++ S :: C :: suf') t) := by
  intro hall
  obtain ⟨pre', suf', hb⟩ := hall sampleTarget exHead exTail exStore exClobber [] [exBranch] []
    (.span exHead [exStore, exBranch, exClobber] exTail) sampleTarget_wf
    (by decide) (by decide) (by decide) (by decide) (by decide) (by decide)
    (by decide) (by decide) (by decide) (by decide) (by decide) (by decide) (by decide)
  simp only [Block.span.injEq, true_and, and_true] at hb
  have := congrArg List.length hb
  simp at this
  omega

/-- C15 (amended): store sinking on a register clobber.  For every block in
which a live store `S` into the Dalvik frame is followed by `k >= 1` live
nodes that are neither loads nor stores, touch no memory region, have no
register dependence with `S` and do not write the program counter, and then
by a live node `C` that is neither load nor store, touches no memory region
(or is a barrier over all of them) and writes a register that `S` reads:
when the outer loop of load/store elimination arrives at `S` these nodes are
as they were, the visit of `S` marks `S` nop and inserts immediately before
`C` a live copy of `S` (equal to `S` in every field), and the rest of the
pass only marks nodes nop and inserts nodes. -/
theorem C15_store_sinks_to_register_clobber
    (T : Target) (hT : T.WellFormed) (h t S C : ArmLIR) (pre xs suf : List ArmLIR)
    (hl : S.isNop = false) (hp : T.isPseudoOpcode S.opcode = false)
    (hs : isStore T S = true) (hn : isLoad T S = false)
    (hm : memMask T S = T.ENCODE_DALVIK_REG)
    (hk : xs ≠ [])
    (hxs : ∀ x ∈ xs, x.isNop = false ∧ isLoad T x = false ∧ isStore T x = false ∧
      memMask T x = 0 ∧
      regDependence (regBits T S.useMask) (regBits T S.defMask) x.useMask x.defMask = false ∧
      x.defMask &&& T.ENCODE_REG_PC = 0)
    (hlC : C.isNop = false) (hnC : isLoad T C = false) (hsC : isStore T C = false)
    (hmC : memMask T C = 0 ∨ memMask T C = T.ENCODE_MEM)
    (hC : regBits T S.useMask &&& C.defMask ≠ 0) :
    ∃ suf' out,
      lseLoop T (pre ++ S :: xs ++ C :: suf).reverse []
        = lseLoop T (S :: pre.reverse) (xs ++ C :: suf') ∧
      lseLoop T (S :: pre.reverse) (xs ++ C :: suf')
        = lseLoop T pre.reverse (markNop S :: xs ++ S :: C :: suf') ∧
      lseLoop T pre.reverse (markNop S :: xs ++ S :: C :: suf') = some out ∧
      Evolves suf suf' ∧
      Evolves (pre ++ markNop S :: xs ++ S :: C :: suf') out ∧
      applyLoadStoreElimination T (.span h (pre ++ S :: xs ++ C :: suf) t)
        = some (.span h out t) := by
  obtain ⟨suf', hsuf, hesuf⟩ := lseLoop_spec hT suf.reverse []
  simp only [List.reverse_reverse, List.append_nil] at hesuf
  have hplain : ∀ y ∈ C :: xs.reverse, lseInteresting T y = false := by
    intro y hy
    rcases List.mem_cons.1 hy with rfl | hy
    · exact lseInteresting_of_plain hnC hsC
    · have := hxs y (List.mem_reverse.1 hy)
      exact lseInteresting_of_plain this.2.1 this.2.2.1
  have harrive : lseLoop T (pre ++ S :: xs ++ C :: suf).reverse []
      = lseLoop T (S :: pre.reverse) (xs ++ C :: suf') := by
    have hrev : (pre ++ S :: xs ++ C :: suf).reverse
        = suf.reverse ++ ((C :: xs.reverse) ++ (S :: pre.reverse)) := by simp
    rw [hrev, lseLoop_append, hsuf]
    show lseLoop T ((C :: xs.reverse) ++ (S :: pre.reverse)) suf' = _
    rw [lseLoop_skip_run T _ _ _ hplain]
    simp
  have hind : ∀ x ∈ xs, x.isNop = true ∨ LseIndependent T S x := by
    intro x hx
    obtain ⟨h1, -, -, h4, h5, h6⟩ := hxs x hx
    exact Or.inr ⟨h1, lse_check_of_regDep h5 h6, Or.inl (by rw [h4]; exact Nat.and_zero _)⟩
  have hlive : liveLength xs = xs.length := by
    unfold liveLength
    rw [List.filter_eq_self.2]
    intro x hx
    simp [(hxs x hx).1]
  have hpos : 0 < xs.length := List.length_pos.2 hk
  have hfuel : lseFuel (xs ++ C :: suf') = (xs.length + 2 * suf'.length + 2 + 1) + xs.length := by
    simp [lseFuel]; omega
  have hmC' : memMask T S &&& memMask T C = 0 ∨ memMask T C = T.ENCODE_MEM := by
    rcases hmC with h0 | hM
    · exact Or.inl (by rw [h0]; exact Nat.and_zero _)
    · exact Or.inr hM
  have hscan : lseScan T S (lseFuel (xs ++ C :: suf')) 0 [] [] (xs ++ C :: suf')
      = some ⟨xs ++ S :: C :: suf', true, some xs.length, []⟩ := by
    rw [hfuel, lseScan_walk hT S xs _ _ _ _ _ hind, hlive, Nat.zero_add]
    have hc := lseCheck_regStop_of_dep xs.length hlC hmC' (lse_check_of_clobber hC)
    have hne : (xs.length != 0 && !isLoad T S) = true := by
      simp only [hn, Bool.not_false, Bool.and_true, bne_iff_ne, ne_eq]
      omega
    rw [hne] at hc
    simp only [lseScan, hc, List.append_nil, List.reverse_reverse, List.length_reverse]
  have hvisit : lseLoop T (S :: pre.reverse) (xs ++ C :: suf')
      = lseLoop T pre.reverse (markNop S :: xs ++ S :: C :: suf') := by
    simp [lseLoop, lseInteresting_of_dalvik_store hT hl hp hs hm, hscan]
  obtain ⟨out, hout, heout⟩ := lseLoop_spec hT pre.reverse (markNop S :: xs ++ S :: C :: suf')
  simp only [List.reverse_reverse] at heout
  refine ⟨suf', out, harrive, hvisit, hout, hesuf, by simpa using heout, ?_⟩
  simp only [applyLoadStoreElimination]
  rw [harrive, hvisit, hout]
  rfl

/-- Witness of C15 (amended): in `exHeapLoad; exStore; exAdd; exClobber` the
store is sunk behind `exAdd`, in front of `exClobber`. -/
theorem C15_witness :
    ∃ suf' out,
      lseLoop sampleTarget ([exHeapLoad] ++ exStore :: [exAdd] ++ exClobber :: []).reverse []
        = lseLoop sampleTarget (exStore :: [exHeapLoad].reverse) ([exAdd] ++ exClobber :: suf') ∧
      lseLoop sampleTarget (exStore :: [exHeapLoad].reverse) ([exAdd] ++ exClobber :: suf')
        = lseLoop sampleTarget [exHeapLoad].reverse
            (markNop exStore :: [exAdd] ++ exStore :: exClobber :: suf') ∧
      lseLoop sampleTarget [exHeapLoad].reverse
          (markNop exStore :: [exAdd] ++ exStore :: exClobber :: suf') = some out ∧
      Evolves [] suf' ∧
      Evolves ([exHeapLoad] ++ markNop exStore :: [exAdd] ++ exStore :: exClobber :: suf') out ∧
      applyLoadStoreElimination sampleTarget
          (.span exHead ([exHeapLoad] ++ exStore :: [exAdd] ++ exClobber :: []) exTail)
        = some (.span exHead out exTail) :=
  C15_store_sinks_to_register_clobber sampleTarget sampleTarget_wf exHead exTail exStore
    exClobber [exHeapLoad] [exAdd] [] (by decide) (by decide) (by decide) (by decide)
    (by decide) (by decide)
    (by
      intro x hx
      rw [List.mem_singleton.1 hx]
      exact ⟨by decide, by decide, by decide, by decide, by decide, by decide⟩)
    (by decide) (by decide) (by decide) (Or.inl (by decide)) (by decide)

/-! ## The visit of a load by load/store elimination -/

theorem sampleTarget_opcodes : sampleTarget.OpcodesDistinct where
  shift_not_pseudo := by
    intro op h
    simp only [isShiftOpcode, sampleTarget, Bool.or_eq_true, beq_iff_eq] at h
    rcases h with ((h | h) | h) | h <;> subst h <;> decide
  shift_ne_add := by decide
  vmul_not_pseudo := by decide
  vmul_ne_vadd := by decide
  vmla_not_pseudo := by decide
  vmla_ne_vmul := by decide
  vmla_ne_vadd := by decide

theorem findNext_live (T : Target) {x : ArmLIR} (hl : x.isNop = false)
    (hp : T.isPseudoOpcode x.opcode = false) (rest : List ArmLIR) :
    findNext T (x :: rest) = some ([], x, rest) := by
  simp [findNext, hl, hp]

theorem findNext_skipped (T : Target) {x : ArmLIR} (h : Skipped T x) (rest : List ArmLIR) :
    findNext T (x :: rest) =
      match findNext T rest with
      | none => none
      | some r => some (x :: r.1, r.2.1, r.2.2) := by
  have : (!x.isNop && !T.isPseudoOpcode x.opcode) = false := by
    rcases h with h | h <;> simp [h]
  simp only [findNext, this, Bool.false_eq_true, if_false]

/-- The search loop runs over skipped nodes to the first live real node. -/
theorem findNext_skip_run (T : Target) {x : ArmLIR} (hl : x.isNop = false)
    (hp : T.isPseudoOpcode x.opcode = false) :
    ∀ (sk rest : List ArmLIR), (∀ y ∈ sk, Skipped T y) →
      findNext T (sk ++ x :: rest) = some (sk, x, rest) := by
  intro sk
  induction sk with
  | nil => intro rest _; exact findNext_live T hl hp rest
  | cons y sk ih =>
      intro rest h
      rw [List.cons_append, findNext_skipped T (h y (List.mem_cons_self _ _)),
        ih rest (fun z hz => h z (List.mem_cons_of_mem _ hz))]

/-- The node found by the search loop is live and real, the nodes before it
are skipped. -/
theorem findNext_found (T : Target) :
    ∀ (l : List ArmLIR) (r : List ArmLIR × ArmLIR × List ArmLIR), findNext T l = some r →
      r.2.1.isNop = false ∧ T.isPseudoOpcode r.2.1.opcode = false ∧ ∀ y ∈ r.1, Skipped T y := by
  intro l
  induction l with
  | nil => intro r h; simp [findNext] at h
  | cons x l ih =>
      intro r h
      by_cases hx : (!x.isNop && !T.isPseudoOpcode x.opcode) = true
      · simp only [findNext, hx, if_true, Option.some.injEq] at h
        subst h
        simp only [Bool.and_eq_true, Bool.not_eq_true'] at hx
        exact ⟨hx.1, hx.2, fun y hy => absurd hy (List.not_mem_nil y)⟩
      · simp only [findNext, hx, Bool.false_eq_true, if_false] at h
        cases hf : findNext T l with
        | none => rw [hf] at h; simp at h
        | some q =>
            rw [hf] at h
            simp only [Option.some.injEq] at h
            subst h
            obtain ⟨h1, h2, h3⟩ := ih q hf
            refine ⟨h1, h2, ?_⟩
            intro y hy
            rcases List.mem_cons.1 hy with rfl | hy
            · simp only [Bool.and_eq_true, Bool.not_eq_true', not_and, Bool.not_eq_false] at hx
              cases hn : y.isNop
              · exact Or.inr (hx hn)
              · exact Or.inl hn
            · exact h3 y hy

/-- The search loop from a node in front of a live real node `x`: it finds
either a node in front of `x` or `x` itself. -/
theorem findNext_before_live (T : Target) {x : ArmLIR} (hl : x.isNop = false)
    (hp : T.isPseudoOpcode x.opcode = false) :
    ∀ (a rest : List ArmLIR),
      findNext T (a ++ x :: rest) =
        match findNext T a with
        | none => some (a, x, rest)
        | some r => some (r.1, r.2.1, r.2.2 ++ x :: rest) := by
  intro a
  induction a with
  | nil => intro rest; simp [findNext, hl, hp]
  | cons y a ih =>
      intro rest
      by_cases hy : (!y.isNop && !T.isPseudoOpcode y.opcode) = true
      · simp [findNext, hy]
      · have hs : Skipped T y := by
          simp only [Bool.and_eq_true, Bool.not_eq_true', not_and, Bool.not_eq_false] at hy
          cases hn : y.isNop
          · exact Or.inr (hy hn)
          · exact Or.inl hn
        rw [List.cons_append, findNext_skipped T hs, findNext_skipped T hs a, ih rest]
        cases findNext T a <;> rfl
theorem shiftLoop_keep (T : Target) {t : ArmLIR}
    (h : t.isNop = true ∨ isShiftOpcode T t.opcode = false) (fuel : Nat) (rest : List ArmLIR) :
    shiftLoop T (fuel + 1) (t :: rest) = (shiftLoop T fuel rest).map (t :: ·) := by
  rcases h with h | h
  · simp only [shiftLoop, h, if_true]
  · cases hn : t.isNop <;> simp only [shiftLoop, h, hn, if_true, Bool.false_eq_true, if_false]

theorem shiftLoop_end (T : Target) {t : ArmLIR} (hl : t.isNop = false)
    (hs : isShiftOpcode T t.opcode = true) (fuel : Nat) {rest : List ArmLIR}
    (hf : findNext T rest = none) :
    shiftLoop T (fuel + 1) (t :: rest) = some (t :: rest) := by
  simp only [shiftLoop, hl, hs, hf, if_true, Bool.false_eq_true, if_false]

theorem shiftLoop_nomatch (T : Target) {t n : ArmLIR} (hl : t.isNop = false)
    (hs : isShiftOpcode T t.opcode = true) (fuel : Nat) {rest sk af : List ArmLIR}
    (hf : findNext T rest = some (sk, n, af)) (hm : shiftMatches T t n = false) :
    shiftLoop T (fuel + 1) (t :: rest) = (shiftLoop T fuel rest).map (t :: ·) := by
  simp only [shiftLoop, hl, hs, hf, hm, if_true, Bool.false_eq_true, if_false]

theorem shiftLoop_match (T : Target) {t n : ArmLIR} (hl : t.isNop = false)
    (hs : isShiftOpcode T t.opcode = true) (fuel : Nat) {rest sk af : List ArmLIR}
    (hf : findNext T rest = some (sk, n, af)) (hm : shiftMatches T t n = true) :
    shiftLoop T (fuel + 1) (t :: rest) = (shiftLoop T fuel af).map
      (fun l => markNop t :: sk ++ shiftFused T t n :: markNop n :: l) := by
  simp only [shiftLoop, hl, hs, hf, hm, if_true, Bool.false_eq_true, if_false]

theorem shiftMatches_opcode {T : Target} {t n : ArmLIR} (h : shiftMatches T t n = true) :
    n.opcode = T.kThumb2AddRRR := by
  simp only [shiftMatches, Bool.and_eq_true, beq_iff_eq] at h
  exact h.1.1

/-- The loop of the shift fusion arrives at every live real node that is not
an add: the nodes in front of it are only marked or added to. -/
theorem shiftLoop_arrive (T : Target) {x : ArmLIR} (hl : x.isNop = false)
    (hp : T.isPseudoOpcode x.opcode = false) (hadd : x.opcode ≠ T.kThumb2AddRRR)
    (rest : List ArmLIR) :
    ∀ (fuel : Nat) (pre : List ArmLIR), (pre ++ x :: rest).length < fuel →
      ∃ pre' fuel', (x :: rest).length < fuel' ∧ Evolves pre pre' ∧
        shiftLoop T fuel (pre ++ x :: rest)
          = (shiftLoop T fuel' (x :: rest)).map (pre' ++ ·) := by
  intro fuel
  induction fuel with
  | zero => intro pre h; exact absurd h (Nat.not_lt_zero _)
  | succ fuel ih =>
      intro pre hlen
      cases pre with
      | nil =>
          refine ⟨[], fuel + 1, by simpa using hlen, .nil, ?_⟩
          rw [List.nil_append]
          cases shiftLoop T (fuel + 1) (x :: rest) <;> rfl
      | cons p pre =>
          simp only [List.cons_append, List.length_cons] at hlen
          have keepCase : shiftLoop T (fuel + 1) (p :: (pre ++ x :: rest))
              = (shiftLoop T fuel (pre ++ x :: rest)).map (p :: ·) →
              ∃ pre' fuel', (x :: rest).length < fuel' ∧ Evolves (p :: pre) pre' ∧
                shiftLoop T (fuel + 1) (p :: pre ++ x :: rest)
                  = (shiftLoop T fuel' (x :: rest)).map (pre' ++ ·) := by
            intro hstep
            obtain ⟨pre', fuel', h1, h2, h3⟩ := ih pre (by omega)
            refine ⟨p :: pre', fuel', h1, .keep p h2, ?_⟩
            rw [List.cons_append, hstep, h3, Option.map_map]
            rfl
          by_cases hc : p.isNop = true ∨ isShiftOpcode T p.opcode = false
          · exact keepCase (shiftLoop_keep T hc fuel _)
          · have hpl : p.isNop = false := by
              cases hn : p.isNop
              · rfl
              · exact absurd (Or.inl hn) hc
            have hps : isShiftOpcode T p.opcode = true := by
              cases hn : isShiftOpcode T p.opcode
              · exact absurd (Or.inr hn) hc
              · rfl
            have hfn := findNext_before_live T hl hp pre rest
            cases hf : findNext T pre with
            | none =>
                rw [hf] at hfn
                have hm : shiftMatches T p x = false := by
                  cases hmm : shiftMatches T p x
                  · rfl
                  · exact absurd (shiftMatches_opcode hmm) hadd
                exact keepCase (shiftLoop_nomatch T hpl hps fuel hfn hm)
            | some q =>
                obtain ⟨sk, n, af⟩ := q
                rw [hf] at hfn
                simp only at hfn
                cases hm : shiftMatches T p n with
                | false => exact keepCase (shiftLoop_nomatch T hpl hps fuel hfn hm)
                | true =>
                    have hpre := findNext_eq T pre _ hf
                    simp only at hpre
                    have hlaf : (af ++ x :: rest).length < fuel := by
                      have := congrArg List.length hpre
                      simp only [List.length_append, List.length_cons] at this hlen ⊢
                      omega
                    obtain ⟨pre', fuel', h1, h2, h3⟩ := ih af hlaf
                    refine ⟨markNop p :: sk ++ shiftFused T p n :: markNop n :: pre', fuel', h1,
                      ?_, ?_⟩
                    · rw [hpre]
                      exact .mark p ((Evolves.refl sk).append (.insert _ (.mark n h2)))
                    · rw [List.cons_append, shiftLoop_match T hpl hps fuel hfn hm, h3,
                        Option.map_map]
                      cases shiftLoop T fuel' (x :: rest) <;> simp
theorem Block.ofWalk_nodes (t x : ArmLIR) (l1 l2 : List ArmLIR) :
    ∃ b', Block.ofWalk t (l1 ++ x :: l2) = some b' ∧ b'.nodes = l1 ++ x :: l2 ++ [t] := by
  cases l1 with
  | nil => exact ⟨.span x l2 t, rfl, rfl⟩
  | cons y l1 => exact ⟨.span y (l1 ++ x :: l2) t, rfl, by simp [Block.nodes]⟩

/-- C16: shift+add fusion.  For every live shift-by-immediate `S` (LSL or
LSR, Thumb or Thumb2 opcode) of a block whose next live non-pseudo node
before `tailLIR` is a `kThumb2AddRRR` `A` with `operands[3] == 0` and
`operands[1]` or `operands[2]` equal to `S.operands[0]`, the shift-fusion pass
inserts immediately before `A` a new live `kThumb2AddRRR` whose `operands[0]`
is `A`'s destination, whose `operands[2]` is `S.operands[1]` and whose
`operands[3]` is `((S.operands[2] & 0x1F) << 2) | t`, `t` being 0 for LSL and
1 for LSR, and marks both `S` and `A` nop. -/
theorem C16_shift_is_folded_into_add
    (T : Target) (O : T.OpcodesDistinct) (hLsl : T.kArmLsl = 0) (hLsr : T.kArmLsr = 1)
    (h t S A : ArmLIR) (body pre sk suf : List ArmLIR)
    (hb : h :: body = pre ++ S :: sk ++ A :: suf)
    (hl : S.isNop = false) (hs : isShiftOpcode T S.opcode = true)
    (hsk : ∀ y ∈ sk, Skipped T y)
    (hlA : A.isNop = false) (hpA : T.isPseudoOpcode A.opcode = false)
    (hA : A.opcode = T.kThumb2AddRRR) (hA3 : A.operands.op3 = 0)
    (hsrc : A.operands.op1 = S.operands.op0 ∨ A.operands.op2 = S.operands.op0) :
    ∃ b' pre' suf' N,
      applyShiftArithmeticOpts T (.span h body t) = some b' ∧
      b'.nodes = pre' ++ markNop S :: sk ++ N :: markNop A :: suf' ++ [t] ∧
      Evolves pre pre' ∧ Evolves suf suf' ∧
      N = shiftFused T S A ∧ N.isNop = false ∧ N.opcode = T.kThumb2AddRRR ∧
      N.operands.op0 = A.operands.op0 ∧ N.operands.op2 = S.operands.op1 ∧
      N.operands.op3 = Int.lor ((Int.land S.operands.op2 0x1F) <<< (2 : Int))
        (if (S.opcode == T.kThumb2LsrRRI5 || S.opcode == T.kThumbLsrRRI5) then 1 else 0) := by
  have hpS : T.isPseudoOpcode S.opcode = false := O.shift_not_pseudo _ hs
  have hneS : S.opcode ≠ T.kThumb2AddRRR := by
    intro he
    rw [he, O.shift_ne_add] at hs
    exact Bool.noConfusion hs
  have hb' : h :: body = pre ++ S :: (sk ++ A :: suf) := by rw [hb]; simp
  have hlen : (pre ++ S :: (sk ++ A :: suf)).length < body.length + 2 := by
    rw [← hb']; simp
  obtain ⟨pre', fuel', hf', hepre, harr⟩ :=
    shiftLoop_arrive T hl hpS hneS (sk ++ A :: suf) (body.length + 2) pre hlen
  obtain ⟨f, rfl⟩ : ∃ f, fuel' = f + 1 := ⟨fuel' - 1, by omega⟩
  have hfind := findNext_skip_run T hlA hpA sk suf hsk
  have hmatch : shiftMatches T S A = true := by
    simp only [shiftMatches, hA, hA3, beq_self_eq_true, Bool.true_and, Bool.or_eq_true,
      beq_iff_eq]
    exact hsrc
  obtain ⟨suf', hsuf, hesuf, -⟩ := shiftLoop_spec T f suf (by simp at hf'; omega)
  have hloop : shiftLoop T (body.length + 2) (h :: body)
      = some (pre' ++ markNop S :: (sk ++ shiftFused T S A :: markNop A :: suf')) := by
    rw [hb', harr, shiftLoop_match T hl hs f hfind hmatch, hsuf]
    simp
  obtain ⟨b', hb1, hb2⟩ := Block.ofWalk_nodes t (markNop S) pre'
    (sk ++ shiftFused T S A :: markNop A :: suf')
  refine ⟨b', pre', suf', shiftFused T S A, ?_, ?_, hepre, hesuf, rfl, rfl, ?_, rfl, rfl, ?_⟩
  · simp only [applyShiftArithmeticOpts, hloop, Option.bind_some]
    exact hb1
  · rw [hb2]; simp
  · simp [shiftFused, dvmCompilerSetupResourceMasks, hA]
  · simp only [shiftFused, dvmCompilerSetupResourceMasks, hLsl, hLsr]

/-- Witness of C16: `lsl r9, r1, #3; add r0, r2, r9` yields the operands
`(r0, r2, r1, 12)`. -/
theorem C16_witness :
    (∃ b' pre' suf' N,
      applyShiftArithmeticOpts sampleTarget (.span exHead [exAdd, exLsl, exAddShifted, exClobber]
        exTail) = some b' ∧
      b'.nodes = pre' ++ markNop exLsl :: [] ++ N :: markNop exAddShifted :: suf' ++ [exTail] ∧
      Evolves [exHead, exAdd] pre' ∧ Evolves [exClobber] suf' ∧
      N = shiftFused sampleTarget exLsl exAddShifted ∧ N.isNop = false ∧
      N.opcode = sampleTarget.kThumb2AddRRR ∧
      N.operands.op0 = exAddShifted.operands.op0 ∧ N.operands.op2 = exLsl.operands.op1 ∧
      N.operands.op3 = Int.lor ((Int.land exLsl.operands.op2 0x1F) <<< (2 : Int))
        (if (exLsl.opcode == sampleTarget.kThumb2LsrRRI5 ||
          exLsl.opcode == sampleTarget.kThumbLsrRRI5) then 1 else 0)) ∧
    (shiftFused sampleTarget exLsl exAddShifted).operands = ⟨0, 2, 1, 12⟩ :=
  ⟨C16_shift_is_folded_into_add sampleTarget sampleTarget_opcodes (by decide) (by decide)
    exHead exTail exLsl exAddShifted [exAdd, exLsl, exAddShifted, exClobber] [exHead, exAdd] []
    [exClobber] (by decide) (by decide) (by decide)
    (fun y hy => absurd hy (List.not_mem_nil y)) (by decide) (by decide) (by decide)
    (by decide) (Or.inr (by decide)), by decide⟩

theorem mulLoop_keep (T : Target) {t : ArmLIR}
    (h : t.isNop = true ∨ t.opcode ≠ T.kThumb2Vmuld) (fuel : Nat) (rest : List ArmLIR) :
    mulLoop T (fuel + 1) (t :: rest) = (mulLoop T fuel rest).map (t :: ·) := by
  have hc : (t.opcode == T.kThumb2Vmuld && !t.isNop) = false := by
    rcases h with h | h
    · simp [h]
    · simp [h]
  simp only [mulLoop, hc, Bool.false_eq_true, if_false]

theorem mulLoop_end (T : Target) {t : ArmLIR} (hl : t.isNop = false)
    (hs : t.opcode = T.kThumb2Vmuld) (fuel : Nat) {rest : List ArmLIR}
    (hf : findNext T rest = none) :
    mulLoop T (fuel + 1) (t :: rest) = some (t :: rest) := by
  have hc : (t.opcode == T.kThumb2Vmuld && !t.isNop) = true := by simp [hl, hs]
  simp only [mulLoop, hc, hf, if_true]

theorem mulLoop_nomatch (T : Target) {t n : ArmLIR} (hl : t.isNop = false)
    (hs : t.opcode = T.kThumb2Vmuld) (fuel : Nat) {rest sk af : List ArmLIR}
    (hf : findNext T rest = some (sk, n, af)) (hm : mulMatches T t n = false) :
    mulLoop T (fuel + 1) (t :: rest) = (mulLoop T fuel rest).map (t :: ·) := by
  have hc : (t.opcode == T.kThumb2Vmuld && !t.isNop) = true := by simp [hl, hs]
  simp only [mulLoop, hc, hf, hm, if_true, Bool.false_eq_true, if_false]

theorem mulLoop_match (T : Target) {t n : ArmLIR} (hl : t.isNop = false)
    (hs : t.opcode = T.kThumb2Vmuld) (fuel : Nat) {rest sk af : List ArmLIR}
    (hf : findNext T rest = some (sk, n, af)) (hm : mulMatches T t n = true) :
    mulLoop T (fuel + 1) (t :: rest) = (mulLoop T fuel af).map
      (fun l => markNop t :: sk ++ mulFused T t n :: markNop n :: l) := by
  have hc : (t.opcode == T.kThumb2Vmuld && !t.isNop) = true := by simp [hl, hs]
  simp only [mulLoop, hc, hf, hm, if_true]

theorem mulMatches_opcode {T : Target} {t n : ArmLIR} (h : mulMatches T t n = true) :
    n.opcode = T.kThumb2Vaddd := by
  simp only [mulMatches, Bool.and_eq_true, beq_iff_eq] at h
  exact h.1.1

/-- The loop of the multiply fusion arrives at every live real node that is
not a `kThumb2Vaddd`: the nodes in front of it are only marked or added to. -/
theorem mulLoop_arrive (T : Target) {x : ArmLIR} (hl : x.isNop = false)
    (hp : T.isPseudoOpcode x.opcode = false) (hadd : x.opcode ≠ T.kThumb2Vaddd)
    (rest : List ArmLIR) :
    ∀ (fuel : Nat) (pre : List ArmLIR), (pre ++ x :: rest).length < fuel →
      ∃ pre' fuel', (x :: rest).length < fuel' ∧ Evolves pre pre' ∧
        mulLoop T fuel (pre ++ x :: rest)
          = (mulLoop T fuel' (x :: rest)).map (pre' ++ ·) := by
  intro fuel
  induction fuel with
  | zero => intro pre h; exact absurd h (Nat.not_lt_zero _)
  | succ fuel ih =>
      intro pre hlen
      cases pre with
      | nil =>
          refine ⟨[], fuel + 1, by simpa using hlen, .nil, ?_⟩
          rw [List.nil_append]
          cases mulLoop T (fuel + 1) (x :: rest) <;> rfl
      | cons p pre =>
          simp only [List.cons_append, List.length_cons] at hlen
          have keepCase : mulLoop T (fuel + 1) (p :: (pre ++ x :: rest))
              = (mulLoop T fuel (pre ++ x :: rest)).map (p :: ·) →
              ∃ pre' fuel', (x :: rest).length < fuel' ∧ Evolves (p :: pre) pre' ∧
                mulLoop T (fuel + 1) (p :: pre ++ x :: rest)
                  = (mulLoop T fuel' (x :: rest)).map (pre' ++ ·) := by
            intro hstep
            obtain ⟨pre', fuel', h1, h2, h3⟩ := ih pre (by omega)
            refine ⟨p :: pre', fuel', h1, .keep p h2, ?_⟩
            rw [List.cons_append, hstep, h3, Option.map_map]
            rfl
          by_cases hc : p.isNop = true ∨ p.opcode ≠ T.kThumb2Vmuld
          · exact keepCase (mulLoop_keep T hc fuel _)
          · have hpl : p.isNop = false := by
              cases hn : p.isNop
              · rfl
              · exact absurd (Or.inl hn) hc
            have hps : p.opcode = T.kThumb2Vmuld := by
              by_contra hne
              exact hc (Or.inr hne)
            have hfn := findNext_before_live T hl hp pre rest
            cases hf : findNext T pre with
            | none =>
                rw [hf] at hfn
                have hm : mulMatches T p x = false := by
                  cases hmm : mulMatches T p x
                  · rfl
                  · exact absurd (mulMatches_opcode hmm) hadd
                exact keepCase (mulLoop_nomatch T hpl hps fuel hfn hm)
            | some q =>
                obtain ⟨sk, n, af⟩ := q
                rw [hf] at hfn
                simp only at hfn
                cases hm : mulMatches T p n with
                | false => exact keepCase (mulLoop_nomatch T hpl hps fuel hfn hm)
                | true =>
                    have hpre := findNext_eq T pre _ hf
                    simp only at hpre
                    have hlaf : (af ++ x :: rest).length < fuel := by
                      have := congrArg List.length hpre
                      simp only [List.length_append, List.length_cons] at this hlen ⊢
                      omega
                    obtain ⟨pre', fuel', h1, h2, h3⟩ := ih af hlaf
                    refine ⟨markNop p :: sk ++ mulFused T p n :: markNop n :: pre', fuel', h1,
                      ?_, ?_⟩
                    · rw [hpre]
                      exact .mark p ((Evolves.refl sk).append (.insert _ (.mark n h2)))
                    · rw [List.cons_append, mulLoop_match T hpl hps fuel hfn hm, h3,
                        Option.map_map]
                      cases mulLoop T fuel' (x :: rest) <;> simp

/-- The loop of the multiply fusion walks over skipped nodes unchanged. -/
theorem mulLoop_skip_run (T : Target) (hv : T.isPseudoOpcode T.kThumb2Vmuld = false)
    (rest : List ArmLIR) :
    ∀ (sk : List ArmLIR) (fuel : Nat), (∀ y ∈ sk, Skipped T y) →
      mulLoop T (fuel + sk.length) (sk ++ rest) = (mulLoop T fuel rest).map (sk ++ ·) := by
  intro sk
  induction sk with
  | nil =>
      intro fuel _
      rw [List.nil_append, List.length_nil, Nat.add_zero]
      cases hm : mulLoop T fuel rest <;> rfl
  | cons y sk ih =>
      intro fuel hsk
      have hy : y.isNop = true ∨ y.opcode ≠ T.kThumb2Vmuld := by
        rcases hsk y (List.mem_cons_self _ _) with h | h
        · exact Or.inl h
        · refine Or.inr (fun he => ?_)
          rw [he, hv] at h
          exact Bool.noConfusion h
      have := ih fuel (fun z hz => hsk z (List.mem_cons_of_mem _ hz))
      rw [List.length_cons, ← Nat.add_assoc, List.cons_append, mulLoop_keep T hy, this,
        Option.map_map]
      cases mulLoop T fuel rest <;> rfl
theorem mulMatches_iff (T : Target) (m a : ArmLIR) :
    mulMatches T m a = true ↔
      (a.opcode = T.kThumb2Vaddd ∧ a.operands.op0 = a.operands.op1 ∧
        a.operands.op2 = m.operands.op0) := by
  simp [mulMatches, and_assoc]

/-- C17 fails as stated: in `vmul d1, d2, d3; vmul d9, d9, d10;
vadd d8, d8, d9` the instruction after the first multiply is not an add of the
accumulator form, yet the pass changes it: it is itself a multiply, fused with
the add behind it and marked nop. -/
theorem C17_counterexample :
    findNext sampleTarget [exVmul, exVadd] = some ([], exVmul, [exVadd]) ∧
    exVmulOther.isNop = false ∧ exVmulOther.opcode = sampleTarget.kThumb2Vmuld ∧
    mulMatches sampleTarget exVmulOther exVmul = false ∧
    (applyMultiplyArithmeticOpts sampleTarget
        (.span exHead [exVmulOther, exVmul, exVadd] exTail)).map Block.nodes
      = some [exHead, exVmulOther, markNop exVmul, mulFused sampleTarget exVmul exVadd,
          markNop exVadd, exTail] ∧
    markNop exVmul ≠ exVmul := by
  decide

/-- C17 (amended): multiply-add fusion.  For every live `kThumb2Vmuld` `M` of
a block whose next live non-pseudo node before `tailLIR` is `A`: when `A` is a
`kThumb2Vaddd` with `operands[0] == operands[1]` and
`operands[2] == M.operands[0]`, the pass inserts immediately before `A` a new
live `kThumb2Vmlad` with operands `(A.operands[0], M.operands[1],
M.operands[2])` and marks both `M` and `A` nop; otherwise `M` is unchanged,
nothing is inserted between `M` and `A`, and `A` is unchanged unless it is
itself a `kThumb2Vmuld` that the pass marks nop. -/
theorem C17_multiply_is_folded_into_add
    (T : Target) (O : T.OpcodesDistinct)
    (h t M A : ArmLIR) (body pre sk suf : List ArmLIR)
    (hb : h :: body = pre ++ M :: sk ++ A :: suf)
    (hl : M.isNop = false) (hM : M.opcode = T.kThumb2Vmuld)
    (hsk : ∀ y ∈ sk, Skipped T y)
    (hlA : A.isNop = false) (hpA : T.isPseudoOpcode A.opcode = false) :
    ((A.opcode = T.kThumb2Vaddd ∧ A.operands.op0 = A.operands.op1 ∧
        A.operands.op2 = M.operands.op0) →
      ∃ b' pre' suf' N,
        applyMultiplyArithmeticOpts T (.span h body t) = some b' ∧
        b'.nodes = pre' ++ markNop M :: sk ++ N :: markNop A :: suf' ++ [t] ∧
        Evolves pre pre' ∧ Evolves suf suf' ∧
        N = mulFused T M A ∧ N.isNop = false ∧ N.opcode = T.kThumb2Vmlad ∧
        N.operands.op0 = A.operands.op0 ∧ N.operands.op1 = M.operands.op1 ∧
        N.operands.op2 = M.operands.op2) ∧
    (¬ (A.opcode = T.kThumb2Vaddd ∧ A.operands.op0 = A.operands.op1 ∧
        A.operands.op2 = M.operands.op0) →
      ∃ b' pre' A' suf',
        applyMultiplyArithmeticOpts T (.span h body t) = some b' ∧
        b'.nodes = pre' ++ M :: sk ++ A' :: suf' ++ [t] ∧
        Evolves pre pre' ∧ Evolves suf suf' ∧
        (A' = A ∨ (A' = markNop A ∧ A.opcode = T.kThumb2Vmuld))) := by
  have hpM : T.isPseudoOpcode M.opcode = false := by rw [hM]; exact O.vmul_not_pseudo
  have hneM : M.opcode ≠ T.kThumb2Vaddd := by rw [hM]; exact O.vmul_ne_vadd
  have hb' : h :: body = pre ++ M :: (sk ++ A :: suf) := by rw [hb]; simp
  have hlen : (pre ++ M :: (sk ++ A :: suf)).length < body.length + 2 := by
    rw [← hb']; simp
  obtain ⟨pre', fuel', hf', hepre, harr⟩ :=
    mulLoop_arrive T hl hpM hneM (sk ++ A :: suf) (body.length + 2) pre hlen
  obtain ⟨f, rfl⟩ : ∃ f, fuel' = f + 1 := ⟨fuel' - 1, by omega⟩
  have hfind := findNext_skip_run T hlA hpA sk suf hsk
  simp only [List.length_cons, List.length_append] at hf'
  constructor
  · intro hform
    have hmatch : mulMatches T M A = true := (mulMatches_iff T M A).2 hform
    obtain ⟨suf', hsuf, hesuf, -⟩ := mulLoop_spec T f suf (by omega)
    have hloop : mulLoop T (body.length + 2) (h :: body)
        = some (pre' ++ markNop M :: (sk ++ mulFused T M A :: markNop A :: suf')) := by
      rw [hb', harr, mulLoop_match T hl hM f hfind hmatch, hsuf]
      simp
    obtain ⟨b', hb1, hb2⟩ := Block.ofWalk_nodes t (markNop M) pre'
      (sk ++ mulFused T M A :: markNop A :: suf')
    refine ⟨b', pre', suf', mulFused T M A, ?_, ?_, hepre, hesuf, rfl, rfl, rfl, rfl, rfl, rfl⟩
    · simp only [applyMultiplyArithmeticOpts, hloop, Option.bind_some]
      exact hb1
    · rw [hb2]; simp
  · intro hform
    have hmatch : mulMatches T M A = false := by
      cases hmm : mulMatches T M A
      · rfl
      · exact absurd ((mulMatches_iff T M A).1 hmm) hform
    obtain ⟨g, hg⟩ : ∃ g, f = (g + 1) + sk.length := ⟨f - sk.length - 1, by omega⟩
    obtain ⟨out, hout, -, hhead⟩ := mulLoop_spec T (g + 1) (A :: suf)
      (by simp only [List.length_cons]; omega)
    obtain ⟨A', suf', rfl, hstep, hesuf⟩ := hhead A suf rfl
    have hloop : mulLoop T (body.length + 2) (h :: body)
        = some (pre' ++ M :: (sk ++ A' :: suf')) := by
      rw [hb', harr, mulLoop_nomatch T hl hM f hfind hmatch, hg,
        mulLoop_skip_run T O.vmul_not_pseudo (A :: suf) sk (g + 1) hsk, hout]
      simp
    obtain ⟨b', hb1, hb2⟩ := Block.ofWalk_nodes t M pre' (sk ++ A' :: suf')
    refine ⟨b', pre', A', suf', ?_, ?_, hepre, hesuf, ?_⟩
    · simp only [applyMultiplyArithmeticOpts, hloop, Option.bind_some]
      exact hb1
    · rw [hb2]; simp
    · by_cases hop : A.opcode = T.kThumb2Vmuld
      · rcases hstep with h1 | ⟨h1, -, -⟩
        · exact Or.inl h1
        · exact Or.inr ⟨h1, hop⟩
      · rw [mulLoop_keep T (Or.inr hop)] at hout
        cases hs : mulLoop T g suf with
        | none => rw [hs] at hout; exact Option.noConfusion hout
        | some l =>
            rw [hs] at hout
            simp only [Option.map_some', Option.some.injEq, List.cons.injEq] at hout
            exact Or.inl hout.1.symm

/-- Witness of C17: `vmul d9, d9, d10; vadd d8, d8, d9` is fused into a
multiply-accumulate with operands `(d8, d9, d10)`, and a multiply followed by
another multiply is left as it is. -/
theorem C17_witness :
    (∃ b' pre' suf' N,
      applyMultiplyArithmeticOpts sampleTarget
        (.span exHead [exAdd, exVmul, exVadd, exClobber] exTail) = some b' ∧
      b'.nodes = pre' ++ markNop exVmul :: [] ++ N :: markNop exVadd :: suf' ++ [exTail] ∧
      Evolves [exHead, exAdd] pre' ∧ Evolves [exClobber] suf' ∧
      N = mulFused sampleTarget exVmul exVadd ∧ N.isNop = false ∧
      N.opcode = sampleTarget.kThumb2Vmlad ∧
      N.operands.op0 = exVadd.operands.op0 ∧ N.operands.op1 = exVmul.operands.op1 ∧
      N.operands.op2 = exVmul.operands.op2) ∧
    (∃ b' pre' A' suf',
      applyMultiplyArithmeticOpts sampleTarget
        (.span exHead [exVmulOther, exVmul, exVadd] exTail) = some b' ∧
      b'.nodes = pre' ++ exVmulOther :: [] ++ A' :: suf' ++ [exTail] ∧
      Evolves [exHead] pre' ∧ Evolves [exVadd] suf' ∧
      (A' = exVmul ∨ (A' = markNop exVmul ∧ exVmul.opcode = sampleTarget.kThumb2Vmuld))) ∧
    (mulFused sampleTarget exVmul exVadd).operands = ⟨8, 9, 10, 0⟩ :=
  ⟨(C17_multiply_is_folded_into_add sampleTarget sampleTarget_opcodes exHead exTail exVmul exVadd
      [exAdd, exVmul, exVadd, exClobber] [exHead, exAdd] [] [exClobber] (by decide) (by decide)
      (by decide) (fun y hy => absurd hy (List.not_mem_nil y)) (by decide) (by decide)).1
      (by decide),
    (C17_multiply_is_folded_into_add sampleTarget sampleTarget_opcodes exHead exTail exVmulOther
      exVmul [exVmulOther, exVmul, exVadd] [exHead] [] [exVadd] (by decide) (by decide)
      (by decide) (fun y hy => absurd hy (List.not_mem_nil y)) (by decide) (by decide)).2
      (by decide),
    by decide⟩

/-- C11 fails as stated: with all four passes enabled, the first run hoists
the load of `exHoistBlock` two instructions up (in front of `mov r1, r6`), and
a second run hoists the copy one more instruction up (in front of
`add r2, r3, r4`), so the two runs differ in their live instructions. -/
theorem C11_counterexample :
    optDisabled 0 sampleTarget.kLoadStoreElimination = false ∧
    optDisabled 0 sampleTarget.kLoadHoisting = false ∧
    optDisabled 0 sampleTarget.kShiftArithmetic = false ∧
    optDisabled 0 sampleTarget.kMultiplyArithmetic = false ∧
    ∃ b1 b2,
      dvmCompilerApplyLocalOptimizations sampleTarget 0 exHoistBlock = some b1 ∧
      dvmCompilerApplyLocalOptimizations sampleTarget 0 b1 = some b2 ∧
      liveNodes b1.nodes = [exHead, exMovBase, exAdd, exLoad10, exClobber, exAddTwice, exTail] ∧
      liveNodes b2.nodes = [exHead, exMovBase, exLoad10, exAdd, exClobber, exAddTwice, exTail] ∧
      liveNodes b1.nodes ≠ liveNodes b2.nodes :=
  ⟨by decide, by decide, by decide, by decide,
    .span exHead [exMovBase, exAdd, exLoad10, exClobber, exAddTwice, markNop exLoad10] exTail,
    .span exHead [exMovBase, exLoad10, exAdd, markNop exLoad10, exClobber, exAddTwice,
      markNop exLoad10] exTail,
    by decide, by decide, by decide, by decide, by decide⟩
theorem mulFused_live (T : Target) (m a : ArmLIR) : (mulFused T m a).isNop = false := rfl

theorem mulFused_opcode (T : Target) (m a : ArmLIR) :
    (mulFused T m a).opcode = T.kThumb2Vmlad := rfl

theorem Skipped.inert {T : Target} (hv : T.isPseudoOpcode T.kThumb2Vmuld = false) {y : ArmLIR}
    (h : Skipped T y) : y.isNop = true ∨ y.opcode ≠ T.kThumb2Vmuld := by
  rcases h with h | h
  · exact Or.inl h
  · refine Or.inr (fun he => ?_)
    rw [he, hv] at h
    exact Bool.noConfusion h

/-- The first live real node of the result of the multiply fusion is the
first live real node of its input, or a multiply-accumulate put in for it. -/
theorem mulLoop_next (T : Target) (O : T.OpcodesDistinct) :
    ∀ (fuel : Nat) (l out : List ArmLIR), mulLoop T fuel l = some out →
      ∀ sk n af, findNext T l = some (sk, n, af) →
        ∃ sk' n' af', findNext T out = some (sk', n', af') ∧
          (n' = n ∨ n'.opcode = T.kThumb2Vmlad) := by
  intro fuel
  induction fuel with
  | zero => intro l out h; simp [mulLoop] at h
  | succ fuel ih =>
      intro l out hout sk n af hfind
      cases l with
      | nil => simp [findNext] at hfind
      | cons x rest =>
          by_cases hx : Skipped T x
          · rw [findNext_skipped T hx] at hfind
            cases hr : findNext T rest with
            | none => rw [hr] at hfind; exact Option.noConfusion hfind
            | some r =>
                obtain ⟨sk0, n0, af0⟩ := r
                rw [hr] at hfind
                simp only [Option.some.injEq, Prod.mk.injEq] at hfind
                obtain ⟨-, rfl, -⟩ := hfind
                rw [mulLoop_keep T (hx.inert O.vmul_not_pseudo)] at hout
                cases ho : mulLoop T fuel rest with
                | none => rw [ho] at hout; exact Option.noConfusion hout
                | some out0 =>
                    rw [ho] at hout
                    simp only [Option.map_some', Option.some.injEq] at hout
                    subst hout
                    obtain ⟨sk', n', af', h1, h2⟩ := ih rest out0 ho sk0 n0 af0 hr
                    refine ⟨x :: sk', n', af', ?_, h2⟩
                    rw [findNext_skipped T hx, h1]
          · have hl : x.isNop = false := by
              cases hn : x.isNop
              · rfl
              · exact absurd (Or.inl hn) hx
            have hp : T.isPseudoOpcode x.opcode = false := by
              cases hn : T.isPseudoOpcode x.opcode
              · rfl
              · exact absurd (Or.inr hn) hx
            rw [findNext_live T hl hp] at hfind
            simp only [Option.some.injEq, Prod.mk.injEq] at hfind
            obtain ⟨-, rfl, -⟩ := hfind
            have keepCase : mulLoop T (fuel + 1) (x :: rest)
                = (mulLoop T fuel rest).map (x :: ·) →
                ∃ sk' n' af', findNext T out = some (sk', n', af') ∧
                  (n' = x ∨ n'.opcode = T.kThumb2Vmlad) := by
              intro hstep
              rw [hstep] at hout
              cases ho : mulLoop T fuel rest with
              | none => rw [ho] at hout; exact Option.noConfusion hout
              | some out0 =>
                  rw [ho] at hout
                  simp only [Option.map_some', Option.some.injEq] at hout
                  subst hout
                  exact ⟨[], x, out0, findNext_live T hl hp out0, Or.inl rfl⟩
            by_cases hop : x.opcode = T.kThumb2Vmuld
            · cases hf : findNext T rest with
              | none =>
                  rw [mulLoop_end T hl hop fuel hf] at hout
                  simp only [Option.some.injEq] at hout
                  subst hout
                  exact ⟨[], x, rest, findNext_live T hl hp rest, Or.inl rfl⟩
              | some q =>
                  obtain ⟨sk2, n2, af2⟩ := q
                  cases hm : mulMatches T x n2 with
                  | false => exact keepCase (mulLoop_nomatch T hl hop fuel hf hm)
                  | true =>
                      rw [mulLoop_match T hl hop fuel hf hm] at hout
                      cases ho : mulLoop T fuel af2 with
                      | none => rw [ho] at hout; exact Option.noConfusion hout
                      | some out0 =>
                          rw [ho] at hout
                          simp only [Option.map_some', Option.some.injEq] at hout
                          subst hout
                          have hsk2 := (findNext_found T rest _ hf).2.2
                          simp only at hsk2
                          have hrun := findNext_skip_run T (mulFused_live T x n2)
                            (by rw [mulFused_opcode]; exact O.vmla_not_pseudo)
                            (markNop x :: sk2) (markNop n2 :: out0)
                            (by
                              intro y hy
                              rcases List.mem_cons.1 hy with rfl | hy
                              · exact Or.inl rfl
                              · exact hsk2 y hy)
                          exact ⟨_, _, _, by simpa using hrun, Or.inr (mulFused_opcode T x n2)⟩
            · exact keepCase (mulLoop_keep T (Or.inr hop) fuel rest)

/-- The multiply fusion walks over nodes that are nop or no multiply without
changing them. -/
theorem mulLoop_inert_run (T : Target) :
    ∀ (pre : List ArmLIR), (∀ y ∈ pre, y.isNop = true ∨ y.opcode ≠ T.kThumb2Vmuld) →
      ∀ (l : List ArmLIR) (fuel : Nat), mulLoop T fuel l = some l →
        mulLoop T (fuel + pre.length) (pre ++ l) = some (pre ++ l) := by
  intro pre
  induction pre with
  | nil => intro _ l fuel h; simpa using h
  | cons y pre ih =>
      intro hpre l fuel h
      have := ih (fun z hz => hpre z (List.mem_cons_of_mem _ hz)) l fuel h
      rw [List.length_cons, ← Nat.add_assoc, List.cons_append,
        mulLoop_keep T (hpre y (List.mem_cons_self _ _)), this]
      rfl

/-- The result of the multiply fusion is a fixed point of the multiply
fusion. -/
theorem mulLoop_stable (T : Target) (O : T.OpcodesDistinct) :
    ∀ (fuel : Nat) (l out : List ArmLIR), mulLoop T fuel l = some out →
      ∀ fuel', out.length < fuel' → mulLoop T fuel' out = some out := by
  intro fuel
  induction fuel with
  | zero => intro l out h; simp [mulLoop] at h
  | succ fuel ih =>
      intro l out hout fuel' hlen
      obtain ⟨k, rfl⟩ : ∃ k, fuel' = k + 1 := ⟨fuel' - 1, by omega⟩
      cases l with
      | nil =>
          simp only [mulLoop, Option.some.injEq] at hout
          subst hout
          simp [mulLoop]
      | cons x rest =>
          have keepCase : (x.isNop = true ∨ x.opcode ≠ T.kThumb2Vmuld) →
              mulLoop T (k + 1) out = some out := by
            intro hx
            rw [mulLoop_keep T hx] at hout
            cases ho : mulLoop T fuel rest with
            | none => rw [ho] at hout; exact Option.noConfusion hout
            | some out0 =>
                rw [ho] at hout
                simp only [Option.map_some', Option.some.injEq] at hout
                subst hout
                simp only [List.length_cons] at hlen
                rw [mulLoop_keep T hx, ih rest out0 ho k (by omega)]
                rfl
          by_cases hx : x.isNop = true ∨ x.opcode ≠ T.kThumb2Vmuld
          · exact keepCase hx
          · have hl : x.isNop = false := by
              cases hn : x.isNop
              · rfl
              · exact absurd (Or.inl hn) hx
            have hop : x.opcode = T.kThumb2Vmuld := by
              by_contra hne
              exact hx (Or.inr hne)
            cases hf : findNext T rest with
            | none =>
                rw [mulLoop_end T hl hop fuel hf] at hout
                simp only [Option.some.injEq] at hout
                subst hout
                exact mulLoop_end T hl hop k hf
            | some q =>
                obtain ⟨sk2, n2, af2⟩ := q
                cases hm : mulMatches T x n2 with
                | false =>
                    rw [mulLoop_nomatch T hl hop fuel hf hm] at hout
                    cases ho : mulLoop T fuel rest with
                    | none => rw [ho] at hout; exact Option.noConfusion hout
                    | some out0 =>
                        rw [ho] at hout
                        simp only [Option.map_some', Option.some.injEq] at hout
                        subst hout
                        simp only [List.length_cons] at hlen
                        obtain ⟨sk', n', af', h1, h2⟩ :=
                          mulLoop_next T O fuel rest out0 ho sk2 n2 af2 hf
                        have hm' : mulMatches T x n' = false := by
                          rcases h2 with rfl | h2
                          · exact hm
                          · cases hmm : mulMatches T x n'
                            · rfl
                            · exact absurd ((mulMatches_opcode hmm).symm.trans h2).symm
                                O.vmla_ne_vadd
                        rw [mulLoop_nomatch T hl hop k h1 hm', ih rest out0 ho k (by omega)]
                        rfl
                | true =>
                    rw [mulLoop_match T hl hop fuel hf hm] at hout
                    cases ho : mulLoop T fuel af2 with
                    | none => rw [ho] at hout; exact Option.noConfusion hout
                    | some out0 =>
                        rw [ho] at hout
                        simp only [Option.map_some', Option.some.injEq] at hout
                        subst hout
                        have hsk2 := (findNext_found T rest _ hf).2.2
                        simp only at hsk2
                        have hinert : ∀ y ∈ markNop x :: sk2 ++ [mulFused T x n2, markNop n2],
                            y.isNop = true ∨ y.opcode ≠ T.kThumb2Vmuld := by
                          intro y hy
                          simp only [List.cons_append, List.mem_cons, List.mem_append,
                            List.mem_singleton, List.not_mem_nil, or_false] at hy
                          rcases hy with rfl | hy | rfl | rfl
                          · exact Or.inl rfl
                          · exact (hsk2 y hy).inert O.vmul_not_pseudo
                          · exact Or.inr (by rw [mulFused_opcode]; exact O.vmla_ne_vmul)
                          · exact Or.inl rfl
                        simp only [List.length_cons, List.length_append] at hlen
                        have hst := ih af2 out0 ho (k + 1 - (sk2.length + 3)) (by omega)
                        have hrun := mulLoop_inert_run T _ hinert out0 _ hst
                        have hk : k + 1 - (sk2.length + 3)
                            + (markNop x :: sk2 ++ [mulFused T x n2, markNop n2]).length
                            = k + 1 := by
                          simp only [List.length_cons, List.length_append, List.length_nil]
                          omega
                        rw [hk] at hrun
                        simpa using hrun

/-- The result of `applyMultiplyArithmeticOpts` is a fixed point of it. -/
theorem applyMultiplyArithmeticOpts_stable (T : Target) (O : T.OpcodesDistinct)
    (b b' : Block) (h : applyMultiplyArithmeticOpts T b = some b') :
    applyMultiplyArithmeticOpts T b' = some b' := by
  cases b with
  | single n =>
      simp only [applyMultiplyArithmeticOpts, Option.some.injEq] at h
      subst h
      rfl
  | span hd body t =>
      simp only [applyMultiplyArithmeticOpts] at h
      cases ho : mulLoop T (body.length + 2) (hd :: body) with
      | none => rw [ho] at h; exact Option.noConfusion h
      | some out =>
          rw [ho] at h
          cases out with
          | nil => exact Option.noConfusion h
          | cons h' body' =>
              have hb : Block.span h' body' t = b' := Option.some.inj h
              subst hb
              have := mulLoop_stable T O _ _ _ ho (body'.length + 2)
                (by simp only [List.length_cons]; omega)
              simp only [applyMultiplyArithmeticOpts, this]
              rfl

/-- With the first three passes disabled the driver is the multiply
fusion. -/
theorem dvmCompilerApplyLocalOptimizations_mul_only (T : Target) (d : Nat) (b : Block)
    (h1 : optDisabled d T.kLoadStoreElimination = true)
    (h2 : optDisabled d T.kLoadHoisting = true)
    (h3 : optDisabled d T.kShiftArithmetic = true)
    (h4 : optDisabled d T.kMultiplyArithmetic = false) :
    dvmCompilerApplyLocalOptimizations T d b = applyMultiplyArithmeticOpts T b := by
  simp [dvmCompilerApplyLocalOptimizations, runUnlessDisabled, h1, h2, h3, h4]

/-- C11 (amended): a second run of the optimizer on the result of a first
run returns, keeps every node of that result in order and only sets further
`isNop` flags or inserts nodes, whatever passes are enabled; with the
multiply-add fusion as the only enabled pass the second run changes nothing,
so both runs have the same sequence of live instructions. -/
theorem C11_second_run_only_refines (T : Target) (hT : T.WellFormed) (O : T.OpcodesDistinct)
    (b : Block) :
    (∀ d, ∃ b1 b2,
      dvmCompilerApplyLocalOptimizations T d b = some b1 ∧
      dvmCompilerApplyLocalOptimizations T d b1 = some b2 ∧
      BlockEvolves T b1 b2 ∧ Evolves b1.nodes b2.nodes) ∧
    (∀ d, optDisabled d T.kLoadStoreElimination = true →
      optDisabled d T.kLoadHoisting = true →
      optDisabled d T.kShiftArithmetic = true →
      optDisabled d T.kMultiplyArithmetic = false →
      ∃ b1 b2,
        dvmCompilerApplyLocalOptimizations T d b = some b1 ∧
        dvmCompilerApplyLocalOptimizations T d b1 = some b2 ∧
        b2 = b1 ∧ liveNodes b2.nodes = liveNodes b1.nodes) := by
  constructor
  · intro d
    obtain ⟨b1, h1, -⟩ := dvmCompilerApplyLocalOptimizations_spec hT d b
    obtain ⟨b2, h2, e2⟩ := dvmCompilerApplyLocalOptimizations_spec hT d b1
    exact ⟨b1, b2, h1, h2, e2, e2.nodes⟩
  · intro d h1 h2 h3 h4
    obtain ⟨b1, hb1, -⟩ := dvmCompilerApplyLocalOptimizations_spec hT d b
    refine ⟨b1, b1, hb1, ?_, rfl, rfl⟩
    rw [dvmCompilerApplyLocalOptimizations_mul_only T d _ h1 h2 h3 h4] at hb1 ⊢
    exact applyMultiplyArithmeticOpts_stable T O b b1 hb1

/-- Witness of C11: two runs on `exHoistBlock` with every pass enabled, and
two runs of the multiply fusion alone (flags word 7) on a block with a
multiply and an add to fuse. -/
theorem C11_witness :
    ((∀ d, ∃ b1 b2,
      dvmCompilerApplyLocalOptimizations sampleTarget d exHoistBlock = some b1 ∧
      dvmCompilerApplyLocalOptimizations sampleTarget d b1 = some b2 ∧
      BlockEvolves sampleTarget b1 b2 ∧ Evolves b1.nodes b2.nodes) ∧
    (∀ d, optDisabled d sampleTarget.kLoadStoreElimination = true →
      optDisabled d sampleTarget.kLoadHoisting = true →
      optDisabled d sampleTarget.kShiftArithmetic = true →
      optDisabled d sampleTarget.kMultiplyArithmetic = false →
      ∃ b1 b2,
        dvmCompilerApplyLocalOptimizations sampleTarget d exHoistBlock = some b1 ∧
        dvmCompilerApplyLocalOptimizations sampleTarget d b1 = some b2 ∧
        b2 = b1 ∧ liveNodes b2.nodes = liveNodes b1.nodes)) ∧
    (∃ b1 b2,
      dvmCompilerApplyLocalOptimizations sampleTarget 7
        (.span exHead [exAdd, exVmul, exVadd, exClobber] exTail) = some b1 ∧
      dvmCompilerApplyLocalOptimizations sampleTarget 7 b1 = some b2 ∧
      b2 = b1 ∧ liveNodes b2.nodes = liveNodes b1.nodes) :=
  ⟨C11_second_run_only_refines sampleTarget sampleTarget_wf sampleTarget_opcodes exHoistBlock,
    (C11_second_run_only_refines sampleTarget sampleTarget_wf sampleTarget_opcodes
      (.span exHead [exAdd, exVmul, exVadd, exClobber] exTail)).2 7
      (by decide) (by decide) (by decide) (by decide)⟩

/-- C21: with the wide bit decoded as 0 or 1, `isDalvikRegisterClobbered`
returns true if and only if the index ranges `[lo1, hi1]` and `[lo2, hi2]`
share an index, `lo` being the decoded register index and `hi = lo + wide`;
it is symmetric in its two arguments and true whenever the two `aliasInfo`
values are equal. -/
theorem C21_clobbered_iff_ranges_share_an_index
    (T : Target)
    (hw : ∀ a, T.DECODE_ALIAS_INFO_WIDE a = 0 ∨ T.DECODE_ALIAS_INFO_WIDE a = 1)
    (lir1 lir2 : ArmLIR) :
    (isDalvikRegisterClobbered T lir1 lir2 = true ↔
      ∃ i : Int,
        (T.DECODE_ALIAS_INFO_REG lir1.aliasInfo ≤ i ∧
          i ≤ T.DECODE_ALIAS_INFO_REG lir1.aliasInfo + T.DECODE_ALIAS_INFO_WIDE lir1.aliasInfo) ∧
        (T.DECODE_ALIAS_INFO_REG lir2.aliasInfo ≤ i ∧
          i ≤ T.DECODE_ALIAS_INFO_REG lir2.aliasInfo
            + T.DECODE_ALIAS_INFO_WIDE lir2.aliasInfo)) ∧
    isDalvikRegisterClobbered T lir1 lir2 = isDalvikRegisterClobbered T lir2 lir1 ∧
    (lir1.aliasInfo = lir2.aliasInfo → isDalvikRegisterClobbered T lir1 lir2 = true) := by
  refine ⟨?_, ?_, ?_⟩
  · simp only [isDalvikRegisterClobbered, Bool.or_eq_true, beq_iff_eq]
    generalize T.DECODE_ALIAS_INFO_REG lir1.aliasInfo = lo1
    generalize T.DECODE_ALIAS_INFO_REG lir2.aliasInfo = lo2
    have h1 := hw lir1.aliasInfo
    have h2 := hw lir2.aliasInfo
    generalize T.DECODE_ALIAS_INFO_WIDE lir1.aliasInfo = w1 at h1 ⊢
    generalize T.DECODE_ALIAS_INFO_WIDE lir2.aliasInfo = w2 at h2 ⊢
    constructor
    · rintro ((h | h) | h)
      · exact ⟨lo1, ⟨le_refl _, by omega⟩, by omega, by omega⟩
      · exact ⟨lo1, ⟨le_refl _, by omega⟩, by omega, by omega⟩
      · exact ⟨lo2, ⟨by omega, by omega⟩, le_refl _, by omega⟩
    · rintro ⟨i, ⟨a1, a2⟩, b1, b2⟩
      omega
  · simp only [isDalvikRegisterClobbered]
    generalize T.DECODE_ALIAS_INFO_REG lir1.aliasInfo = lo1
    generalize T.DECODE_ALIAS_INFO_REG lir2.aliasInfo = lo2
    generalize T.DECODE_ALIAS_INFO_WIDE lir1.aliasInfo = w1
    generalize T.DECODE_ALIAS_INFO_WIDE lir2.aliasInfo = w2
    rw [Bool.eq_iff_iff]
    simp only [Bool.or_eq_true, beq_iff_eq]
    constructor
    · rintro ((h | h) | h)
      · exact Or.inl (Or.inl h.symm)
      · exact Or.inr h.symm
      · exact Or.inl (Or.inr h.symm)
    · rintro ((h | h) | h)
      · exact Or.inl (Or.inl h.symm)
      · exact Or.inr h.symm
      · exact Or.inl (Or.inr h.symm)
  · intro h
    simp [isDalvikRegisterClobbered, h]

/-- Witness of C21: the wide load `exWideLoad` (Dalvik registers 4 and 5)
and the store `exStore` (Dalvik register 5) share index 5. -/
theorem C21_witness :
    ((isDalvikRegisterClobbered sampleTarget exWideLoad exStore = true ↔
      ∃ i : Int,
        (sampleTarget.DECODE_ALIAS_INFO_REG exWideLoad.aliasInfo ≤ i ∧
          i ≤ sampleTarget.DECODE_ALIAS_INFO_REG exWideLoad.aliasInfo
            + sampleTarget.DECODE_ALIAS_INFO_WIDE exWideLoad.aliasInfo) ∧
        (sampleTarget.DECODE_ALIAS_INFO_REG exStore.aliasInfo ≤ i ∧
          i ≤ sampleTarget.DECODE_ALIAS_INFO_REG exStore.aliasInfo
            + sampleTarget.DECODE_ALIAS_INFO_WIDE exStore.aliasInfo)) ∧
    isDalvikRegisterClobbered sampleTarget exWideLoad exStore
      = isDalvikRegisterClobbered sampleTarget exStore exWideLoad ∧
    (exWideLoad.aliasInfo = exStore.aliasInfo →
      isDalvikRegisterClobbered sampleTarget exWideLoad exStore = true)) ∧
    isDalvikRegisterClobbered sampleTarget exWideLoad exStore = true ∧
    isDalvikRegisterClobbered sampleTarget exWideLoad exLoad10 = false :=
  ⟨C21_clobbered_iff_ranges_share_an_index sampleTarget
    (fun a => by
      show (if Int.land a 0x80000000 = 0 then (0 : Int) else 1) = 0 ∨
        (if Int.land a 0x80000000 = 0 then (0 : Int) else 1) = 1
      split
      · exact Or.inl rfl
      · exact Or.inr rfl)
    exWideLoad exStore, by decide, by decide⟩

/-- C22 (the code against the claim): for every pair `(M, A)` that the
multiply fusion fuses and every register file, the fused `vmla` leaves in the
accumulator `A.operands[0]` the value `acc + a * b`; executing `M` and then
`A` leaves the same value there when the accumulator is not the destination
of `M`, but `a * b + a * b` when it is (`vmul d, a, b; vadd d, d, d` matches
the pattern as well). -/
theorem C22_fused_value_in_accumulator {α : Type} [Add α] [Mul α]
    (T : Target) (M A : ArmLIR) (R : Int → α) (hm : mulMatches T M A = true) :
    execVmla R (mulFused T M A) A.operands.op0
      = R A.operands.op0 + R M.operands.op1 * R M.operands.op2 ∧
    (A.operands.op0 ≠ M.operands.op0 →
      execVadd (execVmul R M) A A.operands.op0
        = execVmla R (mulFused T M A) A.operands.op0) ∧
    (A.operands.op0 = M.operands.op0 →
      execVadd (execVmul R M) A A.operands.op0
        = R M.operands.op1 * R M.operands.op2 + R M.operands.op1 * R M.operands.op2) := by
  obtain ⟨-, h01, h2⟩ := (mulMatches_iff T M A).1 hm
  have hf : execVmla R (mulFused T M A) A.operands.op0
      = R A.operands.op0 + R M.operands.op1 * R M.operands.op2 := by
    simp [execVmla, setReg, mulFused, dvmCompilerSetupResourceMasks]
  refine ⟨hf, ?_, ?_⟩
  · intro hne
    rw [hf]
    simp [execVadd, execVmul, setReg, ← h01, h2, hne]
  · intro he
    simp [execVadd, execVmul, setReg, ← h01, h2, he]

/-- Witness of C22: on `vmul d9, d9, d10; vadd d8, d8, d9` both ways leave
`5 + 2 * 3 = 11` in `d8`; on `vmul d8, d9, d10; vadd d8, d8, d8`, which the
pass fuses as well, the fused `vmla` leaves 11 and the original pair 12. -/
theorem C22_witness :
    (execVmla exRegs (mulFused sampleTarget exVmul exVadd) 8 = 11 ∧
      execVadd (execVmul exRegs exVmul) exVadd 8 = 11) ∧
    applyMultiplyArithmeticOpts sampleTarget (.span exHead [exVmulAcc, exVaddSelf] exTail)
      = some (.span exHead
          [markNop exVmulAcc, mulFused sampleTarget exVmulAcc exVaddSelf, markNop exVaddSelf]
          exTail) ∧
    (mulFused sampleTarget exVmulAcc exVaddSelf).operands = ⟨8, 9, 10, 0⟩ ∧
    execVmla exRegs (mulFused sampleTarget exVmulAcc exVaddSelf) 8 = 11 ∧
    execVadd (execVmul exRegs exVmulAcc) exVaddSelf 8 = 12 :=
  have h1 := C22_fused_value_in_accumulator sampleTarget exVmul exVadd exRegs (by decide)
  have h2 := C22_fused_value_in_accumulator sampleTarget exVmulAcc exVaddSelf exRegs (by decide)
  ⟨⟨h1.1.trans (by decide), (h1.2.1 (by decide)).trans (h1.1.trans (by decide))⟩,
    by decide, by decide, h2.1.trans (by decide), (h2.2.2 (by decide)).trans (by decide)⟩

theorem hoistSelect_eq (T : Target) (P : List Slot) :
    hoistSelect T P =
      if 2 ≤ P.length then
        match P[P.length - 1]? with
        | none => none
        | some depLIR =>
            if hoistFirstSlot T P depLIR < 0 then some none
            else hoistSlotLoop T P (hoistFirstSlot T P depLIR).toNat
      else some none := rfl

theorem hoistSlotTrace_le (T : Target) (P : List Slot) :
    ∀ n s, s ∈ hoistSlotTrace T P n → s ≤ n := by
  intro n
  induction n with
  | zero => intro s hs; simp only [hoistSlotTrace, List.mem_singleton] at hs; omega
  | succ n ih =>
      intro s hs
      simp only [hoistSlotTrace] at hs
      split at hs
      · rcases List.mem_cons.1 hs with h | h
        · omega
        · have := ih s h; omega
      · simp only [List.mem_singleton] at hs; omega

/-- The slot the loop ends with is one at which its body ran. -/
theorem hoistSlotLoop_trace (T : Target) (P : List Slot) :
    ∀ n s, hoistSlotLoop T P n = some (some s) → s ∈ hoistSlotTrace T P n := by
  intro n
  induction n with
  | zero =>
      intro s h
      simp only [hoistSlotLoop] at h
      split at h
      · exact Option.noConfusion h
      · simp only [Option.some.injEq] at h
        simp [hoistSlotTrace, ← h]
      · simp at h
  | succ n ih =>
      intro s h
      simp only [hoistSlotLoop] at h
      split at h
      · exact Option.noConfusion h
      · rename_i ht
        simp only [Option.some.injEq] at h
        simp [hoistSlotTrace, ht, ← h]
      · rename_i ht
        simp only [hoistSlotTrace, ht]
        exact List.mem_cons_of_mem _ (ih s h)

/-- Every slot at which the body of the slot loop runs has a written entry
above it. -/
theorem hoistSelectTrace_lt (T : Target) (P : List Slot) :
    ∀ s ∈ hoistSelectTrace T P, s + 1 < P.length := by
  intro s hs
  unfold hoistSelectTrace at hs
  split at hs
  · rename_i h2
    split at hs
    · simp at hs
    · rename_i depLIR _
      split at hs
      · simp at hs
      · rename_i hneg
        have hle := hoistSlotTrace_le T P _ s hs
        have hfs : hoistFirstSlot T P depLIR ≤ (P.length : Int) - 2 := by
          unfold hoistFirstSlot
          split <;> simp [LDLD_DISTANCE]
        omega
  · simp at hs

theorem hoistSelect_trace (T : Target) (P : List Slot) (s : Nat)
    (h : hoistSelect T P = some (some s)) : s ∈ hoistSelectTrace T P := by
  rw [hoistSelect_eq] at h
  unfold hoistSelectTrace
  split
  · rw [if_pos (by assumption)] at h
    split
    · rename_i hd
      rw [hd] at h
      exact Option.noConfusion h
    · rename_i depLIR hd
      rw [hd] at h
      simp only at h
      split
      · rename_i hneg
        rw [if_pos hneg] at h
        simp at h
      · rename_i hneg
        rw [if_neg hneg] at h
        exact hoistSlotLoop_trace T P _ s h
  · rw [if_neg (by assumption)] at h
    simp at h

/-- C24: for every load processed by load hoisting and every run of nodes
before it, `prevInstList` holds at most `MAX_HOIST_DISTANCE = 20` entries, so
every write goes to an index below 20; `depLIR = prevInstList[nextSlot - 1]`
is read only with two entries or more written; at every slot where the body
of the slot loop runs, `slot` and `slot + 1` are below `nextSlot`; with a
negative `firstSlot` the body does not run and no slot is found; the slot the
loop ends with is below `nextSlot`, and the visit of the load reads no entry
that was not written. -/
theorem C24_prevInstList_indices_in_bounds
    (T : Target) (headLIR thisLIR : ArmLIR) (back : List ArmLIR) :
    (hoistCollect T headLIR back thisLIR).length ≤ MAX_HOIST_DISTANCE ∧
    MAX_HOIST_DISTANCE = 20 ∧
    (∀ i e, (hoistCollect T headLIR back thisLIR)[i]? = some e → i < 20) ∧
    (2 ≤ (hoistCollect T headLIR back thisLIR).length →
      ∃ depLIR, (hoistCollect T headLIR back thisLIR)[
        (hoistCollect T headLIR back thisLIR).length - 1]? = some depLIR) ∧
    (∀ slot ∈ hoistSelectTrace T (hoistCollect T headLIR back thisLIR),
      slot + 1 < (hoistCollect T headLIR back thisLIR).length ∧
      ∃ curLIR prevLIR,
        (hoistCollect T headLIR back thisLIR)[slot]? = some curLIR ∧
        (hoistCollect T headLIR back thisLIR)[slot + 1]? = some prevLIR) ∧
    (∀ depLIR,
      (hoistCollect T headLIR back thisLIR)[
        (hoistCollect T headLIR back thisLIR).length - 1]? = some depLIR →
      hoistFirstSlot T (hoistCollect T headLIR back thisLIR) depLIR < 0 →
      hoistSelectTrace T (hoistCollect T headLIR back thisLIR) = [] ∧
        hoistSelect T (hoistCollect T headLIR back thisLIR) = some none) ∧
    (∃ o, hoistSelect T (hoistCollect T headLIR back thisLIR) = some o ∧
      ∀ slot, o = some slot →
        slot ∈ hoistSelectTrace T (hoistCollect T headLIR back thisLIR) ∧
        slot < (hoistCollect T headLIR back thisLIR).length ∧
        ∃ curLIR, (hoistCollect T headLIR back thisLIR)[slot]? = some curLIR) ∧
    ∃ r, hoistVisit T headLIR back thisLIR = some r := by
  obtain ⟨-, -, -, -, hlen, -⟩ := hoistCollect_spec T headLIR back thisLIR
  generalize hoistCollect T headLIR back thisLIR = P at hlen ⊢
  obtain ⟨o, ho, hsel⟩ := hoistSelect_spec T P
  obtain ⟨r, hr, -⟩ := hoistVisit_spec T headLIR back thisLIR
  refine ⟨hlen, rfl, ?_, ?_, ?_, ?_, ⟨o, ho, ?_⟩, ⟨r, hr⟩⟩
  · intro i e he
    have := getElem?_lt_length he
    simp only [MAX_HOIST_DISTANCE] at hlen
    omega
  · intro h2
    exact ⟨_, List.getElem?_eq_getElem (by omega)⟩
  · intro slot hslot
    have hlt := hoistSelectTrace_lt T P slot hslot
    exact ⟨hlt, _, _, List.getElem?_eq_getElem (by omega), List.getElem?_eq_getElem hlt⟩
  · intro depLIR hd hneg
    constructor
    · unfold hoistSelectTrace
      split
      · rw [hd]; simp only [hneg, if_true]
      · rfl
    · rw [hoistSelect_eq]
      split
      · rw [hd]; simp only [hneg, if_true]
      · rfl
  · intro slot hs
    rw [hs] at ho
    have hlt := hsel slot hs
    exact ⟨hoistSelect_trace T P slot ho, by omega, _, List.getElem?_eq_getElem (by omega)⟩

/-- C9: for every block whose head is a label (a pseudo instruction, as the
sentinels are) and every setting of the disable flags, the driver returns a
block with the same head node and the same tail node, so it sets `isNop` on
neither; a block whose head and tail are one node is returned as it is. -/
theorem C9_sentinels_keep_isNop (T : Target) (hT : T.WellFormed)
    (O : T.OpcodesDistinct) (disableOpt : Nat) (h t : ArmLIR) (body : List ArmLIR)
    (hp : T.isPseudoOpcode h.opcode = true) :
    (∃ h' body' t', dvmCompilerApplyLocalOptimizations T disableOpt (.span h body t)
        = some (.span h' body' t') ∧ h' = h ∧ t' = t ∧
      h'.isNop = h.isNop ∧ t'.isNop = t.isNop) ∧
    dvmCompilerApplyLocalOptimizations T disableOpt (.single h) = some (.single h) := by
  constructor
  · obtain ⟨b', hb, e⟩ := dvmCompilerApplyLocalOptimizations_spec hT disableOpt (.span h body t)
    cases e with
    | span _ hh he =>
        rename_i h' body'
        have hh' : h' = h := by
          rcases hh with h1 | ⟨-, -, h3 | h3⟩
          · exact h1
          · rw [O.shift_not_pseudo _ h3] at hp
            exact Bool.noConfusion hp
          · rw [h3, O.vmul_not_pseudo] at hp
            exact Bool.noConfusion hp
        exact ⟨h', body', t, hb, hh', rfl, by rw [hh'], rfl⟩
  · obtain ⟨b', hb, e⟩ := dvmCompilerApplyLocalOptimizations_spec hT disableOpt (.single h)
    cases e with
    | single _ => exact hb

/-- Witness of C9: the driver with every pass enabled on `exBlock`, whose
head is the label `exHead`. -/
theorem C9_witness :
    (∃ h' body' t', dvmCompilerApplyLocalOptimizations sampleTarget 0
        (.span exHead [exStore, exAdd, exClobber, exLoad10, exLsl, exAddShifted] exTail)
        = some (.span h' body' t') ∧ h' = exHead ∧ t' = exTail ∧
      h'.isNop = exHead.isNop ∧ t'.isNop = exTail.isNop) ∧
    dvmCompilerApplyLocalOptimizations sampleTarget 0 (.single exHead)
      = some (.single exHead) :=
  C9_sentinels_keep_isNop sampleTarget sampleTarget_wf sampleTarget_opcodes 0 exHead exTail
    [exStore, exAdd, exClobber, exLoad10, exLsl, exAddShifted] (by decide)

/-- When the scan of a store stops for a memory reason, the two nodes share
a memory region that is not the whole of `ENCODE_MEM`, and the store is
marked nop exactly in the WAW case: the shared region is the Dalvik frame,
the `aliasInfo` values are equal and `checkLIR` is no load. -/
theorem lseCheck_memStop_store {T : Target} {thisLIR x : ArmLIR} {sink : Nat} {nuke : Bool}
    (hstore : isLoad T thisLIR = false)
    (h : lseCheck T thisLIR sink x = .memStop nuke) :
    (memMask T x ≠ T.ENCODE_MEM ∧ memMask T thisLIR &&& memMask T x ≠ 0) ∧
    (nuke = true ↔
      (memMask T thisLIR &&& memMask T x = T.ENCODE_DALVIK_REG ∧
        x.aliasInfo = thisLIR.aliasInfo ∧ isLoad T x = false)) := by
  have hl : x.isNop = false := lseCheck_live (by rw [h]; exact LseAction.noConfusion)
  simp only [lseCheck, hl, Bool.false_eq_true, if_false, hstore, Bool.false_and, Bool.not_false,
    Bool.true_and, Bool.false_or] at h
  have nofw : lseForward T thisLIR x ≠ .memStop nuke := by
    rcases lseForward_cases T thisLIR x with hf | hf <;> rw [hf] <;> exact LseAction.noConfusion
  have noreg : lseRegCheck T thisLIR sink x ≠ .memStop nuke := by
    rcases lseRegCheck_cases T thisLIR sink x with hc | hc <;> rw [hc.1] <;>
      exact LseAction.noConfusion
  split_ifs at h with h1 h2 h3 h4 h5 h6 h7 h8 h9
  all_goals first | exact absurd h nofw | exact absurd h noreg | skip
  all_goals
    simp only [Bool.and_eq_true, bne_iff_ne, ne_eq, beq_iff_eq] at h1
    refine ⟨h1, ?_⟩
    simp only [LseAction.memStop.injEq] at h
    subst h
  · simp [h6]
  · simp only [beq_iff_eq] at h4 h5
    simp only [Bool.not_eq_true] at h6
    simp [h4, h5, h6]
  · simp only [beq_iff_eq] at h5
    simp [h5]

/-- C18 (amended): in load/store elimination, for every store `thisLIR` and
every state of the forward scan with `sinkDistance > 0`: when the scan ends
at `checkLIR` for a register dependence (the `break` at line 259), a copy of
`thisLIR` is inserted immediately before `checkLIR` and `thisLIR` is marked
nop; when it ends for a memory reason (the `break` at line 224), nothing is
inserted, and `thisLIR` is marked nop exactly in the WAW case, that is when
`checkLIR` is no load and accesses the same Dalvik-register slot. -/
theorem C18_store_sinks_on_register_stop
    (T : Target) (thisLIR c : ArmLIR) (fuel sink : Nat) (killed : List Nat)
    (done rest : List ArmLIR) (hstore : isLoad T thisLIR = false) (hsink : sink ≠ 0) :
    (∀ b, lseCheck T thisLIR sink c = .regStop b →
      CHECK_REG_DEP (lseStopUseRegMask T thisLIR) (stopDefRegMask T thisLIR) c = true ∧
      lseScan T thisLIR (fuel + 1) sink killed done (c :: rest)
        = some ⟨done.reverse ++ thisLIR :: c :: rest, true, some done.length, killed⟩) ∧
    (∀ nuke, lseCheck T thisLIR sink c = .memStop nuke →
      (memMask T c ≠ T.ENCODE_MEM ∧ memMask T thisLIR &&& memMask T c ≠ 0) ∧
      lseScan T thisLIR (fuel + 1) sink killed done (c :: rest)
        = some ⟨done.reverse ++ c :: rest, nuke, none, killed⟩ ∧
      (nuke = true ↔
        (memMask T thisLIR &&& memMask T c = T.ENCODE_DALVIK_REG ∧
          c.aliasInfo = thisLIR.aliasInfo ∧ isLoad T c = false))) := by
  constructor
  · intro b hb
    have hb' := lseCheck_regStop_arg hb
    have : b = true := by rw [hb'.1]; simp [hsink, hstore]
    subst this
    exact ⟨hb'.2, by simp [lseScan, hb]⟩
  · intro nuke hn
    obtain ⟨h1, h2⟩ := lseCheck_memStop_store hstore hn
    exact ⟨h1, by simp [lseScan, hn], h2⟩

/-- Witness of C18 (amended): after passing `exAdd` the scan for `exStore`
stops at `exClobber`, which writes `r1`, and the store is sunk there; stopped
at the overlapping wide load `exWideLoad` it is left alone, and stopped at
the store `exStore2` into the same slot it is marked nop. -/
theorem C18_witness :
    (CHECK_REG_DEP (lseStopUseRegMask sampleTarget exStore) (stopDefRegMask sampleTarget exStore)
        exClobber = true ∧
      lseScan sampleTarget exStore 3 1 [] [exAdd] [exClobber]
        = some ⟨[exAdd].reverse ++ exStore :: exClobber :: [], true, some [exAdd].length, []⟩) ∧
    lseScan sampleTarget exStore 3 1 [] [exAdd] [exWideLoad]
      = some ⟨[exAdd].reverse ++ exWideLoad :: [], false, none, []⟩ ∧
    lseScan sampleTarget exStore 3 1 [] [exAdd] [exStore2]
      = some ⟨[exAdd].reverse ++ exStore2 :: [], true, none, []⟩ :=
  ⟨(C18_store_sinks_on_register_stop sampleTarget exStore exClobber 2 1 [] [exAdd] []
      (by decide) (by decide)).1 true (by decide),
    ((C18_store_sinks_on_register_stop sampleTarget exStore exWideLoad 2 1 [] [exAdd] []
      (by decide) (by decide)).2 false (by decide)).2.1,
    ((C18_store_sinks_on_register_stop sampleTarget exStore exStore2 2 1 [] [exAdd] []
      (by decide) (by decide)).2 true (by decide)).2.1⟩

end LocalOpt
